import Mathlib

/-!
# Aufgabe 2: recursive ray tracer (`math.tcc`, `raytracer.cc`)

Shallow embedding of the vector algebra of `math.tcc` and of the shading,
refraction and colour evaluation of `raytracer.cc`.

Modelling conventions
* `float` is idealised in the embedding of the shading and refraction code: scalars range
  over an arbitrary linear ordered field `F` with exact arithmetic. Decimal literals such
  as `0.08f` denote the corresponding rational.
* Where rounding, overflow or underflow decide a statement, the code is embedded a second
  time in `float` arithmetic (`Float_value`, `Float_format`): every operation returns the
  exact result rounded to nearest, ties to even, with gradual underflow, overflow to an
  infinity and NaN. These embeddings carry the suffix `_float`: `Vector::normalize` with
  `length` and `square_of_length`, and `get_ray_direction`. Each operation is rounded
  separately (no fused multiply-add, no excess precision); the sign of zero is not
  represented.
* `std::sqrt` and everything declared in `geometry.h` (the two `Sphere::intersects`
  overloads, the default-constructed `Intersection_Context` and `Ray`) as well as
  `std::numeric_limits<float>::max()` are not part of the sources; they are
  collected in the record `Externals` and every function takes them as a parameter.
* `assert` is fatal: a function that may hit a failing assertion returns `Option`,
  `none` standing for the abort.
* `lambertian` divides the accumulated intensity by `lights.size()`. With no light the code
  computes `0.0f / 0`, which is NaN; the exact field has no such value, so every statement
  that reaches the division assumes at least one light.
* `int` is modelled by the integers; `static_cast<int>` of a `float` truncates toward
  zero and is undefined outside the range of a 32-bit `int` (`Float_value.to_int` returns
  `none` there).
-/

namespace Raytracer

variable {F : Type} [LinearOrderedField F] {N : Nat}

/-! ## math.tcc -/

/-- The member `vector` of `Vector<FLOAT_TYPE, N>`: N scalars indexed `0 .. N-1`. -/
@[ext]
structure Vector (F : Type) (N : Nat) where
  vector : Fin N → F

/-- The loop of `Vector::Vector(std::initializer_list)`: `n` slots are still to be
filled, `values` is what the iterator has not yet consumed, `prev` is `vector[i-1]`
(or `0.0` for `i = 0`). -/
def Vector.init_values : Nat → List F → F → List F
  | 0, _, _ => []
  | n + 1, x :: rest, _ => x :: Vector.init_values n rest x
  | n + 1, [], prev => prev :: Vector.init_values n [] prev

/-- `Vector::Vector(std::initializer_list<FLOAT_TYPE> values)`. -/
def Vector.ofList (values : List F) : Vector F N :=
  ⟨fun i => (Vector.init_values N values 0).getD i.val 0⟩

/-- `Vector::operator+=` (and the free `operator+` built on it): slot `i` receives
`vector[i] + addend.vector[i]`. -/
def Vector.add (value addend : Vector F N) : Vector F N :=
  ⟨fun i => value.vector i + addend.vector i⟩

/-- `Vector::operator-=` (and the free `operator-` built on it). -/
def Vector.sub (value minuend : Vector F N) : Vector F N :=
  ⟨fun i => value.vector i - minuend.vector i⟩

/-- `operator*(FLOAT_TYPE scalar, Vector value)`, built on `operator*=`. -/
def Vector.smul (scalar : F) (value : Vector F N) : Vector F N :=
  ⟨fun i => value.vector i * scalar⟩

/-- `Vector::operator/=`. -/
def Vector.div_assign (value : Vector F N) (factor : F) : Vector F N :=
  ⟨fun i => value.vector i / factor⟩

/-- `Vector::square_of_length`: the accumulation loop starting from `0.0`. -/
def Vector.square_of_length (v : Vector F N) : F :=
  Fin.foldl N (fun sum_of_squares i => sum_of_squares + v.vector i * v.vector i) 0

/-- `Vector::length`. -/
def Vector.length (sqrt : F → F) (v : Vector F N) : F :=
  sqrt v.square_of_length

/-- The scalar product `operator*(Vector vector1, Vector vector2)`. -/
def Vector.dot (vector1 vector2 : Vector F N) : F :=
  Fin.foldl N (fun scalar_product i => scalar_product + vector1.vector i * vector2.vector i) 0

/-- `Vector::normalize`: the vector after `*this /= length()`. -/
def Vector.normalize (sqrt : F → F) (v : Vector F N) : Vector F N :=
  v.div_assign (v.length sqrt)

/-- `Vector::get_reflective`; `none` when the assertion on the normal fails. -/
def Vector.get_reflective (v normal : Vector F N) : Option (Vector F N) :=
  if 0.99999 < normal.square_of_length ∧ normal.square_of_length < 1.000001 then
    some (v.sub (Vector.smul (2 * v.dot normal) normal))
  else
    none

/-! ## Types used by raytracer.cc -/

/-- `Vector3df`. -/
abbrev Vector3df (F : Type) := Vector F 3

/-- `using color = Vector3df`. -/
abbrev color (F : Type) := Vector3df F

/-- `Ray3df`, as far as `raytracer.cc` uses it. -/
structure Ray3df (F : Type) where
  origin : Vector3df F
  direction : Vector3df F

/-- `Sphere3df`, as far as `raytracer.cc` uses it. -/
structure Sphere3df (F : Type) where
  center : Vector3df F
  radius : F

/-- `Intersection_Context<float, 3>`, as far as `raytracer.cc` uses it. -/
structure Intersection_Context (F : Type) where
  t : F
  intersection : Vector3df F
  normal : Vector3df F

/-- `struct material`. -/
structure material (F : Type) where
  col : color F
  const_light : F
  density : F
  reflectivity : F
  is_transmissive : Bool

/-- `struct hitable`. -/
structure hitable (F : Type) where
  sphere : Sphere3df F
  mat : material F

/-- `struct light`. -/
structure light (F : Type) where
  pos : Vector3df F
  intensity : F

/-- What `raytracer.cc` uses without defining it. -/
structure Externals (F : Type) where
  /-- `std::sqrt` -/
  sqrt : F → F
  /-- `std::numeric_limits<float>::max()` -/
  FLT_MAX : F
  /-- `float Sphere::intersects(Ray3df)` -/
  intersects : Sphere3df F → Ray3df F → F
  /-- `bool Sphere::intersects(Ray3df, Intersection_Context &)` called on a freshly
  default-constructed context: the returned flag and the context afterwards -/
  intersects_context : Sphere3df F → Ray3df F → Bool × Intersection_Context F
  /-- a default-constructed `Intersection_Context<float, 3>` -/
  default_context : Intersection_Context F
  /-- a default-constructed `Ray3df` -/
  default_ray : Ray3df F

/-- The macro `MATTE_BLACK`: `material{{0.2f, 0.2f, 0.2f}, 0.25f}`, the remaining
members keeping their default initialisers. -/
def MATTE_BLACK : material F :=
  { col := Vector.ofList [0.2, 0.2, 0.2], const_light := 0.25, density := 1.0,
    reflectivity := 0.0, is_transmissive := false }

/-- A default-constructed `hitable`. -/
def hitable.default : hitable F :=
  { sphere := { center := Vector.ofList [0.0, 0.0, 0.0], radius := -1.0 }, mat := MATTE_BLACK }

/-! ## raytracer.cc -/

/-- `hit_anything`: the scan over `world` with its early `return true`. -/
def hit_anything (E : Externals F) (to_light : Ray3df F) : List (hitable F) → Bool
  | [] => false
  | obj :: rest =>
    let t := E.intersects obj.sphere to_light
    if 0 < t ∧ t < 1 then true else hit_anything E to_light rest

/-- The ray `to_light_ray` that `lambertian` builds for one light. -/
def to_light_ray (E : Externals F) (context : Intersection_Context F) (l : light F) : Ray3df F :=
  let to_light_direction := l.pos.sub context.intersection
  let to_light_normalized := to_light_direction.normalize E.sqrt
  { origin := context.intersection.add (Vector.smul 0.08 to_light_normalized),
    direction := Vector.smul 0.92 to_light_direction }

/-- One pass through the body of the loop over `lights` in `lambertian`, acting on
`total_light_intensity`. -/
def lambertian_step (E : Externals F) (context : Intersection_Context F)
    (world : List (hitable F)) (total_light_intensity : F) (l : light F) : F :=
  let to_light_direction := l.pos.sub context.intersection
  let to_light_normalized := to_light_direction.normalize E.sqrt
  if !hit_anything E (to_light_ray E context l) world then
    total_light_intensity + l.intensity * max 0 (context.normal.dot to_light_normalized)
  else
    total_light_intensity

/-- `lambertian`. The division by `lights.size()` is meaningful for a non-empty list of
lights only (the code computes `0.0f / 0` otherwise). -/
def lambertian (E : Externals F) (closest : hitable F) (context : Intersection_Context F)
    (world : List (hitable F)) (lights : List (light F)) : color F :=
  if closest.sphere.radius ≠ -1 then
    let total_light_intensity := lights.foldl (lambertian_step E context world) 0.0
    let total_light_intensity := total_light_intensity / (lights.length : F)
    Vector.smul (closest.mat.const_light + total_light_intensity) closest.mat.col
  else
    Vector.ofList [0.0, 0.0, 0.0]

/-- The value of `total_light_intensity` when the loop of `lambertian` over `lights` is
left: the contributions of the lights whose `to_light_ray` is not reported occluded. -/
def lambertian_sum (E : Externals F) (context : Intersection_Context F)
    (world : List (hitable F)) (lights : List (light F)) : F :=
  ((lights.filter fun l => !hit_anything E (to_light_ray E context l) world).map fun l =>
    l.intensity * max 0 (context.normal.dot ((l.pos.sub context.intersection).normalize E.sqrt))).sum

/-- `schlick_approximation`. -/
def schlick_approximation (E : Externals F) (inbound normal : Vector3df F) (obj : hitable F) : F :=
  let cos_x := -1.0 * normal.dot inbound
  let r0 := if cos_x > 0 then (1.0 - obj.mat.density) / (1.0 + obj.mat.density)
            else (obj.mat.density - 1.0) / (obj.mat.density + 1.0)
  let r0 := r0 * r0
  if obj.mat.density > 1.0 then
    let n := obj.mat.density
    let sin_t2 := n * n * (1.0 - cos_x * cos_x)
    if sin_t2 > 1.0 then
      1.0
    else
      let cos_x := E.sqrt (1.0 - sin_t2)
      let x := 1.0 - cos_x
      r0 + (1.0 - r0) * x * x * x * x * x
  else
    let x := 1.0 - cos_x
    r0 + (1.0 - r0) * x * x * x * x * x

/-- `refract`: the returned flag together with the value of the reference parameter
`out` after the call. -/
def refract (E : Externals F) (inr out : Ray3df F) (object : hitable F)
    (context : Intersection_Context F) : Bool × Ray3df F :=
  let normal := context.normal
  let n1 : F := 1.0
  let n2 := object.mat.density
  let cos_theta := -1.0 * normal.dot inr.direction
  let swapped : Bool := cos_theta < 0.0
  let n1s := if swapped then n2 else n1
  let n2s := if swapped then n1 else n2
  let normal := if swapped then Vector.smul (-1.0) normal else normal
  let cos_theta := if swapped then -cos_theta else cos_theta
  let ratio_n1_n2 := n1s / n2s
  let sin_theta := ratio_n1_n2 * E.sqrt (max 0.0 (1.0 - cos_theta * cos_theta))
  if sin_theta > 1.0 then
    (false, out)
  else
    let cos_phi := E.sqrt (max 0.0 (1.0 - sin_theta * sin_theta))
    let direction := (Vector.smul ratio_n1_n2 inr.direction).add
      (Vector.smul (ratio_n1_n2 * cos_theta - cos_phi) normal)
    (true, { origin := context.intersection.add (Vector.smul 0.08 direction),
             direction := direction })

/-- The state of the nearest-object search of `ray_color`: the locals `closest`,
`closest_t` and `context`. -/
structure Closest (F : Type) where
  closest : hitable F
  closest_t : F
  context : Intersection_Context F

/-- One pass through the body of the loop over `world` in `ray_color`. -/
def closest_step (E : Externals F) (ray : Ray3df F) (s : Closest F) (obj : hitable F) : Closest F :=
  let r := E.intersects_context obj.sphere ray
  if r.1 = true ∧ r.2.t < s.closest_t then
    { closest := obj, closest_t := r.2.t, context := r.2 }
  else
    s

/-- The nearest-object search of `ray_color`: the locals after the loop over `world`. -/
def find_closest (E : Externals F) (ray : Ray3df F) (world : List (hitable F)) : Closest F :=
  world.foldl (closest_step E ray)
    { closest := hitable.default, closest_t := E.FLT_MAX, context := E.default_context }

/-- `ray_color`; `none` when an assertion of `get_reflective` aborts the evaluation. -/
def ray_color (E : Externals F) (ray : Ray3df F) (depth : Int) (world : List (hitable F))
    (lights : List (light F)) : Option (color F) :=
  if h : depth ≤ 0 then
    some (Vector.ofList [0.0, 0.0, 0.0])
  else
    let s := find_closest E ray world
    let closest := s.closest
    let context := s.context
    let col : color F := Vector.ofList [0, 0, 0]
    let reflectivity := closest.mat.reflectivity
    let transparency := if closest.mat.is_transmissive then 1.0 - reflectivity else 0.0
    if reflectivity > 0.0 then
      (ray.direction.get_reflective context.normal).bind fun reflective =>
      let reflected_ray : Ray3df F :=
        { origin := context.intersection.add (Vector.smul 0.08 context.normal),
          direction := Vector.smul 0.92 reflective }
      (ray_color E reflected_ray (depth - 1) world lights).bind fun rc_reflected =>
      let reflection := Vector.smul reflectivity rc_reflected
      if transparency > 0.0 then
        let r := refract E ray E.default_ray closest context
        if r.1 = true then
          (ray_color E r.2 (depth - 1) world lights).bind fun rc_refracted =>
          let transmission := Vector.smul transparency rc_refracted
          some (col.add (Vector.smul 0.5 (reflection.add transmission)))
        else
          some (col.add reflection)
      else
        some (col.add reflection)
    else if transparency > 0.0 then
      let r := refract E ray E.default_ray closest context
      if r.1 = true then
        (ray_color E r.2 (depth - 1) world lights).bind fun rc_refracted =>
        some (col.add (Vector.smul transparency rc_refracted))
      else
        some col
    else
      some (col.add (lambertian E closest context world lights))
termination_by depth.toNat
decreasing_by all_goals omega

/-! ## The statements of the specification, in its own words -/

/-- The quantity `sin_theta` as the specification of `refract` words it:
`(n1/n2) * sqrt(max(0, 1 - cos_theta^2))` with `cos_theta = |normal . direction|` and
`(n1, n2) = (1, density)` when `normal . direction <= 0`, `(density, 1)` otherwise. -/
def refract_sin_theta_spec (E : Externals F) (inr : Ray3df F) (object : hitable F)
    (context : Intersection_Context F) : F :=
  let d := context.normal.dot inr.direction
  let n : F × F := if d ≤ 0 then (1, object.mat.density) else (object.mat.density, 1)
  n.1 / n.2 * E.sqrt (max 0 (1 - |d| ^ 2))

/-- The colour that the specification of the branch `reflectivity > 0` and
`is_transmissive` of `ray_color` announces: the average of the two weighted recursive
colours when `refract` succeeds, the reflected contribution alone when it fails. -/
def transmissive_blend_spec (E : Externals F) (ray : Ray3df F) (depth : Int)
    (world : List (hitable F)) (lights : List (light F)) : Option (color F) :=
  let s := find_closest E ray world
  let reflectivity := s.closest.mat.reflectivity
  (ray.direction.get_reflective s.context.normal).bind fun reflective =>
  let reflected_ray : Ray3df F :=
    { origin := s.context.intersection.add (Vector.smul 0.08 s.context.normal),
      direction := Vector.smul 0.92 reflective }
  (ray_color E reflected_ray (depth - 1) world lights).bind fun rc_reflected =>
  let r := refract E ray E.default_ray s.closest s.context
  if r.1 = true then
    (ray_color E r.2 (depth - 1) world lights).bind fun rc_refracted =>
    some (Vector.smul 0.5 ((Vector.smul reflectivity rc_reflected).add
      (Vector.smul (1 - reflectivity) rc_refracted)))
  else
    some (Vector.smul reflectivity rc_reflected)

/-! ## Sphere intersection, for concrete scenes -/

/-- Modelled from the spec: `Sphere::intersects` (geometry.tcc) is not among the sources.
The roots of `|O + t D - C|^2 = r^2`: complex roots are rejected; when both roots are
positive the smaller is taken; when only the far root is positive that one is taken. -/
def Sphere3df.positive_root (sqrt : F → F) (s : Sphere3df F) (ray : Ray3df F) : Option F :=
  let oc := ray.origin.sub s.center
  let a := ray.direction.dot ray.direction
  let b := 2 * oc.dot ray.direction
  let c := oc.dot oc - s.radius * s.radius
  let discriminant := b * b - 4 * a * c
  if discriminant < 0 then none
  else
    let t1 := (-b - sqrt discriminant) / (2 * a)
    let t2 := (-b + sqrt discriminant) / (2 * a)
    if 0 < t1 then some t1 else if 0 < t2 then some t2 else none

/-- Modelled from the spec: the `Externals` of a build whose `Sphere::intersects`
overloads follow section 4.2: the parametric form returns the root found (`0` for a
miss), the full form fills in `t`, the hit point `O + t D` and the normal
`(point - center) / radius`. Default-constructed vectors are taken to be zero. -/
def spec_externals (sqrt : F → F) (FLT_MAX : F) : Externals F :=
  { sqrt := sqrt
    FLT_MAX := FLT_MAX
    intersects := fun s ray => (s.positive_root sqrt ray).getD 0
    intersects_context := fun s ray =>
      match s.positive_root sqrt ray with
      | some t =>
        let point := ray.origin.add (Vector.smul t ray.direction)
        (true, { t := t, intersection := point,
                 normal := (point.sub s.center).div_assign s.radius })
      | none =>
        (false, { t := 0, intersection := Vector.ofList [], normal := Vector.ofList [] })
    default_context := { t := 0, intersection := Vector.ofList [], normal := Vector.ofList [] }
    default_ray := { origin := Vector.ofList [], direction := Vector.ofList [] } }

/-- The macro `MATTE_WHITE`. -/
def MATTE_WHITE : material F :=
  { col := Vector.ofList [0.8, 0.8, 0.8], const_light := 0.25, density := 1.0,
    reflectivity := 0.0, is_transmissive := false }

/-- The macro `MIRROR`. -/
def MIRROR : material F :=
  { col := Vector.ofList [0.0, 0.0, 0.0], const_light := 0.25, density := 1.0,
    reflectivity := 0.9, is_transmissive := false }

/-- The macro `GLASS`. -/
def GLASS : material F :=
  { col := Vector.ofList [1.0, 1.0, 1.0], const_light := 0.25, density := 1.52,
    reflectivity := 0.9, is_transmissive := true }

/-- The value of `std::numeric_limits<float>::max()` for IEEE single precision. -/
def FLT_MAX : F := 340282346638528859811704183484516925440

/-- A point or direction on the z axis. -/
def on_axis (z : F) : Vector3df F := Vector.ofList [0, 0, z]

/-- A sphere of the given radius and material centred on the z axis. -/
def ball (z radius : F) (mat : material F) : hitable F :=
  { sphere := { center := on_axis z, radius := radius }, mat := mat }

/-- A ray along the z axis. -/
def axis_ray (oz dz : F) : Ray3df F :=
  { origin := on_axis oz, direction := on_axis dz }

/-- A point light on the z axis. -/
def axis_light (z intensity : F) : light F :=
  { pos := on_axis z, intensity := intensity }

/-- The material `GLASS` with its reflectivity raised to `1.0`. -/
def GLASS_reflecting : material F :=
  { col := Vector.ofList [1.0, 1.0, 1.0], const_light := 0.25, density := 1.52,
    reflectivity := 1.0, is_transmissive := true }

/-- Two unit spheres on the z axis: one of the given material centred at `z = -5`, a
`MATTE_WHITE` one centred at `z = 5`. -/
def two_balls (front : material F) : List (hitable F) :=
  [ball (-5) 1 front, ball 5 1 MATTE_WHITE]

/-! ## Further definitions of math.tcc and raytracer.cc -/

/-- `Vector::cross_product`; `none` when the assertion `N >= 3u` fails. The result is
built by the initializer-list constructor. -/
def Vector.cross_product (a : Vector F N) (v : Vector F 3) : Option (Vector F 3) :=
  if h : 3 ≤ N then
    some (Vector.ofList
      [a.vector ⟨1, by omega⟩ * v.vector 2 - a.vector ⟨2, by omega⟩ * v.vector 1,
       a.vector ⟨0, by omega⟩ * v.vector 2 - a.vector ⟨2, by omega⟩ * v.vector 0,
       a.vector ⟨0, by omega⟩ * v.vector 1 - a.vector ⟨1, by omega⟩ * v.vector 0])
  else
    none

/-! ## The types float and double -/

/-- A value of a binary floating-point type (`float`, `double`): a finite number, an
infinity with its sign, or NaN. The sign of zero is not represented. -/
inductive Float_value (F : Type) where
  | finite (x : F)
  | infinite (negative : Bool)
  | nan

/-- A binary floating-point format: the number of significand bits and the least and
greatest exponent of a normal number. -/
structure Float_format where
  precision : Nat
  emin : Int
  emax : Int

/-- The format of `float` (IEEE 754 binary32). -/
def float_format : Float_format := { precision := 24, emin := -126, emax := 127 }

/-- The format of `double` (IEEE 754 binary64). -/
def double_format : Float_format := { precision := 53, emin := -1022, emax := 1023 }

/-- The nearest integer, a tie going to the even one. -/
def round_half_even [FloorRing F] (x : F) : Int :=
  if x - ⌊x⌋ < 1 / 2 then ⌊x⌋
  else if 1 / 2 < x - ⌊x⌋ then ⌊x⌋ + 1
  else if ⌊x⌋ % 2 = 0 then ⌊x⌋ else ⌊x⌋ + 1

/-- The spacing of the numbers of the format around `x`: `2 ^ (e - (precision - 1))`, `e`
being the binary exponent of `x`, at least `emin` (below `2 ^ emin` the subnormal numbers
are evenly spaced). -/
def Float_format.ulp [FloorRing F] (fmt : Float_format) (x : F) : F :=
  (2 : F) ^ (max (Int.log 2 |x|) fmt.emin - ((fmt.precision : Int) - 1))

/-- The greatest finite number of the format (`FLT_MAX`, `DBL_MAX`). -/
def Float_format.max_value (fmt : Float_format) : F :=
  ((2 : F) ^ fmt.precision - 1) * (2 : F) ^ (fmt.emax - ((fmt.precision : Int) - 1))

/-- Rounding of an exact result to the format (round to nearest, ties to even): the nearest
multiple of the spacing, an infinity when that exceeds the greatest finite number. -/
def Float_format.round [FloorRing F] (fmt : Float_format) (x : F) : Float_value F :=
  let y := (round_half_even (x / fmt.ulp x) : F) * fmt.ulp x
  if fmt.max_value < |y| then Float_value.infinite (decide (x < 0)) else Float_value.finite y

/-- Floating-point addition. -/
def Float_value.add [FloorRing F] (fmt : Float_format) : Float_value F → Float_value F → Float_value F
  | finite a, finite b => fmt.round (a + b)
  | finite _, infinite s => infinite s
  | infinite s, finite _ => infinite s
  | infinite s, infinite t => if s = t then infinite s else nan
  | _, _ => nan

/-- Floating-point negation. -/
def Float_value.neg : Float_value F → Float_value F
  | finite a => finite (-a)
  | infinite s => infinite (!s)
  | nan => nan

/-- Floating-point subtraction. -/
def Float_value.sub [FloorRing F] (fmt : Float_format) (a b : Float_value F) : Float_value F :=
  a.add fmt b.neg

/-- Floating-point multiplication. -/
def Float_value.mul [FloorRing F] (fmt : Float_format) : Float_value F → Float_value F → Float_value F
  | finite a, finite b => fmt.round (a * b)
  | finite a, infinite s => if a = 0 then nan else infinite (xor s (decide (a < 0)))
  | infinite s, finite b => if b = 0 then nan else infinite (xor s (decide (b < 0)))
  | infinite s, infinite t => infinite (xor s t)
  | _, _ => nan

/-- Floating-point division. -/
def Float_value.div [FloorRing F] (fmt : Float_format) : Float_value F → Float_value F → Float_value F
  | finite a, finite b =>
    if b = 0 then (if a = 0 then nan else infinite (decide (a < 0))) else fmt.round (a / b)
  | finite _, infinite _ => finite 0
  | infinite s, finite b => infinite (xor s (decide (b < 0)))
  | _, _ => nan

/-- Floating-point square root (`std::sqrt`), correctly rounded; `sqrt` is the exact square root. -/
def Float_value.sqrt [FloorRing F] (fmt : Float_format) (sqrt : F → F) : Float_value F → Float_value F
  | finite a => if a < 0 then nan else fmt.round (sqrt a)
  | infinite s => if s then nan else infinite false
  | nan => nan

/-- Conversion of a floating-point value to another floating-point format. -/
def Float_value.convert [FloorRing F] (fmt : Float_format) : Float_value F → Float_value F
  | finite a => fmt.round a
  | infinite s => infinite s
  | nan => nan

/-- Conversion of an `int` to a floating-point format. -/
def Float_format.of_int [FloorRing F] (fmt : Float_format) (n : Int) : Float_value F :=
  fmt.round (n : F)

/-- `static_cast<int>` applied to a floating-point value: truncation toward zero;
`none` when the truncated value is not a value of `int` (32 bits), which is undefined behaviour. -/
def Float_value.to_int [FloorRing F] : Float_value F → Option Int
  | finite x =>
    let n : Int := if 0 ≤ x then ⌊x⌋ else ⌈x⌉
    if -2 ^ 31 ≤ n ∧ n < 2 ^ 31 then some n else none
  | _ => none

/-! ## math.tcc and raytracer.cc in float arithmetic -/

/-- `Vector::operator+=` on `Vector<float, N>`. -/
def Vector.add_float [FloorRing F] (value addend : Vector (Float_value F) N) :
    Vector (Float_value F) N :=
  ⟨fun i => (value.vector i).add float_format (addend.vector i)⟩

/-- `Vector::operator-=` on `Vector<float, N>`. -/
def Vector.sub_float [FloorRing F] (value minuend : Vector (Float_value F) N) :
    Vector (Float_value F) N :=
  ⟨fun i => (value.vector i).sub float_format (minuend.vector i)⟩

/-- `operator*(float scalar, Vector value)`, built on `operator*=`. -/
def Vector.smul_float [FloorRing F] (scalar : Float_value F) (value : Vector (Float_value F) N) :
    Vector (Float_value F) N :=
  ⟨fun i => (value.vector i).mul float_format scalar⟩

/-- `Vector::operator/=` on `Vector<float, N>`. -/
def Vector.div_assign_float [FloorRing F] (value : Vector (Float_value F) N)
    (factor : Float_value F) : Vector (Float_value F) N :=
  ⟨fun i => (value.vector i).div float_format factor⟩

/-- `Vector::square_of_length` on `Vector<float, N>`: every product and every sum is rounded. -/
def Vector.square_of_length_float [FloorRing F] (v : Vector (Float_value F) N) : Float_value F :=
  Fin.foldl N (fun sum_of_squares i =>
    sum_of_squares.add float_format ((v.vector i).mul float_format (v.vector i)))
    (Float_value.finite 0)

/-- `Vector::length` on `Vector<float, N>`. -/
def Vector.length_float [FloorRing F] (sqrt : F → F) (v : Vector (Float_value F) N) :
    Float_value F :=
  v.square_of_length_float.sqrt float_format sqrt

/-- `Vector::normalize` on `Vector<float, N>`. -/
def Vector.normalize_float [FloorRing F] (sqrt : F → F) (v : Vector (Float_value F) N) :
    Vector (Float_value F) N :=
  v.div_assign_float (v.length_float sqrt)

/-- The values of `get_ray_direction` that are combined with `cam_center`:
`Vector3df{0, 0, focal_length}`, `0.5f * viewport_u`, `0.5f * viewport_v`,
`static_cast<float>(pos_u) * pixel_delta_u` and `static_cast<float>(pos_v) * pixel_delta_v`. -/
structure Viewport (F : Type) where
  focal : Vector (Float_value F) 3
  half_u : Vector (Float_value F) 3
  half_v : Vector (Float_value F) 3
  step_u : Vector (Float_value F) 3
  step_v : Vector (Float_value F) 3

/-- The statements of `get_ray_direction` up to `pixel_delta_v`, in `float` arithmetic,
and the operands of the two statements that follow; `none` when the conversion of
`image_width / aspect_ratio` to `int` is undefined. -/
def viewport_float [FloorRing F] (pos_v pos_u image_width _image_height : Int)
    (aspect_ratio focal_length : Float_value F) : Option (Viewport F) :=
  (((float_format.of_int image_width).div float_format aspect_ratio).to_int).map
    fun image_height : Int =>
  let image_height : Int := if image_height < 1 then 1 else image_height
  let viewport_height : Float_value F := Float_value.finite 2.0
  let viewport_width : Float_value F :=
    (viewport_height.mul double_format
      ((double_format.of_int image_width).div double_format
        (double_format.of_int image_height))).convert float_format
  let viewport_u : Vector (Float_value F) 3 :=
    ⟨![viewport_width, Float_value.finite 0, Float_value.finite 0]⟩
  let viewport_v : Vector (Float_value F) 3 :=
    ⟨![Float_value.finite 0, viewport_height.neg, Float_value.finite 0]⟩
  let pixel_delta_u := Vector.smul_float
    ((Float_value.finite 1.0).div float_format (float_format.of_int image_width)) viewport_u
  let pixel_delta_v := Vector.smul_float
    ((Float_value.finite 1.0).div float_format (float_format.of_int image_height)) viewport_v
  { focal := ⟨![Float_value.finite 0, Float_value.finite 0, focal_length]⟩
    half_u := Vector.smul_float (Float_value.finite 0.5) viewport_u
    half_v := Vector.smul_float (Float_value.finite 0.5) viewport_v
    step_u := Vector.smul_float (float_format.of_int pos_u) pixel_delta_u
    step_v := Vector.smul_float (float_format.of_int pos_v) pixel_delta_v }

/-- The value of `pixel_position` in `get_ray_direction`, in `float` arithmetic. -/
def pixel_position_float [FloorRing F] (vp : Viewport F) (cam_center : Vector (Float_value F) 3) :
    Vector (Float_value F) 3 :=
  ((((cam_center.sub_float vp.focal).sub_float vp.half_u).sub_float vp.half_v).add_float
    vp.step_u).add_float vp.step_v

/-- `get_ray_direction` in `float` arithmetic: the statements up to `pixel_delta_v` are
`viewport_float`, `viewport_upper_left` and `pixel_position` are `pixel_position_float`, and
the last two statements are the subtraction of `cam_center` and `normalize()`. The parameter
`image_height` is overwritten by the first statement; `none` when the conversion of
`image_width / aspect_ratio` to `int` is undefined. -/
def get_ray_direction_float [FloorRing F] (sqrt : F → F)
    (pos_v pos_u image_width image_height : Int) (aspect_ratio focal_length : Float_value F)
    (cam_center : Vector (Float_value F) 3) : Option (Vector (Float_value F) 3) :=
  (viewport_float pos_v pos_u image_width image_height aspect_ratio focal_length).map fun vp =>
    ((pixel_position_float vp cam_center).sub_float cam_center).normalize_float sqrt

/-- No addition or subtraction that combines `cam_center` with the viewport offsets rounds:
in every component the five partial results of
`cam_center - focal - half_u - half_v + step_u + step_v` are numbers of the format. -/
def camera_sums_exact [FloorRing F] (vp : Viewport F) (cam_center : Vector (Float_value F) 3) :
    Prop :=
  ∀ i, ∃ c a1 a2 a3 a4 a5 : F,
    cam_center.vector i = Float_value.finite c ∧
    vp.focal.vector i = Float_value.finite a1 ∧
    vp.half_u.vector i = Float_value.finite a2 ∧
    vp.half_v.vector i = Float_value.finite a3 ∧
    vp.step_u.vector i = Float_value.finite a4 ∧
    vp.step_v.vector i = Float_value.finite a5 ∧
    float_format.round (c - a1) = Float_value.finite (c - a1) ∧
    float_format.round (c - a1 - a2) = Float_value.finite (c - a1 - a2) ∧
    float_format.round (c - a1 - a2 - a3) = Float_value.finite (c - a1 - a2 - a3) ∧
    float_format.round (c - a1 - a2 - a3 + a4) = Float_value.finite (c - a1 - a2 - a3 + a4) ∧
    float_format.round (c - a1 - a2 - a3 + a4 + a5) =
      Float_value.finite (c - a1 - a2 - a3 + a4 + a5)

/-! ## Further definitions of raytracer.cc -/

theorem Vector.ofList_three (a b c : F) (i : Fin 3) :
    (Vector.ofList [a, b, c] : Vector F 3).vector i = ![a, b, c] i := by
  fin_cases i <;> simp [Vector.ofList, Vector.init_values]

theorem Vector.dot_three (a b : Vector F 3) :
    a.dot b = a.vector 0 * b.vector 0 + a.vector 1 * b.vector 1 + a.vector 2 * b.vector 2 := by
  simp [Vector.dot, Fin.foldl_succ]

theorem Vector.square_of_length_three (a : Vector F 3) :
    a.square_of_length = a.vector 0 * a.vector 0 + a.vector 1 * a.vector 1 + a.vector 2 * a.vector 2 := by
  simp [Vector.square_of_length, Fin.foldl_succ]

theorem Vector.zero_add3 (v : Vector F 3) : (Vector.ofList [0, 0, 0] : Vector F 3).add v = v := by
  ext i
  fin_cases i <;> simp [Vector.add, Vector.ofList, Vector.init_values]

theorem foldl_lambertian_step (E : Externals F) (context : Intersection_Context F)
    (world : List (hitable F)) (lights : List (light F)) (acc : F) :
    lights.foldl (lambertian_step E context world) acc =
      acc + lambertian_sum E context world lights := by
  induction lights generalizing acc with
  | nil => simp [lambertian_sum]
  | cons l rest ih =>
    rw [List.foldl_cons, ih]
    unfold lambertian_step lambertian_sum
    by_cases h : hit_anything E (to_light_ray E context l) world = true
    · simp [h, List.filter_cons]
    · simp [h, List.filter_cons, add_assoc]

theorem lambertian_eq (E : Externals F) (closest : hitable F) (context : Intersection_Context F)
    (world : List (hitable F)) (lights : List (light F))
    (hr : closest.sphere.radius ≠ -1) (_hl : lights ≠ []) :
    lambertian E closest context world lights =
      Vector.smul (closest.mat.const_light +
        1 / (lights.length : F) * lambertian_sum E context world lights) closest.mat.col := by
  unfold lambertian
  rw [if_pos hr, foldl_lambertian_step]
  have key : (0.0 + lambertian_sum E context world lights) / (lights.length : F) =
      1 / (lights.length : F) * lambertian_sum E context world lights := by
    rw [show (0.0 : F) = 0 by norm_num, zero_add, div_eq_mul_inv, one_div, mul_comm]
  simp only [key]

/-- C5. `hit_anything` returns true exactly when some object of the world has
`t = sphere.intersects(ray)` with `0 < t < 1`; for the empty world it returns false. -/
theorem hit_anything_spec (E : Externals F) (ray : Ray3df F) :
    (∀ world : List (hitable F), hit_anything E ray world = true ↔
      ∃ obj ∈ world, 0 < E.intersects obj.sphere ray ∧ E.intersects obj.sphere ray < 1) ∧
    hit_anything E ray [] = false := by
  refine ⟨fun world => ?_, rfl⟩
  induction world with
  | nil => simp [hit_anything]
  | cons obj rest ih =>
    simp only [hit_anything, List.mem_cons, exists_eq_or_imp]
    by_cases h : 0 < E.intersects obj.sphere ray ∧ E.intersects obj.sphere ray < 1
    · simp [h]
    · simp only [h, if_false, false_or]
      exact ih

/-- C2. For depth >= 1, when `Sphere::intersects(ray, context)` is false for every
object of the world, `ray_color` returns exactly black. -/
theorem ray_color_miss (E : Externals F) (ray : Ray3df F) (depth : Int)
    (world : List (hitable F)) (lights : List (light F)) (hd : 1 ≤ depth)
    (hmiss : ∀ obj ∈ world, (E.intersects_context obj.sphere ray).1 = false) :
    ray_color E ray depth world lights = some (Vector.ofList [0, 0, 0]) := by
  have hfc : ∀ (w : List (hitable F)) (s : Closest F),
      (∀ obj ∈ w, (E.intersects_context obj.sphere ray).1 = false) →
      w.foldl (closest_step E ray) s = s := by
    intro w
    induction w with
    | nil => intro s _; rfl
    | cons obj rest ih =>
      intro s hm
      rw [List.foldl_cons]
      have h1 : closest_step E ray s obj = s := by
        unfold closest_step
        simp [hm obj (List.mem_cons_self _ _)]
      rw [h1]
      exact ih s (fun o ho => hm o (List.mem_cons_of_mem _ ho))
  rw [ray_color]
  have hd2 : ¬ depth ≤ 0 := by omega
  simp only [hd2, dite_false]
  simp only [find_closest, hfc world _ hmiss]
  have e1 : (1.0 : F) = 1 := by norm_num
  have e0 : (0.0 : F) = 0 := by norm_num
  simp [hitable.default, MATTE_BLACK, lambertian, Vector.zero_add3, e1, e0]

theorem lambertian_sum_occluded (E : Externals F) (context : Intersection_Context F)
    (world : List (hitable F)) (lights : List (light F))
    (hocc : ∀ l ∈ lights, hit_anything E (to_light_ray E context l) world = true) :
    lambertian_sum E context world lights = 0 := by
  unfold lambertian_sum
  have hf : (lights.filter fun l => !hit_anything E (to_light_ray E context l) world) = [] := by
    rw [List.filter_eq_nil_iff]
    intro l hl
    simp [hocc l hl]
  rw [hf]
  rfl

/-- C4. For depth >= 1 and a diffuse nearest hit object (reflectivity 0, not
transmissive, radius not -1), when the shadow ray of every light (at least one) is reported
occluded, `ray_color` returns exactly `ambient_const * material_color`. -/
theorem ray_color_diffuse_occluded (E : Externals F) (ray : Ray3df F) (depth : Int)
    (world : List (hitable F)) (lights : List (light F)) (hd : 1 ≤ depth)
    (hrefl : (find_closest E ray world).closest.mat.reflectivity = 0)
    (htrans : (find_closest E ray world).closest.mat.is_transmissive = false)
    (hrad : (find_closest E ray world).closest.sphere.radius ≠ -1)
    (hl : lights ≠ [])
    (hocc : ∀ l ∈ lights,
      hit_anything E (to_light_ray E (find_closest E ray world).context l) world = true) :
    ray_color E ray depth world lights =
      some (Vector.smul (find_closest E ray world).closest.mat.const_light
        (find_closest E ray world).closest.mat.col) := by
  rw [ray_color]
  have hd2 : ¬ depth ≤ 0 := by omega
  have e0 : (0.0 : F) = 0 := by norm_num
  simp only [hd2, dite_false, hrefl, htrans, e0, gt_iff_lt, lt_irrefl, if_false,
    Bool.false_eq_true, Vector.zero_add3]
  rw [lambertian_eq E _ _ world lights hrad hl, lambertian_sum_occluded E _ world lights hocc]
  simp

/-- C1 (amended). For depth >= 1 and a nearest hit object that is transmissive with
0 < reflectivity < 1, `ray_color` is the blend of the specification: the average
`0.5 * (reflectivity * reflected + (1 - reflectivity) * refracted)` of the recursive colours
at depth - 1 when `refract` succeeds, `reflectivity * reflected` alone when it fails. -/
theorem ray_color_transmissive (E : Externals F) (ray : Ray3df F) (depth : Int)
    (world : List (hitable F)) (lights : List (light F)) (hd : 1 ≤ depth)
    (hpos : 0 < (find_closest E ray world).closest.mat.reflectivity)
    (hlt : (find_closest E ray world).closest.mat.reflectivity < 1)
    (htrans : (find_closest E ray world).closest.mat.is_transmissive = true) :
    ray_color E ray depth world lights = transmissive_blend_spec E ray depth world lights := by
  rw [ray_color]
  unfold transmissive_blend_spec
  have hd2 : ¬ depth ≤ 0 := by omega
  have e0 : (0.0 : F) = 0 := by norm_num
  have e1 : (1.0 : F) = 1 := by norm_num
  have ht : 0 < 1 - (find_closest E ray world).closest.mat.reflectivity := by linarith
  simp only [hd2, dite_false, hpos, htrans, e0, e1, gt_iff_lt, if_true, ht, Vector.zero_add3]

/-- C8. For density n >= 1 and `cos_x = -(normal . inbound) = 1`,
`schlick_approximation` returns exactly `((1 - n) / (1 + n))^2` (given `sqrt(1) = 1`). -/
theorem schlick_normal (E : Externals F) (inbound normal : Vector3df F) (obj : hitable F)
    (_hn : 1 ≤ obj.mat.density) (hcos : -(normal.dot inbound) = 1) (hs : E.sqrt 1 = 1) :
    schlick_approximation E inbound normal obj =
      ((1 - obj.mat.density) / (1 + obj.mat.density)) ^ 2 := by
  have e0 : (0.0 : F) = 0 := by norm_num
  have e1 : (1.0 : F) = 1 := by norm_num
  have hc : -1 * normal.dot inbound = 1 := by linarith
  unfold schlick_approximation
  simp only [e0, e1, hc]
  by_cases h : obj.mat.density > 1
  · simp [h, hs, sq]
  · simp [h, sq]

theorem sqrt_pos_of_pos (sqrt : F → F)
    (hs : ∀ x, 0 ≤ x → 0 ≤ sqrt x ∧ sqrt x * sqrt x = x) (x : F) (hx : 0 < x) : 0 < sqrt x := by
  rcases hs x hx.le with ⟨h0, h1⟩
  rcases h0.lt_or_eq with h | h
  · exact h
  · rw [← h] at h1
    simp at h1
    exact absurd h1.symm hx.ne'

theorem Vector.square_of_length_pos (v w : Vector F 3) (h : v ≠ w) :
    0 < (v.sub w).square_of_length := by
  rw [Vector.square_of_length_three]
  simp only [Vector.sub]
  have hne : ¬ (v.vector 0 - w.vector 0 = 0 ∧ v.vector 1 - w.vector 1 = 0 ∧
      v.vector 2 - w.vector 2 = 0) := by
    rintro ⟨h0, h1, h2⟩
    apply h
    ext i
    fin_cases i
    · exact sub_eq_zero.mp h0
    · exact sub_eq_zero.mp h1
    · exact sub_eq_zero.mp h2
  by_contra hcon
  apply hne
  have a0 := mul_self_nonneg (v.vector 0 - w.vector 0)
  have a1 := mul_self_nonneg (v.vector 1 - w.vector 1)
  have a2 := mul_self_nonneg (v.vector 2 - w.vector 2)
  refine ⟨?_, ?_, ?_⟩ <;> apply mul_self_eq_zero.mp <;> linarith

theorem shadow_end_vector (E : Externals F) (context : Intersection_Context F)
    (l : light F) (i : Fin 3) :
    ((to_light_ray E context l).origin.add
        (Vector.smul 1 (to_light_ray E context l).direction)).vector i =
      context.intersection.vector i +
        (l.pos.vector i - context.intersection.vector i) /
          (l.pos.sub context.intersection).length E.sqrt * 0.08 +
        (l.pos.vector i - context.intersection.vector i) * 0.92 * 1 := rfl

/-- C6 (amended). For a light position L different from the hit point P, the shadow
ray of `lambertian` satisfies `origin + 1 * direction = L + 0.08 * (normalized(L - P) - (L - P))`,
and this point is L exactly when the distance from P to L is 1. -/
theorem to_light_ray_end (E : Externals F) (context : Intersection_Context F) (l : light F)
    (hs : ∀ x, 0 ≤ x → 0 ≤ E.sqrt x ∧ E.sqrt x * E.sqrt x = x)
    (hne : l.pos ≠ context.intersection) :
    (to_light_ray E context l).origin.add (Vector.smul 1 (to_light_ray E context l).direction) =
        l.pos.add (Vector.smul 0.08
          (((l.pos.sub context.intersection).normalize E.sqrt).sub
            (l.pos.sub context.intersection))) ∧
      ((to_light_ray E context l).origin.add
          (Vector.smul 1 (to_light_ray E context l).direction) = l.pos ↔
        (l.pos.sub context.intersection).length E.sqrt = 1) := by
  have hpos := Vector.square_of_length_pos l.pos context.intersection hne
  have hlen : 0 < (l.pos.sub context.intersection).length E.sqrt :=
    sqrt_pos_of_pos E.sqrt hs _ hpos
  constructor
  · ext i
    rw [shadow_end_vector]
    show _ = l.pos.vector i + ((l.pos.vector i - context.intersection.vector i) /
      (l.pos.sub context.intersection).length E.sqrt -
        (l.pos.vector i - context.intersection.vector i)) * 0.08
    ring
  · constructor
    · intro h
      by_contra hne1
      apply hne
      ext i
      have hi := congrArg (fun v => v.vector i) h
      simp only [shadow_end_vector] at hi
      have h2 : (l.pos.vector i - context.intersection.vector i) *
          (1 - (l.pos.sub context.intersection).length E.sqrt) = 0 := by
        field_simp at hi
        linear_combination (1 / 0.08 : F) * hi
      rcases mul_eq_zero.mp h2 with h3 | h3
      · exact sub_eq_zero.mp h3
      · exact absurd (by linarith) hne1
    · intro h
      ext i
      rw [shadow_end_vector, h]
      ring

theorem Vector.dot_sq_le (a b : Vector F 3) :
    a.dot b * a.dot b ≤ a.square_of_length * b.square_of_length := by
  rw [Vector.dot_three, Vector.square_of_length_three, Vector.square_of_length_three]
  nlinarith [sq_nonneg (a.vector 0 * b.vector 1 - a.vector 1 * b.vector 0),
    sq_nonneg (a.vector 0 * b.vector 2 - a.vector 2 * b.vector 0),
    sq_nonneg (a.vector 1 * b.vector 2 - a.vector 2 * b.vector 1)]

theorem sqrt_mul_self_abs (sqrt : F → F)
    (hs : ∀ x, 0 ≤ x → 0 ≤ sqrt x ∧ sqrt x * sqrt x = x) (c : F) : sqrt (c * c) = |c| := by
  rcases hs (c * c) (mul_self_nonneg c) with ⟨h0, h1⟩
  have h2 : sqrt (c * c) * sqrt (c * c) = |c| * |c| := by rw [h1, abs_mul_abs_self]
  exact (mul_self_inj h0 (abs_nonneg c)).mp h2

theorem sqrt_zero_of_spec (sqrt : F → F)
    (hs : ∀ x, 0 ≤ x → 0 ≤ sqrt x ∧ sqrt x * sqrt x = x) : sqrt 0 = 0 := by
  rcases hs 0 le_rfl with ⟨_, h1⟩
  exact mul_self_eq_zero.mp h1

theorem sqrt_one_of_spec (sqrt : F → F)
    (hs : ∀ x, 0 ≤ x → 0 ≤ sqrt x ∧ sqrt x * sqrt x = x) : sqrt 1 = 1 := by
  have h := sqrt_mul_self_abs sqrt hs 1
  simpa using h

/-- C9 (amended). For density 1 and an ideal square root, `refract` returns true with
`out.direction` equal to `in.direction` exactly when `|normal . direction| <= 1`; in
particular it does so for a unit-length normal and a direction of length at most 1. -/
theorem refract_same_density (E : Externals F) (inr out : Ray3df F) (object : hitable F)
    (context : Intersection_Context F)
    (hs : ∀ x, 0 ≤ x → 0 ≤ E.sqrt x ∧ E.sqrt x * E.sqrt x = x)
    (hden : object.mat.density = 1) :
    ((refract E inr out object context).1 = true ∧
      (refract E inr out object context).2.direction = inr.direction) ↔
      |context.normal.dot inr.direction| ≤ 1 := by
  have e1 : (1.0 : F) = 1 := by norm_num
  have e0 : (0.0 : F) = 0 := by norm_num
  set c := context.normal.dot inr.direction with hc
  have hcos : (if decide (-c < 0) = true then - -c else -c) = |c| := by
    by_cases hneg : -c < 0
    · simp [hneg, abs_of_pos (by linarith : 0 < c)]
    · simp [hneg, abs_of_nonpos (by linarith : c ≤ 0)]
  have hphi := sqrt_mul_self_abs E.sqrt hs c
  by_cases hle : |c| ≤ 1
  · have hc1 : c * c ≤ 1 := by
      rw [← abs_mul_abs_self]
      nlinarith [abs_nonneg c]
    have hm : max 0 (1 - c * c) = 1 - c * c := max_eq_right (by linarith)
    rcases hs (1 - c * c) (by linarith) with ⟨s0, s1⟩
    have hsle : ¬ (1 < E.sqrt (1 - c * c)) := by
      intro h
      nlinarith [mul_self_nonneg c]
    have hm2 : max 0 (1 - E.sqrt (1 - c * c) * E.sqrt (1 - c * c)) = c * c := by
      rw [s1]
      have : 1 - (1 - c * c) = c * c := by ring
      rw [this]
      exact max_eq_right (mul_self_nonneg c)
    simp only [hle, iff_true]
    unfold refract
    simp only [e1, e0, hden, ← hc, neg_one_mul, gt_iff_lt, ite_self, div_one,
      one_mul, hcos, abs_mul_abs_self, hm, hsle, if_false, hm2, hphi, true_and, sub_self]
    ext i
    simp [Vector.add, Vector.smul]
  · have hgt : 1 < |c| := not_le.mp hle
    have hc1 : 1 < c * c := by
      rw [← abs_mul_abs_self]
      nlinarith [abs_nonneg c]
    have hm : max 0 (1 - c * c) = 0 := max_eq_left (by linarith)
    have hz := sqrt_zero_of_spec E.sqrt hs
    have ho := sqrt_one_of_spec E.sqrt hs
    simp only [hle, iff_false, not_and]
    intro _ hdir
    unfold refract at hdir
    simp only [e1, e0, hden, ← hc, neg_one_mul, gt_iff_lt, ite_self, div_one,
      one_mul, hcos, abs_mul_abs_self, hm, hz, mul_zero, sub_zero, ho,
      max_eq_right (zero_le_one' F), not_lt.mpr (zero_le_one' F), if_false] at hdir
    have hcomp : ∀ i, (|c| - 1) * (if decide (-c < 0) = true then Vector.smul (-1) context.normal
        else context.normal).vector i = 0 := by
      intro i
      have := congrArg (fun v => v.vector i) hdir
      simp only [Vector.add, Vector.smul] at this ⊢
      linarith
    have hn0 : ∀ i, context.normal.vector i = 0 := by
      intro i
      have h := hcomp i
      rcases mul_eq_zero.mp h with h | h
      · linarith
      · by_cases hneg : -c < 0
        · simp only [hneg, decide_True, if_true, Vector.smul] at h
          linarith
        · simpa [hneg] using h
    have : c = 0 := by
      rw [hc, Vector.dot_three]
      simp [hn0]
    rw [this] at hgt
    simp at hgt
    linarith

theorem on_axis_vector (z : F) (i : Fin 3) : (on_axis z).vector i = ![0, 0, z] i :=
  Vector.ofList_three 0 0 z i

theorem on_axis_add (a b : F) : (on_axis a).add (on_axis b) = on_axis (a + b) := by
  ext i
  fin_cases i <;> simp [Vector.add, on_axis_vector]

theorem on_axis_sub (a b : F) : (on_axis a).sub (on_axis b) = on_axis (a - b) := by
  ext i
  fin_cases i <;> simp [Vector.sub, on_axis_vector]

theorem on_axis_smul (k a : F) : Vector.smul k (on_axis a) = on_axis (a * k) := by
  ext i
  fin_cases i <;> simp [Vector.smul, on_axis_vector]

theorem on_axis_div (a k : F) : (on_axis a).div_assign k = on_axis (a / k) := by
  ext i
  fin_cases i <;> simp [Vector.div_assign, on_axis_vector]

theorem on_axis_dot (a b : F) : (on_axis a).dot (on_axis b) = a * b := by
  simp [Vector.dot_three, on_axis_vector]

theorem on_axis_square (a : F) : (on_axis a).square_of_length = a * a := by
  simp [Vector.square_of_length_three, on_axis_vector]

theorem on_axis_normalize (sqrt : F → F)
    (hs : ∀ x, 0 ≤ x → 0 ≤ sqrt x ∧ sqrt x * sqrt x = x) (a : F) :
    (on_axis a).normalize sqrt = on_axis (a / |a|) := by
  rw [Vector.normalize, Vector.length, on_axis_square, sqrt_mul_self_abs sqrt hs, on_axis_div]

theorem on_axis_inj (a b : F) : on_axis a = on_axis b ↔ a = b := by
  constructor
  · intro h
    have := congrArg (fun v => v.vector 2) h
    simpa [on_axis_vector] using this
  · intro h
    rw [h]

theorem axis_positive_root (sqrt : F → F)
    (hs : ∀ x, 0 ≤ x → 0 ≤ sqrt x ∧ sqrt x * sqrt x = x) (cz r oz dz : F) (hr : 0 ≤ r) :
    Sphere3df.positive_root sqrt { center := on_axis cz, radius := r }
        { origin := on_axis oz, direction := on_axis dz } =
      if 0 < (-(2 * ((oz - cz) * dz)) - 2 * |dz| * r) / (2 * (dz * dz)) then
        some ((-(2 * ((oz - cz) * dz)) - 2 * |dz| * r) / (2 * (dz * dz)))
      else if 0 < (-(2 * ((oz - cz) * dz)) + 2 * |dz| * r) / (2 * (dz * dz)) then
        some ((-(2 * ((oz - cz) * dz)) + 2 * |dz| * r) / (2 * (dz * dz)))
      else none := by
  have hdisc : 2 * ((oz - cz) * dz) * (2 * ((oz - cz) * dz)) -
      4 * (dz * dz) * ((oz - cz) * (oz - cz) - r * r) = (2 * dz * r) * (2 * dz * r) := by ring
  have hsq : sqrt ((2 * dz * r) * (2 * dz * r)) = 2 * |dz| * r := by
    rw [sqrt_mul_self_abs sqrt hs, abs_mul, abs_mul, abs_of_nonneg hr]
    simp
  have hnn : ¬ ((2 * dz * r) * (2 * dz * r) < 0) := not_lt.mpr (mul_self_nonneg _)
  unfold Sphere3df.positive_root
  simp only [on_axis_sub, on_axis_dot, hdisc, hsq, hnn, if_false]

theorem real_sqrt_spec : ∀ x : ℝ, 0 ≤ x → 0 ≤ Real.sqrt x ∧ Real.sqrt x * Real.sqrt x = x :=
  fun x hx => ⟨Real.sqrt_nonneg x, Real.mul_self_sqrt hx⟩

theorem axis_intersects_context (E : Externals ℝ) (cz r oz dz : ℝ) (m : material ℝ)
    (hE : E = spec_externals Real.sqrt FLT_MAX) :
    E.intersects_context (ball cz r m).sphere (axis_ray oz dz) =
      match Sphere3df.positive_root Real.sqrt { center := on_axis cz, radius := r }
          (axis_ray oz dz) with
      | some t => (true, { t := t, intersection := on_axis (oz + dz * t),
                           normal := on_axis ((oz + dz * t - cz) / r) })
      | none => (false, { t := 0, intersection := Vector.ofList [], normal := Vector.ofList [] }) := by
  subst hE
  simp only [spec_externals, ball, axis_ray]
  cases Sphere3df.positive_root Real.sqrt { center := on_axis cz, radius := r }
      { origin := on_axis oz, direction := on_axis dz } with
  | none => rfl
  | some t => simp only [on_axis_smul, on_axis_add, on_axis_sub, on_axis_div]

theorem find_closest_front (m : material ℝ) :
    find_closest (spec_externals Real.sqrt FLT_MAX) (axis_ray 0 (-1)) (two_balls m) =
      { closest := ball (-5) 1 m, closest_t := 4,
        context := { t := 4, intersection := on_axis (-4), normal := on_axis 1 } } := by
  have h1 : Sphere3df.positive_root Real.sqrt { center := on_axis (-5), radius := (1:ℝ) }
      (axis_ray 0 (-1)) = some 4 := by
    rw [axis_ray, axis_positive_root Real.sqrt real_sqrt_spec _ _ _ _ (by norm_num)]
    norm_num
  have h2 : Sphere3df.positive_root Real.sqrt { center := on_axis 5, radius := (1:ℝ) }
      (axis_ray 0 (-1)) = none := by
    rw [axis_ray, axis_positive_root Real.sqrt real_sqrt_spec _ _ _ _ (by norm_num)]
    norm_num
  simp only [find_closest, two_balls, List.foldl_cons, List.foldl_nil, closest_step,
    axis_intersects_context _ _ _ _ _ _ rfl, h1, h2]
  norm_num [spec_externals, FLT_MAX]

theorem ray_color_lambertian (E : Externals F) (ray : Ray3df F) (depth : Int)
    (world : List (hitable F)) (lights : List (light F)) (hd : 1 ≤ depth)
    (hrefl : (find_closest E ray world).closest.mat.reflectivity = 0)
    (htrans : (find_closest E ray world).closest.mat.is_transmissive = false) :
    ray_color E ray depth world lights =
      some (lambertian E (find_closest E ray world).closest (find_closest E ray world).context
        world lights) := by
  rw [ray_color]
  have hd2 : ¬ depth ≤ 0 := by omega
  have e0 : (0.0 : F) = 0 := by norm_num
  simp only [hd2, dite_false, hrefl, htrans, e0, gt_iff_lt, lt_irrefl, if_false,
    Bool.false_eq_true, Vector.zero_add3]

theorem find_closest_back (m : material ℝ) :
    find_closest (spec_externals Real.sqrt FLT_MAX) (axis_ray (-3.92) 0.92) (two_balls m) =
      { closest := ball 5 1 MATTE_WHITE, closest_t := 198 / 23,
        context := { t := 198 / 23, intersection := on_axis 4, normal := on_axis (-1) } } := by
  have h1 : Sphere3df.positive_root Real.sqrt { center := on_axis (-5), radius := (1:ℝ) }
      (axis_ray (-3.92) 0.92) = none := by
    rw [axis_ray, axis_positive_root Real.sqrt real_sqrt_spec _ _ _ _ (by norm_num)]
    norm_num [abs_of_pos]
  have h2 : Sphere3df.positive_root Real.sqrt { center := on_axis 5, radius := (1:ℝ) }
      (axis_ray (-3.92) 0.92) = some (198 / 23) := by
    rw [axis_ray, axis_positive_root Real.sqrt real_sqrt_spec _ _ _ _ (by norm_num)]
    norm_num [abs_of_pos]
  simp only [find_closest, two_balls, List.foldl_cons, List.foldl_nil, closest_step,
    axis_intersects_context _ _ _ _ _ _ rfl, h1, h2]
  norm_num [spec_externals, FLT_MAX]

theorem to_light_ray_axis (pz lz k : ℝ) (t : ℝ) (hlt : lz < pz) (nz : ℝ) :
    to_light_ray (spec_externals Real.sqrt FLT_MAX)
        { t := t, intersection := on_axis pz, normal := on_axis nz } (axis_light lz k) =
      axis_ray (pz - 0.08) (0.92 * (lz - pz)) := by
  have habs : |lz - pz| = -(lz - pz) := abs_of_neg (by linarith)
  have hne : lz - pz ≠ 0 := by linarith
  simp only [to_light_ray, axis_light, spec_externals, on_axis_sub,
    on_axis_normalize Real.sqrt real_sqrt_spec, on_axis_smul, on_axis_add, axis_ray, habs]
  rw [div_neg, div_self hne]
  congr 2 <;> ring

theorem hit_anything_back (m : material ℝ) :
    hit_anything (spec_externals Real.sqrt FLT_MAX) (axis_ray (4 - 0.08) (0.92 * (0 - 4)))
      (two_balls m) = false := by
  have h1 : Sphere3df.positive_root Real.sqrt { center := on_axis (-5), radius := (1:ℝ) }
      (axis_ray (4 - 0.08) (0.92 * (0 - 4))) = some (99 / 46) := by
    rw [axis_ray, axis_positive_root Real.sqrt real_sqrt_spec _ _ _ _ (by norm_num)]
    norm_num [abs_of_pos]
  have h2 : Sphere3df.positive_root Real.sqrt { center := on_axis 5, radius := (1:ℝ) }
      (axis_ray (4 - 0.08) (0.92 * (0 - 4))) = none := by
    rw [axis_ray, axis_positive_root Real.sqrt real_sqrt_spec _ _ _ _ (by norm_num)]
    norm_num [abs_of_pos]
  simp only [hit_anything, two_balls, spec_externals, ball, h1, h2, Option.getD]
  norm_num

theorem lambertian_back (m : material ℝ) :
    lambertian (spec_externals Real.sqrt FLT_MAX) (ball 5 1 MATTE_WHITE)
        { t := 198 / 23, intersection := on_axis 4, normal := on_axis (-1) }
        (two_balls m) [axis_light 0 1] =
      Vector.ofList [1, 1, 1] := by
  have hray := to_light_ray_axis 4 0 1 (198 / 23) (by norm_num) (-1)
  have hnorm : ((axis_light (0:ℝ) 1).pos.sub (on_axis 4)).normalize Real.sqrt = on_axis (-1) := by
    rw [axis_light, on_axis_sub, on_axis_normalize Real.sqrt real_sqrt_spec]
    norm_num [abs_of_pos]
  have hrad : (ball (5:ℝ) 1 MATTE_WHITE).sphere.radius ≠ -1 := by
    norm_num [ball]
  unfold lambertian
  rw [if_pos hrad]
  simp only [List.foldl_cons, List.foldl_nil, lambertian_step, hray, hit_anything_back]
  have hE : (spec_externals Real.sqrt (FLT_MAX : ℝ)).sqrt = Real.sqrt := rfl
  simp only [hE, hnorm, on_axis_dot]
  ext i
  fin_cases i <;> norm_num [Vector.smul, ball, MATTE_WHITE, Vector.ofList_three, axis_light]

theorem get_reflective_axis (d n : F) (h : n * n = 1) :
    (on_axis d).get_reflective (on_axis n) = some (on_axis (d - n * (2 * (d * n)))) := by
  have h1 : (0.99999 : F) < 1 := by norm_num
  have h2 : (1 : F) < 1.000001 := by norm_num
  simp only [Vector.get_reflective, on_axis_square, h, h1, h2, and_self, if_true, on_axis_dot,
    on_axis_smul, on_axis_sub]

theorem ray_color_back (m : material ℝ) :
    ray_color (spec_externals Real.sqrt FLT_MAX) (axis_ray (-3.92) 0.92) 1 (two_balls m)
      [axis_light 0 1] = some (Vector.ofList [1, 1, 1]) := by
  rw [ray_color_lambertian _ _ _ _ _ le_rfl]
  · rw [find_closest_back]
    simp only [lambertian_back]
  · rw [find_closest_back]
    norm_num [ball, MATTE_WHITE]
  · rw [find_closest_back]
    simp [ball, MATTE_WHITE]

theorem reflective_front :
    (axis_ray (0:ℝ) (-1)).direction.get_reflective (on_axis 1) = some (on_axis 1) := by
  rw [axis_ray, get_reflective_axis _ _ (by norm_num)]
  norm_num

theorem reflected_ray_front :
    Ray3df.mk ((on_axis (-4 : ℝ)).add (Vector.smul 0.08 (on_axis 1)))
      (Vector.smul 0.92 (on_axis 1)) = axis_ray (-3.92) 0.92 := by
  rw [on_axis_smul, on_axis_smul, on_axis_add, axis_ray]
  norm_num

theorem refract_front (m : material ℝ) (out : Ray3df ℝ) (hm : 1 ≤ m.density) :
    (refract (spec_externals Real.sqrt FLT_MAX) (axis_ray 0 (-1)) out (ball (-5) 1 m)
      { t := 4, intersection := on_axis (-4), normal := on_axis 1 }).1 = true := by
  have hE : (spec_externals Real.sqrt (FLT_MAX : ℝ)).sqrt = Real.sqrt := rfl
  have hpos : 0 < m.density := by linarith
  simp only [refract, axis_ray, on_axis_dot, hE]
  norm_num [ball]

theorem ray_color_reflecting :
    ray_color (spec_externals Real.sqrt FLT_MAX) (axis_ray 0 (-1)) 2
      (two_balls GLASS_reflecting) [axis_light 0 1] = some (Vector.ofList [1, 1, 1]) := by
  rw [ray_color]
  simp only [find_closest_front, reflective_front, Option.some_bind, reflected_ray_front]
  have h21 : (2 : ℤ) - 1 = 1 := by norm_num
  simp only [h21, ray_color_back, Option.some_bind]
  norm_num [ball, GLASS_reflecting, Vector.zero_add3]
  ext i
  fin_cases i <;> simp [Vector.smul, Vector.ofList_three]

/-- C1, as stated, fails: with reflectivity 1 on a transmissive sphere the guard
`transparency > 0` is not met, and `ray_color` returns the full reflected colour (1,1,1)
although `refract` succeeds, not the average. -/
theorem transmissive_blend_counterexample :
    (1 : ℤ) ≤ 2 ∧
    0 < (find_closest (spec_externals Real.sqrt FLT_MAX) (axis_ray 0 (-1))
      (two_balls GLASS_reflecting)).closest.mat.reflectivity ∧
    (find_closest (spec_externals Real.sqrt FLT_MAX) (axis_ray 0 (-1))
      (two_balls GLASS_reflecting)).closest.mat.is_transmissive = true ∧
    (refract (spec_externals Real.sqrt FLT_MAX) (axis_ray 0 (-1))
      (spec_externals Real.sqrt FLT_MAX).default_ray
      (find_closest (spec_externals Real.sqrt FLT_MAX) (axis_ray 0 (-1))
        (two_balls GLASS_reflecting)).closest
      (find_closest (spec_externals Real.sqrt FLT_MAX) (axis_ray 0 (-1))
        (two_balls GLASS_reflecting)).context).1 = true ∧
    ray_color (spec_externals Real.sqrt FLT_MAX) (axis_ray 0 (-1)) 2
      (two_balls GLASS_reflecting) [axis_light 0 1] ≠
    transmissive_blend_spec (spec_externals Real.sqrt FLT_MAX) (axis_ray 0 (-1)) 2
      (two_balls GLASS_reflecting) [axis_light 0 1] := by
  have hm : (1 : ℝ) ≤ (GLASS_reflecting : material ℝ).density := by
    norm_num [GLASS_reflecting]
  refine ⟨by norm_num, ?_, ?_, ?_, ?_⟩
  · rw [find_closest_front]
    norm_num [ball, GLASS_reflecting]
  · rw [find_closest_front]
    simp [ball, GLASS_reflecting]
  · rw [find_closest_front]
    exact refract_front GLASS_reflecting _ hm
  · rw [ray_color_reflecting]
    unfold transmissive_blend_spec
    have h21 : (2 : ℤ) - 1 = 1 := by norm_num
    simp only [find_closest_front, reflective_front, Option.some_bind, reflected_ray_front, h21,
      ray_color_back, refract_front GLASS_reflecting _ hm, if_true]
    cases ray_color (spec_externals Real.sqrt FLT_MAX)
        (refract (spec_externals Real.sqrt FLT_MAX) (axis_ray 0 (-1))
          (spec_externals Real.sqrt FLT_MAX).default_ray (ball (-5) 1 GLASS_reflecting)
          { t := 4, intersection := on_axis (-4), normal := on_axis 1 }).2 1
        (two_balls GLASS_reflecting) [axis_light 0 1] with
    | none => simp
    | some b =>
      simp only [Option.some_bind, ne_eq, Option.some.injEq]
      intro h
      have h0 := congrArg (fun v => v.vector 0) h
      norm_num [Vector.smul, Vector.add, Vector.ofList_three, ball, GLASS_reflecting] at h0

/-- C1 (amended) applied to the camera ray hitting a `GLASS` sphere. -/
theorem ray_color_transmissive_witness :
    ((1 : ℤ) ≤ 2 ∧
      0 < (find_closest (spec_externals Real.sqrt FLT_MAX) (axis_ray 0 (-1))
        (two_balls GLASS)).closest.mat.reflectivity ∧
      (find_closest (spec_externals Real.sqrt FLT_MAX) (axis_ray 0 (-1))
        (two_balls GLASS)).closest.mat.reflectivity < 1 ∧
      (find_closest (spec_externals Real.sqrt FLT_MAX) (axis_ray 0 (-1))
        (two_balls GLASS)).closest.mat.is_transmissive = true) ∧
    ray_color (spec_externals Real.sqrt FLT_MAX) (axis_ray 0 (-1)) 2 (two_balls GLASS)
        [axis_light 0 1] =
      transmissive_blend_spec (spec_externals Real.sqrt FLT_MAX) (axis_ray 0 (-1)) 2
        (two_balls GLASS) [axis_light 0 1] := by
  have h1 : 0 < (find_closest (spec_externals Real.sqrt FLT_MAX) (axis_ray 0 (-1))
      (two_balls GLASS)).closest.mat.reflectivity := by
    rw [find_closest_front]
    norm_num [ball, GLASS]
  have h2 : (find_closest (spec_externals Real.sqrt FLT_MAX) (axis_ray 0 (-1))
      (two_balls GLASS)).closest.mat.reflectivity < 1 := by
    rw [find_closest_front]
    norm_num [ball, GLASS]
  have h3 : (find_closest (spec_externals Real.sqrt FLT_MAX) (axis_ray 0 (-1))
      (two_balls GLASS)).closest.mat.is_transmissive = true := by
    rw [find_closest_front]
    simp [ball, GLASS]
  exact ⟨⟨by norm_num, h1, h2, h3⟩,
    ray_color_transmissive _ _ 2 _ _ (by norm_num) h1 h2 h3⟩

theorem miss_both (m : material ℝ) :
    ∀ obj ∈ two_balls m,
      ((spec_externals Real.sqrt FLT_MAX).intersects_context obj.sphere (axis_ray 10 1)).1 =
        false := by
  have h1 : Sphere3df.positive_root Real.sqrt { center := on_axis (-5), radius := (1:ℝ) }
      (axis_ray 10 1) = none := by
    rw [axis_ray, axis_positive_root Real.sqrt real_sqrt_spec _ _ _ _ (by norm_num)]
    norm_num
  have h2 : Sphere3df.positive_root Real.sqrt { center := on_axis 5, radius := (1:ℝ) }
      (axis_ray 10 1) = none := by
    rw [axis_ray, axis_positive_root Real.sqrt real_sqrt_spec _ _ _ _ (by norm_num)]
    norm_num
  intro obj hobj
  simp only [two_balls, List.mem_cons, List.mem_singleton, List.not_mem_nil, or_false] at hobj
  rcases hobj with h | h <;> subst h
  · rw [axis_intersects_context _ _ _ _ _ _ rfl, h1]
  · rw [axis_intersects_context _ _ _ _ _ _ rfl, h2]

/-- C2 applied to a ray that leaves a world of two spheres behind it. -/
theorem ray_color_miss_witness :
    ((1 : ℤ) ≤ 3 ∧ ∀ obj ∈ two_balls (MIRROR : material ℝ),
      ((spec_externals Real.sqrt FLT_MAX).intersects_context obj.sphere (axis_ray 10 1)).1 =
        false) ∧
    ray_color (spec_externals Real.sqrt FLT_MAX) (axis_ray 10 1) 3 (two_balls MIRROR)
      [axis_light 0 1] = some (Vector.ofList [0, 0, 0]) :=
  ⟨⟨by norm_num, miss_both MIRROR⟩,
    ray_color_miss _ _ 3 _ _ (by norm_num) (miss_both MIRROR)⟩

theorem to_light_ray_axis_up (pz lz k : ℝ) (t : ℝ) (hlt : pz < lz) (nz : ℝ) :
    to_light_ray (spec_externals Real.sqrt FLT_MAX)
        { t := t, intersection := on_axis pz, normal := on_axis nz } (axis_light lz k) =
      axis_ray (pz + 0.08) (0.92 * (lz - pz)) := by
  have habs : |lz - pz| = lz - pz := abs_of_pos (by linarith)
  have hne : lz - pz ≠ 0 := by linarith
  simp only [to_light_ray, axis_light, spec_externals, on_axis_sub,
    on_axis_normalize Real.sqrt real_sqrt_spec, on_axis_smul, on_axis_add, axis_ray, habs]
  rw [div_self hne]
  congr 2 <;> ring

theorem hit_anything_front (m : material ℝ) :
    hit_anything (spec_externals Real.sqrt FLT_MAX) (axis_ray (-4 + 0.08) (0.92 * (10 - -4)))
      (two_balls m) = true := by
  have h1 : Sphere3df.positive_root Real.sqrt { center := on_axis (-5), radius := (1:ℝ) }
      (axis_ray (-4 + 0.08) (0.92 * (10 - -4))) = none := by
    rw [axis_ray, axis_positive_root Real.sqrt real_sqrt_spec _ _ _ _ (by norm_num)]
    norm_num [abs_of_pos]
  have h2 : Sphere3df.positive_root Real.sqrt { center := on_axis 5, radius := (1:ℝ) }
      (axis_ray (-4 + 0.08) (0.92 * (10 - -4))) = some (99 / 161) := by
    rw [axis_ray, axis_positive_root Real.sqrt real_sqrt_spec _ _ _ _ (by norm_num)]
    norm_num [abs_of_pos]
  simp only [hit_anything, two_balls, spec_externals, ball, h1, h2, Option.getD]
  norm_num

/-- C4 applied to a sphere whose only light is hidden behind a second sphere. -/
theorem ray_color_diffuse_occluded_witness :
    ((1 : ℤ) ≤ 1 ∧
      (find_closest (spec_externals Real.sqrt FLT_MAX) (axis_ray 0 (-1))
        (two_balls MATTE_WHITE)).closest.mat.reflectivity = 0 ∧
      (find_closest (spec_externals Real.sqrt FLT_MAX) (axis_ray 0 (-1))
        (two_balls MATTE_WHITE)).closest.mat.is_transmissive = false ∧
      (find_closest (spec_externals Real.sqrt FLT_MAX) (axis_ray 0 (-1))
        (two_balls MATTE_WHITE)).closest.sphere.radius ≠ -1 ∧
      [axis_light (10 : ℝ) 1] ≠ [] ∧
      ∀ l ∈ [axis_light (10 : ℝ) 1],
        hit_anything (spec_externals Real.sqrt FLT_MAX)
          (to_light_ray (spec_externals Real.sqrt FLT_MAX)
            (find_closest (spec_externals Real.sqrt FLT_MAX) (axis_ray 0 (-1))
              (two_balls MATTE_WHITE)).context l) (two_balls MATTE_WHITE) = true) ∧
    ray_color (spec_externals Real.sqrt FLT_MAX) (axis_ray 0 (-1)) 1 (two_balls MATTE_WHITE)
        [axis_light 10 1] =
      some (Vector.smul
        (find_closest (spec_externals Real.sqrt FLT_MAX) (axis_ray 0 (-1))
          (two_balls MATTE_WHITE)).closest.mat.const_light
        (find_closest (spec_externals Real.sqrt FLT_MAX) (axis_ray 0 (-1))
          (two_balls MATTE_WHITE)).closest.mat.col) := by
  have h1 : (find_closest (spec_externals Real.sqrt FLT_MAX) (axis_ray 0 (-1))
      (two_balls MATTE_WHITE)).closest.mat.reflectivity = 0 := by
    rw [find_closest_front]
    norm_num [ball, MATTE_WHITE]
  have h2 : (find_closest (spec_externals Real.sqrt FLT_MAX) (axis_ray 0 (-1))
      (two_balls MATTE_WHITE)).closest.mat.is_transmissive = false := by
    rw [find_closest_front]
    simp [ball, MATTE_WHITE]
  have h3 : (find_closest (spec_externals Real.sqrt FLT_MAX) (axis_ray 0 (-1))
      (two_balls MATTE_WHITE)).closest.sphere.radius ≠ -1 := by
    rw [find_closest_front]
    norm_num [ball]
  have h4 : [axis_light (10 : ℝ) 1] ≠ [] := by simp
  have h5 : ∀ l ∈ [axis_light (10 : ℝ) 1],
      hit_anything (spec_externals Real.sqrt FLT_MAX)
        (to_light_ray (spec_externals Real.sqrt FLT_MAX)
          (find_closest (spec_externals Real.sqrt FLT_MAX) (axis_ray 0 (-1))
            (two_balls MATTE_WHITE)).context l) (two_balls MATTE_WHITE) = true := by
    intro l hl
    rw [List.mem_singleton] at hl
    subst hl
    rw [find_closest_front, to_light_ray_axis_up _ _ _ _ (by norm_num)]
    exact hit_anything_front MATTE_WHITE
  exact ⟨⟨le_rfl, h1, h2, h3, h4, h5⟩,
    ray_color_diffuse_occluded _ _ 1 _ _ le_rfl h1 h2 h3 h4 h5⟩

/-- C6, as stated, fails: for P = (0,0,0) and L = (0,0,4) the shadow ray ends at
(0,0,3.76), not at L. -/
theorem to_light_ray_end_counterexample :
    (axis_light (4 : ℝ) 1).pos ≠ on_axis 0 ∧
    (to_light_ray (spec_externals Real.sqrt FLT_MAX)
        { t := 1, intersection := on_axis 0, normal := on_axis 1 } (axis_light 4 1)).origin.add
      (Vector.smul 1 (to_light_ray (spec_externals Real.sqrt FLT_MAX)
        { t := 1, intersection := on_axis 0, normal := on_axis 1 } (axis_light 4 1)).direction) ≠
      (axis_light (4 : ℝ) 1).pos := by
  constructor
  · rw [axis_light, ne_eq, on_axis_inj]
    norm_num
  · rw [to_light_ray_axis_up _ _ _ _ (by norm_num), axis_ray, axis_light, on_axis_smul,
      on_axis_add, ne_eq, on_axis_inj]
    norm_num

/-- C6 (amended) applied to P = (0,0,0) and L = (0,0,4). -/
theorem to_light_ray_end_witness :
    (axis_light (4 : ℝ) 1).pos ≠ on_axis 0 ∧
    ((to_light_ray (spec_externals Real.sqrt FLT_MAX)
          { t := 1, intersection := on_axis 0, normal := on_axis 1 } (axis_light 4 1)).origin.add
        (Vector.smul 1 (to_light_ray (spec_externals Real.sqrt FLT_MAX)
          { t := 1, intersection := on_axis 0, normal := on_axis 1 }
            (axis_light 4 1)).direction) =
        (axis_light (4 : ℝ) 1).pos.add (Vector.smul 0.08
          ((((axis_light (4 : ℝ) 1).pos.sub (on_axis 0)).normalize Real.sqrt).sub
            ((axis_light (4 : ℝ) 1).pos.sub (on_axis 0)))) ∧
      ((to_light_ray (spec_externals Real.sqrt FLT_MAX)
            { t := 1, intersection := on_axis 0, normal := on_axis 1 }
              (axis_light 4 1)).origin.add
          (Vector.smul 1 (to_light_ray (spec_externals Real.sqrt FLT_MAX)
            { t := 1, intersection := on_axis 0, normal := on_axis 1 }
              (axis_light 4 1)).direction) = (axis_light (4 : ℝ) 1).pos ↔
        ((axis_light (4 : ℝ) 1).pos.sub (on_axis 0)).length Real.sqrt = 1)) := by
  have hne : (axis_light (4 : ℝ) 1).pos ≠ on_axis 0 := by
    rw [axis_light, ne_eq, on_axis_inj]
    norm_num
  exact ⟨hne, to_light_ray_end (spec_externals Real.sqrt FLT_MAX)
    { t := 1, intersection := on_axis 0, normal := on_axis 1 } (axis_light 4 1)
    real_sqrt_spec hne⟩

/-- C7, failing input: for the material `MIRROR` (density 1) and `cos_x = -1`,
`schlick_approximation` returns 32. -/
theorem schlick_back_face :
    schlick_approximation (spec_externals Real.sqrt FLT_MAX) (on_axis 1) (on_axis 1)
      (ball 0 1 MIRROR) = 32 := by
  simp only [schlick_approximation, on_axis_dot, ball, MIRROR]
  norm_num

/-- C8 applied to `GLASS` at normal incidence. -/
theorem schlick_normal_witness :
    ((1 : ℝ) ≤ (ball (0 : ℝ) 1 GLASS).mat.density ∧
      -((on_axis (1 : ℝ)).dot (on_axis (-1))) = 1 ∧
      (spec_externals Real.sqrt (FLT_MAX : ℝ)).sqrt 1 = 1) ∧
    schlick_approximation (spec_externals Real.sqrt FLT_MAX) (on_axis (-1)) (on_axis 1)
        (ball 0 1 GLASS) =
      ((1 - (ball (0 : ℝ) 1 GLASS).mat.density) / (1 + (ball (0 : ℝ) 1 GLASS).mat.density)) ^ 2 := by
  have h1 : (1 : ℝ) ≤ (ball (0 : ℝ) 1 GLASS).mat.density := by norm_num [ball, GLASS]
  have h2 : -((on_axis (1 : ℝ)).dot (on_axis (-1))) = 1 := by
    rw [on_axis_dot]
    norm_num
  have h3 : (spec_externals Real.sqrt (FLT_MAX : ℝ)).sqrt 1 = 1 := Real.sqrt_one
  exact ⟨⟨h1, h2, h3⟩, schlick_normal _ _ _ _ h1 h2 h3⟩

/-- C9, as stated, fails: with density 1, normal (0,0,1) and incoming direction
(0,0,-2), `refract` does not return `out.direction = in.direction` (it sets (0,0,-1)). -/
theorem refract_same_density_counterexample :
    (ball (-5 : ℝ) 1 MIRROR).mat.density = 1 ∧
    (on_axis (1 : ℝ)).square_of_length = 1 ∧
    ¬ ((refract (spec_externals Real.sqrt FLT_MAX) (axis_ray 0 (-2))
          (spec_externals Real.sqrt FLT_MAX).default_ray (ball (-5) 1 MIRROR)
          { t := 2, intersection := on_axis (-4), normal := on_axis 1 }).1 = true ∧
       (refract (spec_externals Real.sqrt FLT_MAX) (axis_ray 0 (-2))
          (spec_externals Real.sqrt FLT_MAX).default_ray (ball (-5) 1 MIRROR)
          { t := 2, intersection := on_axis (-4), normal := on_axis 1 }).2.direction =
        (axis_ray (0 : ℝ) (-2)).direction) := by
  have hE : (spec_externals Real.sqrt (FLT_MAX : ℝ)).sqrt = Real.sqrt := rfl
  refine ⟨by norm_num [ball, MIRROR], by rw [on_axis_square]; norm_num, ?_⟩
  rintro ⟨_, h⟩
  have h2 := congrArg (fun v => v.vector 2) h
  simp only [refract, axis_ray, on_axis_dot, hE, ball, MIRROR] at h2
  norm_num [Vector.add, Vector.smul, on_axis_vector] at h2

/-- C9 (amended) applied to the camera ray meeting a sphere of density 1 head-on. -/
theorem refract_same_density_witness :
    ((ball (-5 : ℝ) 1 MIRROR).mat.density = 1 ∧
      |(on_axis (1 : ℝ)).dot (axis_ray (0 : ℝ) (-1)).direction| ≤ 1) ∧
    ((refract (spec_externals Real.sqrt FLT_MAX) (axis_ray 0 (-1))
          (spec_externals Real.sqrt FLT_MAX).default_ray (ball (-5) 1 MIRROR)
          { t := 4, intersection := on_axis (-4), normal := on_axis 1 }).1 = true ∧
      (refract (spec_externals Real.sqrt FLT_MAX) (axis_ray 0 (-1))
          (spec_externals Real.sqrt FLT_MAX).default_ray (ball (-5) 1 MIRROR)
          { t := 4, intersection := on_axis (-4), normal := on_axis 1 }).2.direction =
        (axis_ray (0 : ℝ) (-1)).direction) := by
  have h1 : (ball (-5 : ℝ) 1 MIRROR).mat.density = 1 := by norm_num [ball, MIRROR]
  have h2 : |(on_axis (1 : ℝ)).dot (axis_ray (0 : ℝ) (-1)).direction| ≤ 1 := by
    rw [axis_ray, on_axis_dot]
    norm_num
  exact ⟨⟨h1, h2⟩, (refract_same_density (spec_externals Real.sqrt FLT_MAX) (axis_ray 0 (-1))
    _ (ball (-5) 1 MIRROR) { t := 4, intersection := on_axis (-4), normal := on_axis 1 }
    real_sqrt_spec h1).mpr h2⟩

/-- C10. `refract` returns false exactly when the `sin_theta` of the specification
exceeds 1, and whenever it returns false `out` is left as the caller passed it. -/
theorem refract_total_reflection (E : Externals F) (inr out : Ray3df F) (object : hitable F)
    (context : Intersection_Context F) :
    ((refract E inr out object context).1 = false ↔
        1 < refract_sin_theta_spec E inr object context) ∧
      ((refract E inr out object context).1 = false →
        (refract E inr out object context).2 = out) := by
  constructor
  · have e1 : (1.0 : F) = 1 := by norm_num
    have e0 : (0.0 : F) = 0 := by norm_num
    unfold refract refract_sin_theta_spec
    simp only [e1, e0, neg_one_mul, gt_iff_lt, neg_neg, neg_lt_zero]
    by_cases hd : context.normal.dot inr.direction ≤ 0
    · have h1 : ¬ (0 < context.normal.dot inr.direction) := not_lt.mpr hd
      simp only [h1, hd, decide_False, if_true, if_false, Bool.false_eq_true, sq_abs]
      split_ifs with h
      · simpa [sq] using h
      · simpa [sq] using h
    · have h1 : 0 < context.normal.dot inr.direction := not_le.mp hd
      simp only [h1, hd, decide_True, if_true, if_false, sq_abs]
      split_ifs with h
      · simpa [sq] using h
      · simpa [sq] using h
  · intro h
    unfold refract at h ⊢
    dsimp only at h ⊢
    split_ifs at h ⊢ <;> rfl

theorem sin_theta_grazing :
    1 < refract_sin_theta_spec (spec_externals Real.sqrt FLT_MAX)
      { origin := on_axis (-5), direction := Vector.ofList [0.8, 0, 0.6] } (ball (-5) 1 GLASS)
      { t := 1, intersection := on_axis (-4), normal := on_axis 1 } := by
  have hE : (spec_externals Real.sqrt (FLT_MAX : ℝ)).sqrt = Real.sqrt := rfl
  have hsq : Real.sqrt (16 / 25) = 4 / 5 := by
    rw [show (16 / 25 : ℝ) = 4 / 5 * (4 / 5) by norm_num]
    exact Real.sqrt_mul_self (by norm_num)
  simp only [refract_sin_theta_spec, Vector.dot_three, on_axis_vector, Vector.ofList_three, hE,
    ball, GLASS]
  norm_num [hsq]

/-- C10 applied to a ray leaving `GLASS` at a grazing angle: `refract` returns false
and `out` is unchanged. -/
theorem refract_total_reflection_witness :
    (refract (spec_externals Real.sqrt FLT_MAX)
        { origin := on_axis (-5), direction := Vector.ofList [0.8, 0, 0.6] }
        (axis_ray 7 7) (ball (-5) 1 GLASS)
        { t := 1, intersection := on_axis (-4), normal := on_axis 1 }).1 = false ∧
    (refract (spec_externals Real.sqrt FLT_MAX)
        { origin := on_axis (-5), direction := Vector.ofList [0.8, 0, 0.6] }
        (axis_ray 7 7) (ball (-5) 1 GLASS)
        { t := 1, intersection := on_axis (-4), normal := on_axis 1 }).2 = axis_ray 7 7 :=
  have h := refract_total_reflection (spec_externals Real.sqrt FLT_MAX)
    { origin := on_axis (-5), direction := Vector.ofList [0.8, 0, 0.6] }
    (axis_ray 7 7) (ball (-5) 1 GLASS)
    { t := 1, intersection := on_axis (-4), normal := on_axis 1 }
  ⟨h.1.mpr sin_theta_grazing, h.2 (h.1.mpr sin_theta_grazing)⟩

theorem schlick_blend_range (r0 x : F) (h0 : 0 ≤ r0) (h1 : r0 ≤ 1) (hx0 : 0 ≤ x) (hx1 : x ≤ 1) :
    0 ≤ r0 + (1 - r0) * x * x * x * x * x ∧ r0 + (1 - r0) * x * x * x * x * x ≤ 1 := by
  have hp : 0 ≤ x * x * x * x * x := by positivity
  have hq : x * x * x * x * x ≤ 1 := by
    have h2 : x * x ≤ 1 := by nlinarith
    have h3 : x * x * x ≤ 1 := by nlinarith
    have h4 : x * x * x * x ≤ 1 := by nlinarith
    nlinarith
  have e : r0 + (1 - r0) * x * x * x * x * x = r0 + (1 - r0) * (x * x * x * x * x) := by ring
  rw [e]
  constructor
  · nlinarith
  · nlinarith

theorem schlick_r0_range (n : F) (hn : 1 ≤ n) (q : F)
    (hq : q = (1 - n) / (1 + n) ∨ q = (n - 1) / (n + 1)) : 0 ≤ q * q ∧ q * q ≤ 1 := by
  have hpos : 0 < n + 1 := by linarith
  have hpos2 : 0 < 1 + n := by linarith
  refine ⟨mul_self_nonneg q, ?_⟩
  have habs : |q| ≤ 1 := by
    rcases hq with h | h <;> rw [h, abs_le]
    · constructor
      · rw [le_div_iff₀ hpos2]; linarith
      · rw [div_le_iff₀ hpos2]; linarith
    · constructor
      · rw [le_div_iff₀ hpos]; linarith
      · rw [div_le_iff₀ hpos]; linarith
  have := mul_le_mul habs habs (abs_nonneg q) zero_le_one
  rwa [abs_mul_abs_self, one_mul] at this

theorem schlick_range (E : Externals F) (inbound normal : Vector3df F) (obj : hitable F)
    (hs : ∀ x, 0 ≤ x → 0 ≤ E.sqrt x ∧ E.sqrt x * E.sqrt x = x)
    (hn : 1 ≤ obj.mat.density)
    (hlo : -1 ≤ -(normal.dot inbound)) (hhi : -(normal.dot inbound) ≤ 1)
    (hside : 1 < obj.mat.density ∨ 0 ≤ -(normal.dot inbound)) :
    0 ≤ schlick_approximation E inbound normal obj ∧
      schlick_approximation E inbound normal obj ≤ 1 := by
  have e0 : (0.0 : F) = 0 := by norm_num
  have e1 : (1.0 : F) = 1 := by norm_num
  unfold schlick_approximation
  simp only [e0, e1, neg_one_mul, gt_iff_lt]
  set c := -(normal.dot inbound) with hc
  have hr0 := schlick_r0_range obj.mat.density hn
    (if 0 < c then (1 - obj.mat.density) / (1 + obj.mat.density)
      else (obj.mat.density - 1) / (obj.mat.density + 1))
    (by split_ifs <;> simp)
  generalize (if 0 < c then (1 - obj.mat.density) / (1 + obj.mat.density)
      else (obj.mat.density - 1) / (obj.mat.density + 1)) = q at hr0 ⊢
  by_cases hd : 1 < obj.mat.density
  · simp only [hd, if_true]
    by_cases h1 : 1 < obj.mat.density * obj.mat.density * (1 - c * c)
    · simp only [h1, if_true]
      exact ⟨zero_le_one, le_rfl⟩
    · simp only [h1, if_false]
      have hcc : c * c ≤ 1 := by nlinarith
      have hnn : 0 ≤ obj.mat.density * obj.mat.density * (1 - c * c) :=
        mul_nonneg (mul_self_nonneg _) (by linarith)
      rcases hs (1 - obj.mat.density * obj.mat.density * (1 - c * c)) (by linarith)
        with ⟨s0, s1⟩
      have s2 : E.sqrt (1 - obj.mat.density * obj.mat.density * (1 - c * c)) ≤ 1 := by
        nlinarith
      exact schlick_blend_range _ _ hr0.1 hr0.2 (by linarith) (by linarith)
  · have hc0 : 0 ≤ c := by
      rcases hside with h | h
      · exact absurd h hd
      · exact h
    simp only [hd, if_false]
    exact schlick_blend_range _ _ hr0.1 hr0.2 (by linarith) (by linarith)

theorem foldl_add_eq_sum (n : Nat) (f : Fin n → F) :
    Fin.foldl n (fun acc i => acc + f i) 0 = ∑ i, f i := by
  induction n with
  | zero => simp
  | succ n ih =>
    rw [Fin.foldl_succ_last, Fin.sum_univ_castSucc, ← ih]

theorem Vector.dot_eq_sum (a b : Vector F N) : a.dot b = ∑ i, a.vector i * b.vector i :=
  foldl_add_eq_sum N _

theorem Vector.square_of_length_eq_sum (a : Vector F N) :
    a.square_of_length = ∑ i, a.vector i * a.vector i :=
  foldl_add_eq_sum N _

theorem sum_reflect_sq (v n : Fin N → F) (d : F) :
    ∑ i, (v i - n i * (2 * d)) * (v i - n i * (2 * d)) =
      ∑ i, v i * v i - 4 * d * ∑ i, v i * n i + 4 * d * d * ∑ i, n i * n i := by
  rw [Finset.mul_sum, Finset.mul_sum, ← Finset.sum_sub_distrib, ← Finset.sum_add_distrib]
  exact Finset.sum_congr rfl (fun i _ => by ring)

theorem sum_reflect_dot (v n : Fin N → F) (d : F) :
    ∑ i, (v i - n i * (2 * d)) * n i = ∑ i, v i * n i - 2 * d * ∑ i, n i * n i := by
  rw [Finset.mul_sum, ← Finset.sum_sub_distrib]
  exact Finset.sum_congr rfl (fun i _ => by ring)

theorem get_reflective_some (v normal : Vector F N) (hn : normal.square_of_length = 1) :
    ∃ r, v.get_reflective normal = some r := by
  have h1 : (0.99999 : F) < 1 := by norm_num
  have h2 : (1 : F) < 1.000001 := by norm_num
  exact ⟨v.sub (Vector.smul (2 * v.dot normal) normal),
    by simp only [Vector.get_reflective, hn, h1, h2, and_self, if_true]⟩

/-- C11. For every vector v and every unit-length normal n, `v.get_reflective(n)`
returns a vector r (the assertion holds) with `r . r = v . v` and `r . n = -(v . n)`. -/
theorem get_reflective_unit (v normal : Vector F N) (hn : normal.square_of_length = 1) :
    ∃ r, v.get_reflective normal = some r ∧ r.dot r = v.dot v ∧
      r.square_of_length = v.square_of_length ∧ r.dot normal = -(v.dot normal) := by
  have h1 : (0.99999 : F) < 1 := by norm_num
  have h2 : (1 : F) < 1.000001 := by norm_num
  have hnn : ∑ i, normal.vector i * normal.vector i = 1 := by
    rw [← Vector.square_of_length_eq_sum, hn]
  have hsq : ∑ i, (v.vector i - normal.vector i * (2 * v.dot normal)) *
      (v.vector i - normal.vector i * (2 * v.dot normal)) = ∑ i, v.vector i * v.vector i := by
    rw [sum_reflect_sq, hnn, ← Vector.dot_eq_sum v normal]
    ring
  refine ⟨v.sub (Vector.smul (2 * v.dot normal) normal), ?_, ?_, ?_, ?_⟩
  · simp only [Vector.get_reflective, hn, h1, h2, and_self, if_true]
  · exact (Vector.dot_eq_sum _ _).trans (hsq.trans (Vector.dot_eq_sum v v).symm)
  · exact (Vector.square_of_length_eq_sum _).trans
      (hsq.trans (Vector.square_of_length_eq_sum v).symm)
  · refine (Vector.dot_eq_sum _ _).trans ?_
    show ∑ i, (v.vector i - normal.vector i * (2 * v.dot normal)) * normal.vector i = _
    rw [sum_reflect_dot, hnn, ← Vector.dot_eq_sum v normal]
    ring

/-- C11 applied to v = (1,2,3) and n = (0,0,1). -/
theorem get_reflective_unit_witness :
    (on_axis (1 : ℝ)).square_of_length = 1 ∧
    ∃ r, (Vector.ofList [1, 2, 3] : Vector ℝ 3).get_reflective (on_axis 1) = some r ∧
      r.dot r = (Vector.ofList [1, 2, 3] : Vector ℝ 3).dot (Vector.ofList [1, 2, 3]) ∧
      r.square_of_length = (Vector.ofList [1, 2, 3] : Vector ℝ 3).square_of_length ∧
      r.dot (on_axis 1) = -((Vector.ofList [1, 2, 3] : Vector ℝ 3).dot (on_axis 1)) :=
  have h : (on_axis (1 : ℝ)).square_of_length = 1 := by rw [on_axis_square]; norm_num
  ⟨h, get_reflective_unit _ _ h⟩

theorem cross_product_three (a b : Vector F 3) :
    a.cross_product b = some (Vector.ofList
      [a.vector 1 * b.vector 2 - a.vector 2 * b.vector 1,
       -(a.vector 2 * b.vector 0 - a.vector 0 * b.vector 2),
       a.vector 0 * b.vector 1 - a.vector 1 * b.vector 0]) := by
  simp only [Vector.cross_product, show (3 : ℕ) ≤ 3 from le_rfl, dite_true, Option.some.injEq]
  ext i
  fin_cases i <;> simp [Vector.ofList_three]

/-- C12, failing input: for a = (1,2,0) and b = (0,0,1) `cross_product` returns
(2,1,0); the cross product is (2,-1,0), and (2,1,0) is not orthogonal to a. -/
theorem cross_product_second_component :
    (Vector.ofList [1, 2, 0] : Vector ℝ 3).cross_product (Vector.ofList [0, 0, 1]) =
        some (Vector.ofList [2, 1, 0]) ∧
      (Vector.ofList [2, 1, 0] : Vector ℝ 3) ≠
        Vector.ofList [2 * 1 - 0 * 0, 0 * 0 - 1 * 1, 1 * 0 - 2 * 0] ∧
      (Vector.ofList [2, 1, 0] : Vector ℝ 3).dot (Vector.ofList [1, 2, 0]) = 4 := by
  refine ⟨?_, ?_, ?_⟩
  · simp only [Vector.cross_product, show (3 : ℕ) ≤ 3 from le_rfl, dite_true, Option.some.injEq]
    ext i
    fin_cases i <;> simp [Vector.ofList_three]
  · intro h
    have h1 := congrArg (fun v => v.vector 1) h
    norm_num [Vector.ofList_three] at h1
  · norm_num [Vector.dot_three, Vector.ofList_three]

theorem Vector.init_values_getD (n : Nat) (values : List F) (prev : F) (i : Nat) (hi : i < n) :
    (Vector.init_values n values prev).getD i 0 =
      if h : i < values.length then values[i] else values.getLast?.getD prev := by
  induction n generalizing values prev i with
  | zero => omega
  | succ n ih =>
    cases values with
    | nil =>
      cases i with
      | zero => simp [Vector.init_values]
      | succ j =>
        have := ih [] prev j (by omega)
        simpa [Vector.init_values] using this
    | cons x rest =>
      cases i with
      | zero => simp [Vector.init_values]
      | succ j =>
        have := ih rest x j (by omega)
        simp only [Vector.init_values, List.getD_cons_succ, this, List.length_cons,
          Nat.add_lt_add_iff_right, List.getElem_cons_succ, List.getLast?_cons]
        rfl

theorem Vector.ofList_vector (values : List F) (i : Fin N) :
    (Vector.ofList values : Vector F N).vector i =
      if h : i.val < values.length then values[i.val] else values.getLast?.getD 0 :=
  Vector.init_values_getD N values 0 i.val i.isLt

/-- C14. The initializer-list constructor: component i is the i-th given value while
values last; after that it is the last given value, or 0 when none was given; values beyond
the N-th are ignored. -/
theorem Vector.ofList_spec (values : List F) (i : Fin N) :
    (∀ h : i.val < values.length, (Vector.ofList values : Vector F N).vector i = values[i.val]) ∧
    (values.length ≤ i.val → ∀ hne : values ≠ [],
      (Vector.ofList values : Vector F N).vector i = values.getLast hne) ∧
    (values = [] → (Vector.ofList values : Vector F N).vector i = 0) ∧
    (Vector.ofList (values.take N) : Vector F N) = Vector.ofList values := by
  refine ⟨?_, ?_, ?_, ?_⟩
  · intro h
    rw [Vector.ofList_vector, dif_pos h]
  · intro h hne
    rw [Vector.ofList_vector, dif_neg (by omega), List.getLast?_eq_getLast _ hne]
    rfl
  · intro h
    subst h
    rw [Vector.ofList_vector]
    simp
  · ext j
    rw [Vector.ofList_vector, Vector.ofList_vector]
    by_cases h : j.val < values.length
    · have h2 : j.val < (values.take N).length := by
        rw [List.length_take]
        exact lt_min j.isLt h
      rw [dif_pos h, dif_pos h2, List.getElem_take]
    · have h3 : values.take N = values := List.take_of_length_le (by omega)
      rw [h3]

/-- C14 applied to the lists (7,9) and () in dimension 4 and to (1,2,3) in dimension 2. -/
theorem Vector.ofList_spec_witness :
    ((Vector.ofList [7, 9] : Vector ℝ 4).vector 1 = 9 ∧
      (Vector.ofList [7, 9] : Vector ℝ 4).vector 3 = 9) ∧
    (Vector.ofList ([] : List ℝ) : Vector ℝ 4).vector 2 = 0 ∧
    (Vector.ofList [1, 2, 3] : Vector ℝ 2) = Vector.ofList [1, 2] :=
  ⟨⟨(Vector.ofList_spec [7, 9] (1 : Fin 4)).1 (by decide),
    (Vector.ofList_spec [7, 9] (3 : Fin 4)).2.1 (by decide) (by simp)⟩,
   (Vector.ofList_spec ([] : List ℝ) (2 : Fin 4)).2.2.1 rfl,
   ((Vector.ofList_spec [1, 2, 3] (0 : Fin 2)).2.2.2).symm⟩

theorem snell_unit (d n : Vector F 3) (r k c : F) (hd : d.square_of_length = 1)
    (hn : n.square_of_length = 1) (hdn : n.dot d = -c) (hk : r * r - 2 * r * k * c + k * k = 1) :
    ((Vector.smul r d).add (Vector.smul k n)).square_of_length = 1 := by
  rw [Vector.square_of_length_three] at hd hn ⊢
  rw [Vector.dot_three] at hdn
  simp only [Vector.add, Vector.smul]
  linear_combination (r * r) * hd + (k * k) * hn + (2 * r * k) * hdn + hk

/-- C19. For a unit-length incoming direction, a unit-length normal and density > 0,
whenever `refract` returns true the transmitted direction has unit length. -/
theorem refract_unit (E : Externals F) (inr out : Ray3df F) (object : hitable F)
    (context : Intersection_Context F)
    (hs : ∀ x, 0 ≤ x → 0 ≤ E.sqrt x ∧ E.sqrt x * E.sqrt x = x)
    (hdir : inr.direction.square_of_length = 1)
    (hnormal : context.normal.square_of_length = 1)
    (hden : 0 < object.mat.density)
    (hok : (refract E inr out object context).1 = true) :
    (refract E inr out object context).2.direction.square_of_length = 1 ∧
      (refract E inr out object context).2.direction.dot
        (refract E inr out object context).2.direction = 1 := by
  have e1 : (1.0 : F) = 1 := by norm_num
  have e0 : (0.0 : F) = 0 := by norm_num
  have hcs := Vector.dot_sq_le context.normal inr.direction
  rw [hnormal, hdir, one_mul] at hcs
  set c := context.normal.dot inr.direction with hc
  have hm : max 0 (1 - c * c) = 1 - c * c := max_eq_right (by linarith)
  rcases hs (1 - c * c) (by linarith) with ⟨s0, s1⟩
  have hcos : (if decide (-c < 0) = true then - -c else -c) = |c| := by
    by_cases hneg : -c < 0
    · simp [hneg, abs_of_pos (by linarith : 0 < c)]
    · simp [hneg, abs_of_nonpos (by linarith : c ≤ 0)]
  -- the ratio n1 / n2 after the swap
  set r : F := (if decide (-c < 0) = true then object.mat.density else 1) /
    (if decide (-c < 0) = true then 1 else object.mat.density) with hr
  have hrpos : 0 < r := by
    rw [hr]
    by_cases hneg : -c < 0
    · simp [hneg, hden]
    · simp [hneg, hden]
  -- the flipped normal
  set n' : Vector3df F := if decide (-c < 0) = true then Vector.smul (-1) context.normal
    else context.normal with hn'
  have hn'sq : n'.square_of_length = 1 := by
    rw [hn']
    by_cases hneg : -c < 0
    · simp only [hneg, decide_True, if_true]
      rw [Vector.square_of_length_three] at hnormal ⊢
      simp only [Vector.smul]
      linear_combination hnormal
    · simp only [hneg, decide_False, Bool.false_eq_true, if_false]
      exact hnormal
  have hn'd : n'.dot inr.direction = -|c| := by
    rw [hn']
    by_cases hneg : -c < 0
    · simp only [hneg, decide_True, if_true, abs_of_pos (by linarith : 0 < c)]
      rw [hc, Vector.dot_three, Vector.dot_three]
      simp only [Vector.smul]
      ring
    · simp only [hneg, decide_False, Bool.false_eq_true, if_false,
        abs_of_nonpos (by linarith : c ≤ 0), neg_neg]
  clear_value r n'
  unfold refract at hok ⊢
  simp only [e1, e0, ← hc, neg_one_mul, gt_iff_lt, hcos, abs_mul_abs_self, hm, ← hr, ← hn']
    at hok ⊢
  by_cases hsin : 1 < r * E.sqrt (1 - c * c)
  · simp [hsin] at hok
  · simp only [hsin, if_false]
    have hsin1 : r * E.sqrt (1 - c * c) ≤ 1 := not_lt.mp hsin
    have hsin0 : 0 ≤ r * E.sqrt (1 - c * c) := mul_nonneg hrpos.le s0
    have hsq1 : r * E.sqrt (1 - c * c) * (r * E.sqrt (1 - c * c)) ≤ 1 := by nlinarith
    have hm2 : max 0 (1 - r * E.sqrt (1 - c * c) * (r * E.sqrt (1 - c * c))) =
        1 - r * E.sqrt (1 - c * c) * (r * E.sqrt (1 - c * c)) := max_eq_right (by linarith)
    rcases hs (1 - r * E.sqrt (1 - c * c) * (r * E.sqrt (1 - c * c))) (by linarith)
      with ⟨p0, p1⟩
    rw [hm2]
    have hunit := snell_unit inr.direction n' r
      (r * |c| - E.sqrt (1 - r * E.sqrt (1 - c * c) * (r * E.sqrt (1 - c * c)))) |c|
      hdir hn'sq hn'd (by
        have habs : |c| * |c| = c * c := abs_mul_abs_self c
        linear_combination p1 - (r * r) * s1 - (r * r) * habs)
    refine ⟨hunit, ?_⟩
    rw [Vector.dot_three]
    rw [Vector.square_of_length_three] at hunit
    exact hunit

/-- C20. For density >= 1 and an incoming ray with `normal . direction <= 0`, `refract`
returns true, whatever the length of the direction. -/
theorem refract_entering (E : Externals F) (inr out : Ray3df F) (object : hitable F)
    (context : Intersection_Context F)
    (hs : ∀ x, 0 ≤ x → 0 ≤ E.sqrt x ∧ E.sqrt x * E.sqrt x = x)
    (hden : 1 ≤ object.mat.density)
    (henter : context.normal.dot inr.direction ≤ 0) :
    (refract E inr out object context).1 = true := by
  have e1 : (1.0 : F) = 1 := by norm_num
  have e0 : (0.0 : F) = 0 := by norm_num
  set c := context.normal.dot inr.direction with hc
  have hneg : ¬ (-c < 0) := by linarith
  have hm0 : 0 ≤ max 0 (1 - -c * -c) := le_max_left _ _
  have hm1 : max 0 (1 - -c * -c) ≤ 1 := max_le zero_le_one (by nlinarith [mul_self_nonneg c])
  rcases hs (max 0 (1 - -c * -c)) hm0 with ⟨s0, s1⟩
  have hs1 : E.sqrt (max 0 (1 - -c * -c)) ≤ 1 := by nlinarith
  have hpos : 0 < object.mat.density := by linarith
  have hle : 1 / object.mat.density * E.sqrt (max 0 (1 - -c * -c)) ≤ 1 := by
    rw [div_mul_eq_mul_div, one_mul, div_le_one hpos]
    linarith
  unfold refract
  simp only [e1, e0, ← hc, neg_one_mul, gt_iff_lt, hneg, decide_False, Bool.false_eq_true,
    if_false, not_lt.mpr hle]

theorem ray_color_nonpos (E : Externals F) (ray : Ray3df F) (depth : Int)
    (world : List (hitable F)) (lights : List (light F)) (hd : depth ≤ 0) :
    ray_color E ray depth world lights = some (Vector.ofList [0, 0, 0]) := by
  rw [ray_color]
  simp only [hd, dite_true]
  norm_num

/-- C17. For every depth <= 0, `ray_color` returns exactly black, whatever the ray and
the scene. (Totality for every integer depth is the termination of the definition of
`ray_color`: every recursive call passes depth - 1.) -/
theorem ray_color_exhausted (E : Externals F) (ray : Ray3df F) (depth : Int)
    (world : List (hitable F)) (lights : List (light F)) (hd : depth ≤ 0) :
    ray_color E ray depth world lights = some (Vector.ofList [0, 0, 0]) := by
  rw [ray_color, dif_pos hd]
  norm_num

/-- C17 applied to depth -3 and depth 0. -/
theorem ray_color_exhausted_witness :
    ((-3 : ℤ) ≤ 0 ∧
      ray_color (spec_externals Real.sqrt FLT_MAX) (axis_ray 0 (-1)) (-3) (two_balls GLASS)
        [axis_light 0 1] = some (Vector.ofList [0, 0, 0])) ∧
    ((0 : ℤ) ≤ 0 ∧
      ray_color (spec_externals Real.sqrt FLT_MAX) (axis_ray 0 (-1)) 0 (two_balls GLASS)
        [axis_light 0 1] = some (Vector.ofList [0, 0, 0])) :=
  ⟨⟨by norm_num, ray_color_exhausted _ _ (-3) _ _ (by norm_num)⟩,
    ⟨le_rfl, ray_color_exhausted _ _ 0 _ _ le_rfl⟩⟩

/-- C20 applied to a ray of direction (0,0,-3) entering a `GLASS` sphere. -/
theorem refract_entering_witness :
    ((1 : ℝ) ≤ (ball (-5 : ℝ) 1 GLASS).mat.density ∧
      (on_axis (1 : ℝ)).dot (axis_ray (0 : ℝ) (-3)).direction ≤ 0) ∧
    (refract (spec_externals Real.sqrt FLT_MAX) (axis_ray 0 (-3))
      (spec_externals Real.sqrt FLT_MAX).default_ray (ball (-5) 1 GLASS)
      { t := 4 / 3, intersection := on_axis (-4), normal := on_axis 1 }).1 = true := by
  have h1 : (1 : ℝ) ≤ (ball (-5 : ℝ) 1 GLASS).mat.density := by norm_num [ball, GLASS]
  have h2 : (on_axis (1 : ℝ)).dot (axis_ray (0 : ℝ) (-3)).direction ≤ 0 := by
    rw [axis_ray, on_axis_dot]
    norm_num
  exact ⟨⟨h1, h2⟩, refract_entering (spec_externals Real.sqrt FLT_MAX) (axis_ray 0 (-3)) _
    (ball (-5) 1 GLASS) { t := 4 / 3, intersection := on_axis (-4), normal := on_axis 1 }
    real_sqrt_spec h1 h2⟩

/-- C19 applied to the camera ray entering a `GLASS` sphere head-on. -/
theorem refract_unit_witness :
    ((axis_ray (0 : ℝ) (-1)).direction.square_of_length = 1 ∧
      (on_axis (1 : ℝ)).square_of_length = 1 ∧
      0 < (ball (-5 : ℝ) 1 GLASS).mat.density ∧
      (refract (spec_externals Real.sqrt FLT_MAX) (axis_ray 0 (-1))
        (spec_externals Real.sqrt FLT_MAX).default_ray (ball (-5) 1 GLASS)
        { t := 4, intersection := on_axis (-4), normal := on_axis 1 }).1 = true) ∧
    ((refract (spec_externals Real.sqrt FLT_MAX) (axis_ray 0 (-1))
        (spec_externals Real.sqrt FLT_MAX).default_ray (ball (-5) 1 GLASS)
        { t := 4, intersection := on_axis (-4), normal := on_axis 1 }).2.direction.square_of_length
        = 1 ∧
      (refract (spec_externals Real.sqrt FLT_MAX) (axis_ray 0 (-1))
        (spec_externals Real.sqrt FLT_MAX).default_ray (ball (-5) 1 GLASS)
        { t := 4, intersection := on_axis (-4), normal := on_axis 1 }).2.direction.dot
      (refract (spec_externals Real.sqrt FLT_MAX) (axis_ray 0 (-1))
        (spec_externals Real.sqrt FLT_MAX).default_ray (ball (-5) 1 GLASS)
        { t := 4, intersection := on_axis (-4), normal := on_axis 1 }).2.direction = 1) := by
  have h1 : (axis_ray (0 : ℝ) (-1)).direction.square_of_length = 1 := by
    rw [axis_ray, on_axis_square]
    norm_num
  have h2 : (on_axis (1 : ℝ)).square_of_length = 1 := by rw [on_axis_square]; norm_num
  have h3 : 0 < (ball (-5 : ℝ) 1 GLASS).mat.density := by norm_num [ball, GLASS]
  have h4 := refract_front GLASS (spec_externals Real.sqrt FLT_MAX).default_ray
    (by norm_num [GLASS])
  exact ⟨⟨h1, h2, h3, h4⟩, refract_unit (spec_externals Real.sqrt FLT_MAX) (axis_ray 0 (-1)) _
    (ball (-5) 1 GLASS) { t := 4, intersection := on_axis (-4), normal := on_axis 1 }
    real_sqrt_spec h1 h2 h3 h4⟩

theorem closest_fold (E : Externals F) (ray : Ray3df F) (world : List (hitable F))
    (s : Closest F) :
    (world.foldl (closest_step E ray) s = s ∧
        ∀ o ∈ world, (E.intersects_context o.sphere ray).1 = true →
          s.closest_t ≤ (E.intersects_context o.sphere ray).2.t) ∨
      ∃ pre obj post, world = pre ++ obj :: post ∧
        (E.intersects_context obj.sphere ray).1 = true ∧
        (E.intersects_context obj.sphere ray).2.t < s.closest_t ∧
        world.foldl (closest_step E ray) s =
          { closest := obj, closest_t := (E.intersects_context obj.sphere ray).2.t,
            context := (E.intersects_context obj.sphere ray).2 } ∧
        (∀ o ∈ pre, (E.intersects_context o.sphere ray).1 = true →
          (E.intersects_context obj.sphere ray).2.t < (E.intersects_context o.sphere ray).2.t) ∧
        (∀ o ∈ post, (E.intersects_context o.sphere ray).1 = true →
          (E.intersects_context obj.sphere ray).2.t ≤ (E.intersects_context o.sphere ray).2.t) := by
  induction world generalizing s with
  | nil => exact Or.inl ⟨rfl, fun o ho => absurd ho (List.not_mem_nil o)⟩
  | cons o w ih =>
    rw [List.foldl_cons]
    by_cases hstep : (E.intersects_context o.sphere ray).1 = true ∧
        (E.intersects_context o.sphere ray).2.t < s.closest_t
    · have hs1 : closest_step E ray s o =
          { closest := o, closest_t := (E.intersects_context o.sphere ray).2.t,
            context := (E.intersects_context o.sphere ray).2 } := by
        simp only [closest_step, hstep, and_self, if_true]
      rw [hs1]
      right
      rcases ih (Closest.mk o (E.intersects_context o.sphere ray).2.t
        (E.intersects_context o.sphere ray).2) with ⟨heq, hall⟩ | h
      · exact ⟨[], o, w, rfl, hstep.1, hstep.2, heq,
          fun o' ho' => absurd ho' (List.not_mem_nil o'), hall⟩
      · rcases h with ⟨pre, obj, post, hw, hhit, hlt, heq, hpre, hpost⟩
        refine ⟨o :: pre, obj, post, by rw [hw]; rfl, hhit, lt_trans hlt hstep.2, heq, ?_, hpost⟩
        intro o' ho' hhit'
        rcases List.mem_cons.mp ho' with h1 | h1
        · rw [h1]; exact hlt
        · exact hpre o' h1 hhit'
    · have hs1 : closest_step E ray s o = s := by
        simp only [closest_step, hstep, if_false]
      rw [hs1]
      have ho : (E.intersects_context o.sphere ray).1 = true →
          s.closest_t ≤ (E.intersects_context o.sphere ray).2.t := by
        intro hhit
        by_contra hcon
        exact hstep ⟨hhit, not_le.mp hcon⟩
      rcases ih s with ⟨heq, hall⟩ | h
      · left
        refine ⟨heq, ?_⟩
        intro o' ho' hhit'
        rcases List.mem_cons.mp ho' with h1 | h1
        · rw [h1] at hhit' ⊢; exact ho hhit'
        · exact hall o' h1 hhit'
      · right
        rcases h with ⟨pre, obj, post, hw, hhit, hlt, heq, hpre, hpost⟩
        refine ⟨o :: pre, obj, post, by rw [hw]; rfl, hhit, hlt, heq, ?_, hpost⟩
        intro o' ho' hhit'
        rcases List.mem_cons.mp ho' with h1 | h1
        · rw [h1] at hhit' ⊢; exact lt_of_lt_of_le hlt (ho hhit')
        · exact hpre o' h1 hhit'

/-- C18 (amended). When some object is intersected at a distance below
`numeric_limits<float>::max()`, the object that `ray_color` shades is intersected, its
distance t is the smallest among all intersected objects, every intersected object before it in
scan order is strictly farther, and the context used is that object's context. -/
theorem find_closest_nearest (E : Externals F) (ray : Ray3df F) (world : List (hitable F))
    (hhit : ∃ o ∈ world, (E.intersects_context o.sphere ray).1 = true ∧
      (E.intersects_context o.sphere ray).2.t < E.FLT_MAX) :
    ∃ pre obj post, world = pre ++ obj :: post ∧
      (E.intersects_context obj.sphere ray).1 = true ∧
      (∀ o ∈ world, (E.intersects_context o.sphere ray).1 = true →
        (E.intersects_context obj.sphere ray).2.t ≤ (E.intersects_context o.sphere ray).2.t) ∧
      (∀ o ∈ pre, (E.intersects_context o.sphere ray).1 = true →
        (E.intersects_context obj.sphere ray).2.t < (E.intersects_context o.sphere ray).2.t) ∧
      (find_closest E ray world).closest = obj ∧
      (find_closest E ray world).context = (E.intersects_context obj.sphere ray).2 := by
  rcases closest_fold E ray world (Closest.mk hitable.default E.FLT_MAX E.default_context)
    with ⟨_, hall⟩ | ⟨pre, obj, post, hw, hobj, _, heq, hpre, hpost⟩
  · rcases hhit with ⟨o, ho, h1, h2⟩
    exact absurd (hall o ho h1) (not_le.mpr h2)
  · refine ⟨pre, obj, post, hw, hobj, ?_, hpre, ?_, ?_⟩
    · intro o ho hhit'
      rw [hw, List.mem_append, List.mem_cons] at ho
      rcases ho with h | h | h
      · exact (hpre o h hhit').le
      · rw [h]
      · exact hpost o h hhit'
    · rw [find_closest, heq]
    · rw [find_closest, heq]

theorem front_root :
    Sphere3df.positive_root Real.sqrt { center := on_axis (-5), radius := (1 : ℝ) }
      (axis_ray 0 (-1)) = some 4 := by
  rw [axis_ray, axis_positive_root Real.sqrt real_sqrt_spec _ _ _ _ (by norm_num)]
  norm_num

theorem far_root :
    Sphere3df.positive_root Real.sqrt { center := on_axis (-(2 ^ 127)), radius := (2 ^ 103 : ℝ) }
      (axis_ray 0 (-0.5)) = some FLT_MAX := by
  rw [axis_ray, axis_positive_root Real.sqrt real_sqrt_spec _ _ _ _ (by norm_num)]
  norm_num [FLT_MAX, abs_of_pos]

/-- C18, as stated, fails: a sphere intersected at distance exactly
`numeric_limits<float>::max()` is not selected, the comparison with the initial `closest_t`
being strict. -/
theorem find_closest_nearest_counterexample :
    (∃ o ∈ [ball (-(2 ^ 127) : ℝ) (2 ^ 103) MATTE_WHITE],
      ((spec_externals Real.sqrt FLT_MAX).intersects_context o.sphere (axis_ray 0 (-0.5))).1 =
        true) ∧
    ∀ o ∈ [ball (-(2 ^ 127) : ℝ) (2 ^ 103) MATTE_WHITE],
      (find_closest (spec_externals Real.sqrt FLT_MAX) (axis_ray 0 (-0.5))
        [ball (-(2 ^ 127) : ℝ) (2 ^ 103) MATTE_WHITE]).closest ≠ o := by
  have hctx := axis_intersects_context (spec_externals Real.sqrt FLT_MAX) (-(2 ^ 127)) (2 ^ 103) 0
    (-0.5) MATTE_WHITE rfl
  rw [far_root] at hctx
  constructor
  · exact ⟨_, List.mem_singleton.mpr rfl, by rw [hctx]⟩
  · intro o ho
    rw [List.mem_singleton] at ho
    subst ho
    have hfc : find_closest (spec_externals Real.sqrt FLT_MAX) (axis_ray 0 (-0.5))
        [ball (-(2 ^ 127) : ℝ) (2 ^ 103) MATTE_WHITE] =
        Closest.mk hitable.default FLT_MAX
          (spec_externals Real.sqrt (FLT_MAX : ℝ)).default_context := by
      simp only [find_closest, List.foldl_cons, List.foldl_nil, closest_step, hctx]
      simp [spec_externals]
    rw [hfc]
    intro h
    have hr := congrArg (fun x => x.sphere.radius) h
    norm_num [hitable.default, ball] at hr

/-- C18 (amended) applied to the camera ray and the two spheres. -/
theorem find_closest_nearest_witness :
    (∃ o ∈ two_balls (GLASS : material ℝ),
      ((spec_externals Real.sqrt FLT_MAX).intersects_context o.sphere (axis_ray 0 (-1))).1 =
        true ∧
      ((spec_externals Real.sqrt FLT_MAX).intersects_context o.sphere (axis_ray 0 (-1))).2.t <
        (spec_externals Real.sqrt (FLT_MAX : ℝ)).FLT_MAX) ∧
    ∃ pre obj post, two_balls (GLASS : material ℝ) = pre ++ obj :: post ∧
      ((spec_externals Real.sqrt FLT_MAX).intersects_context obj.sphere (axis_ray 0 (-1))).1 =
        true ∧
      (∀ o ∈ two_balls (GLASS : material ℝ),
        ((spec_externals Real.sqrt FLT_MAX).intersects_context o.sphere (axis_ray 0 (-1))).1 =
          true →
        ((spec_externals Real.sqrt FLT_MAX).intersects_context obj.sphere (axis_ray 0 (-1))).2.t ≤
          ((spec_externals Real.sqrt FLT_MAX).intersects_context o.sphere (axis_ray 0 (-1))).2.t) ∧
      (∀ o ∈ pre,
        ((spec_externals Real.sqrt FLT_MAX).intersects_context o.sphere (axis_ray 0 (-1))).1 =
          true →
        ((spec_externals Real.sqrt FLT_MAX).intersects_context obj.sphere (axis_ray 0 (-1))).2.t <
          ((spec_externals Real.sqrt FLT_MAX).intersects_context o.sphere (axis_ray 0 (-1))).2.t) ∧
      (find_closest (spec_externals Real.sqrt FLT_MAX) (axis_ray 0 (-1))
        (two_balls GLASS)).closest = obj ∧
      (find_closest (spec_externals Real.sqrt FLT_MAX) (axis_ray 0 (-1))
        (two_balls GLASS)).context =
        ((spec_externals Real.sqrt FLT_MAX).intersects_context obj.sphere (axis_ray 0 (-1))).2 := by
  have hctx := axis_intersects_context (spec_externals Real.sqrt FLT_MAX) (-5) 1 0
    (-1) GLASS rfl
  rw [front_root] at hctx
  have hhit : ∃ o ∈ two_balls (GLASS : material ℝ),
      ((spec_externals Real.sqrt FLT_MAX).intersects_context o.sphere (axis_ray 0 (-1))).1 =
        true ∧
      ((spec_externals Real.sqrt FLT_MAX).intersects_context o.sphere (axis_ray 0 (-1))).2.t <
        (spec_externals Real.sqrt (FLT_MAX : ℝ)).FLT_MAX := by
    refine ⟨ball (-5) 1 GLASS, by simp [two_balls], ?_⟩
    rw [hctx]
    norm_num [spec_externals, FLT_MAX]
  exact ⟨hhit, find_closest_nearest _ _ _ hhit⟩

theorem find_closest_cases (E : Externals F) (ray : Ray3df F) (world : List (hitable F)) :
    (find_closest E ray world).closest = hitable.default ∨
      ((find_closest E ray world).closest ∈ world ∧
        (E.intersects_context (find_closest E ray world).closest.sphere ray).1 = true ∧
        (find_closest E ray world).context =
          (E.intersects_context (find_closest E ray world).closest.sphere ray).2) := by
  rcases closest_fold E ray world (Closest.mk hitable.default E.FLT_MAX E.default_context)
    with ⟨heq, _⟩ | ⟨pre, obj, post, hw, hobj, _, heq, _, _⟩
  · left
    rw [find_closest, heq]
  · right
    rw [find_closest, heq]
    exact ⟨by rw [hw]; simp, hobj, rfl⟩

theorem smul_black (k : F) :
    Vector.smul k (Vector.ofList [0, 0, 0] : color F) = Vector.ofList [0, 0, 0] := by
  ext i
  fin_cases i <;> simp [Vector.smul, Vector.ofList_three]

theorem ray_color_none_or_black_nat (E : Externals F) (world : List (hitable F))
    (lights : List (light F))
    (hnd : ∀ obj ∈ world, 0 < obj.mat.reflectivity ∨ obj.mat.is_transmissive = true)
    (n : Nat) :
    ∀ ray, ray_color E ray (n : Int) world lights = none ∨
      ray_color E ray (n : Int) world lights = some (Vector.ofList [0, 0, 0]) := by
  have e0 : (0.0 : F) = 0 := by norm_num
  have e1 : (1.0 : F) = 1 := by norm_num
  induction n with
  | zero =>
    intro ray
    exact Or.inr (ray_color_nonpos E ray _ world lights (by simp))
  | succ n ih =>
    intro ray
    rw [ray_color]
    have hd : ¬ (((n + 1 : Nat) : Int) ≤ 0) := by omega
    have hd1 : ((n + 1 : Nat) : Int) - 1 = (n : Int) := by omega
    simp only [hd, dite_false, hd1, e0, e1, gt_iff_lt, Vector.zero_add3]
    rcases find_closest_cases E ray world with hdef | ⟨hmem, _, _⟩
    · right
      simp [hdef, hitable.default, MATTE_BLACK, lambertian, e0, e1]
    · by_cases hpos : 0 < (find_closest E ray world).closest.mat.reflectivity
      · simp only [hpos, if_true]
        cases hget : ray.direction.get_reflective (find_closest E ray world).context.normal with
        | none => exact Or.inl rfl
        | some r =>
          simp only [Option.some_bind]
          rcases ih (Ray3df.mk ((find_closest E ray world).context.intersection.add
              (Vector.smul 0.08 (find_closest E ray world).context.normal))
              (Vector.smul 0.92 r)) with h1 | h1
          · left
            simp only [h1, Option.none_bind]
          · simp only [h1, Option.some_bind, smul_black]
            rcases ih (refract E ray E.default_ray (find_closest E ray world).closest
              (find_closest E ray world).context).2 with h2 | h2
            · simp only [h2, Option.none_bind]
              split_ifs <;> simp
            · right
              simp only [h2, Option.some_bind, smul_black, Vector.zero_add3, ite_self]
      · have htr : (find_closest E ray world).closest.mat.is_transmissive = true := by
          rcases hnd _ hmem with h | h
          · exact absurd h hpos
          · exact h
        have hτ : 0 < 1 - (find_closest E ray world).closest.mat.reflectivity := by
          linarith [not_lt.mp hpos]
        simp only [hpos, if_false, htr, if_true, hτ]
        rcases ih (refract E ray E.default_ray (find_closest E ray world).closest
          (find_closest E ray world).context).2 with h2 | h2
        · simp only [h2, Option.none_bind]
          split_ifs <;> simp
        · right
          simp only [h2, Option.some_bind, smul_black, ite_self]

theorem Float_format.max_value_nonneg (fmt : Float_format) : (0 : F) ≤ fmt.max_value := by
  unfold Float_format.max_value
  have : (1 : F) ≤ 2 ^ fmt.precision := one_le_pow₀ (by norm_num)
  have h2 : (0 : F) < (2 : F) ^ (fmt.emax - ((fmt.precision : Int) - 1)) := by positivity
  nlinarith

theorem Float_format.max_value_lt (fmt : Float_format) :
    (fmt.max_value : F) < (2 : F) ^ (fmt.emax + 1) := by
  unfold Float_format.max_value
  have h2 : (0 : F) < (2 : F) ^ (fmt.emax - ((fmt.precision : Int) - 1)) := by positivity
  have h3 : (2 : F) ^ (fmt.emax + 1) =
      (2 : F) ^ fmt.precision * (2 : F) ^ (fmt.emax - ((fmt.precision : Int) - 1)) := by
    rw [← zpow_natCast, ← zpow_add₀ (by norm_num : (2 : F) ≠ 0)]
    congr 1
    omega
  rw [h3]
  nlinarith

theorem round_half_even_near [FloorRing F] (x : F) (n : Int) (h : |x - n| < 1 / 2) : round_half_even x = n := by
  rw [abs_lt] at h
  unfold round_half_even
  by_cases hx : (n : F) ≤ x
  · have hfl : ⌊x⌋ = n := by
      rw [Int.floor_eq_iff]
      constructor
      · exact hx
      · linarith
    rw [hfl, if_pos (by linarith)]
  · have hfl : ⌊x⌋ = n - 1 := by
      rw [Int.floor_eq_iff]
      push_cast
      constructor <;> linarith
    rw [hfl]
    push_cast
    rw [if_neg (by linarith), if_pos (by linarith)]
    ring

theorem round_half_even_int [FloorRing F] (n : Int) : round_half_even (n : F) = n :=
  round_half_even_near (n : F) n (by simp)

theorem floor_le_round_half_even [FloorRing F] (x : F) : ⌊x⌋ ≤ round_half_even x := by
  unfold round_half_even
  split_ifs <;> omega

theorem log_two_eq [FloorRing F] (x : F) (e : Int) (h1 : (2 : F) ^ e ≤ |x|) (h2 : |x| < (2 : F) ^ (e + 1)) :
    Int.log 2 |x| = e := by
  have hpos : 0 < |x| := lt_of_lt_of_le (by positivity) h1
  have hb : 1 < (2 : ℕ) := by norm_num
  apply le_antisymm
  · have := (Int.lt_zpow_iff_log_lt hb hpos (x := e + 1)).mp (by simpa using h2)
    omega
  · exact (Int.zpow_le_iff_le_log hb hpos).mp (by simpa using h1)

theorem Float_format.ulp_normal [FloorRing F] (fmt : Float_format) (x : F) (e : Int) (he : fmt.emin ≤ e)
    (h1 : (2 : F) ^ e ≤ |x|) (h2 : |x| < (2 : F) ^ (e + 1)) :
    fmt.ulp x = (2 : F) ^ (e - ((fmt.precision : Int) - 1)) := by
  unfold Float_format.ulp
  rw [log_two_eq x e h1 h2, max_eq_left he]

theorem Float_format.round_zero [FloorRing F] (fmt : Float_format) :
    fmt.round (0 : F) = Float_value.finite 0 := by
  unfold Float_format.round
  have h : round_half_even ((0 : F) / fmt.ulp 0) = 0 := by
    rw [zero_div]
    exact_mod_cast round_half_even_int (F := F) 0
  simp only [h, Int.cast_zero, zero_mul, abs_zero]
  rw [if_neg (not_lt.mpr fmt.max_value_nonneg)]

theorem Float_format.round_near [FloorRing F] (fmt : Float_format) (x : F) (k n : Int)
    (hulp : fmt.ulp x = (2 : F) ^ k) (hn : |x / (2 : F) ^ k - n| < 1 / 2)
    (hmax : |(n : F) * (2 : F) ^ k| ≤ fmt.max_value) :
    fmt.round x = Float_value.finite ((n : F) * (2 : F) ^ k) := by
  unfold Float_format.round
  simp only [hulp, round_half_even_near _ n hn, not_lt.mpr hmax, if_false]

theorem Float_format.round_exact [FloorRing F] (fmt : Float_format) (x : F) (k n : Int)
    (hulp : fmt.ulp x = (2 : F) ^ k) (hx : x = (n : F) * (2 : F) ^ k)
    (hmax : |x| ≤ fmt.max_value) :
    fmt.round x = Float_value.finite x := by
  have h2 : (2 : F) ^ k ≠ 0 := by positivity
  have := fmt.round_near x k n hulp (by rw [hx, mul_div_assoc, div_self h2]; simp)
    (by rw [← hx]; exact hmax)
  rw [this, ← hx]

theorem Float_format.round_scaled [FloorRing F] (fmt : Float_format) (n j : Int)
    (hn : |n| < 2 ^ fmt.precision) (hj : fmt.emin - ((fmt.precision : Int) - 1) ≤ j)
    (hmax : |(n : F) * (2 : F) ^ j| ≤ fmt.max_value) :
    fmt.round ((n : F) * (2 : F) ^ j) = Float_value.finite ((n : F) * (2 : F) ^ j) := by
  by_cases h0 : n = 0
  · subst h0
    simp only [Int.cast_zero, zero_mul]
    exact fmt.round_zero
  have hpos2 : (0 : F) < (2 : F) ^ j := by positivity
  have hx0 : (n : F) * (2 : F) ^ j ≠ 0 := mul_ne_zero (by exact_mod_cast h0) (ne_of_gt hpos2)
  have hb : 1 < (2 : ℕ) := by norm_num
  have hlog : Int.log 2 |(n : F) * (2 : F) ^ j| ≤ (fmt.precision : Int) - 1 + j := by
    have hlt : |(n : F) * (2 : F) ^ j| < ((2 : ℕ) : F) ^ ((fmt.precision : Int) + j) := by
      rw [abs_mul, abs_of_pos hpos2, Nat.cast_ofNat, zpow_add₀ (by norm_num : (2 : F) ≠ 0)]
      apply mul_lt_mul_of_pos_right _ hpos2
      have : ((|n| : Int) : F) < ((2 ^ fmt.precision : Int) : F) := by exact_mod_cast hn
      simpa using this
    have := (Int.lt_zpow_iff_log_lt hb (abs_pos.mpr hx0)).mp hlt
    omega
  obtain ⟨d, hd⟩ : ∃ d : Nat, (d : Int) = j -
      (max (Int.log 2 |(n : F) * (2 : F) ^ j|) fmt.emin - ((fmt.precision : Int) - 1)) := by
    refine ⟨(j - (max (Int.log 2 |(n : F) * (2 : F) ^ j|) fmt.emin -
      ((fmt.precision : Int) - 1))).toNat, Int.toNat_of_nonneg ?_⟩
    rcases max_cases (Int.log 2 |(n : F) * (2 : F) ^ j|) fmt.emin with ⟨h, _⟩ | ⟨h, _⟩ <;>
      rw [h] <;> omega
  have hj2 : j = (d : Int) + (max (Int.log 2 |(n : F) * (2 : F) ^ j|) fmt.emin -
      ((fmt.precision : Int) - 1)) := by omega
  have hulp : fmt.ulp ((n : F) * (2 : F) ^ j) =
      (2 : F) ^ (max (Int.log 2 |(n : F) * (2 : F) ^ j|) fmt.emin -
        ((fmt.precision : Int) - 1)) := rfl
  have hx : (n : F) * (2 : F) ^ j = ((n * 2 ^ d : Int) : F) *
      (2 : F) ^ (max (Int.log 2 |(n : F) * (2 : F) ^ j|) fmt.emin -
        ((fmt.precision : Int) - 1)) := by
    conv_lhs => rw [hj2]
    rw [zpow_add₀ (by norm_num : (2 : F) ≠ 0)]
    push_cast
    rw [zpow_natCast]
    ring
  exact fmt.round_exact _ _ (n * 2 ^ d) hulp hx hmax

theorem Float_format.round_overflow [FloorRing F] (fmt : Float_format) (hprec : 1 ≤ fmt.precision)
    (hfmt : fmt.emin ≤ fmt.emax) (x : F)
    (hx : (2 : F) ^ (fmt.emax + 1) ≤ x) :
    fmt.round x = Float_value.infinite false := by
  have hb : 1 < (2 : ℕ) := by norm_num
  have hxpos : 0 < x := lt_of_lt_of_le (by positivity) hx
  have habs : |x| = x := abs_of_pos hxpos
  have hL : fmt.emax + 1 ≤ Int.log 2 |x| := by
    rw [habs]
    exact (Int.zpow_le_iff_le_log hb hxpos).mp (by simpa using hx)
  have hLx : (2 : F) ^ Int.log 2 |x| ≤ x := by
    have := Int.zpow_log_le_self hb hxpos (R := F)
    rw [habs]
    simpa using this
  have hulp : fmt.ulp x = (2 : F) ^ (Int.log 2 |x| - ((fmt.precision : Int) - 1)) := by
    have hm : fmt.emin ≤ Int.log 2 |x| := by omega
    unfold Float_format.ulp
    rw [max_eq_left hm]
  have hupos : (0 : F) < (2 : F) ^ (Int.log 2 |x| - ((fmt.precision : Int) - 1)) := by positivity
  have hz : (((2 : Int) ^ (fmt.precision - 1) : Int) : F) ≤
      x / (2 : F) ^ (Int.log 2 |x| - ((fmt.precision : Int) - 1)) := by
    rw [le_div_iff₀ hupos]
    push_cast
    rw [← zpow_natCast, ← zpow_add₀ (by norm_num : (2 : F) ≠ 0)]
    have hp : ((fmt.precision - 1 : Nat) : Int) + (Int.log 2 |x| - ((fmt.precision : Int) - 1)) ≤
        Int.log 2 |x| := by omega
    exact le_trans (zpow_le_zpow_right₀ (by norm_num) hp) hLx
  have hr : ((2 : Int) ^ (fmt.precision - 1) : Int) ≤
      round_half_even (x / (2 : F) ^ (Int.log 2 |x| - ((fmt.precision : Int) - 1))) :=
    le_trans (Int.le_floor.mpr hz) (floor_le_round_half_even _)
  have hy : (2 : F) ^ (fmt.emax + 1) ≤
      (round_half_even (x / (2 : F) ^ (Int.log 2 |x| - ((fmt.precision : Int) - 1))) : F) *
        (2 : F) ^ (Int.log 2 |x| - ((fmt.precision : Int) - 1)) := by
    have h1 : (((2 : Int) ^ (fmt.precision - 1) : Int) : F) *
        (2 : F) ^ (Int.log 2 |x| - ((fmt.precision : Int) - 1)) ≤
        (round_half_even (x / (2 : F) ^ (Int.log 2 |x| - ((fmt.precision : Int) - 1))) : F) *
          (2 : F) ^ (Int.log 2 |x| - ((fmt.precision : Int) - 1)) :=
      mul_le_mul_of_nonneg_right (by exact_mod_cast hr) (le_of_lt hupos)
    refine le_trans ?_ h1
    push_cast
    rw [← zpow_natCast, ← zpow_add₀ (by norm_num : (2 : F) ≠ 0)]
    apply zpow_le_zpow_right₀ (by norm_num)
    omega
  unfold Float_format.round
  simp only [hulp]
  rw [if_pos (lt_of_lt_of_le fmt.max_value_lt (le_trans hy (le_abs_self _)))]
  simp [not_lt.mpr (le_of_lt hxpos)]

theorem round_half_even_error [FloorRing F] (x : F) : |(round_half_even x : F) - x| ≤ 1 / 2 := by
  have h1 := Int.floor_le x
  have h2 := Int.lt_floor_add_one x
  unfold round_half_even
  rw [abs_le]
  split_ifs with ha hb hc
  · constructor <;> linarith
  · push_cast
    constructor <;> linarith
  · constructor <;> linarith
  · push_cast
    constructor <;> linarith

theorem round_half_even_nonneg [FloorRing F] (x : F) (hx : 0 ≤ x) : 0 ≤ round_half_even x :=
  le_trans (Int.floor_nonneg.mpr hx) (floor_le_round_half_even x)

theorem Float_format.ulp_pos [FloorRing F] (fmt : Float_format) (x : F) : 0 < fmt.ulp x := by
  unfold Float_format.ulp
  positivity

theorem Float_format.ulp_le [FloorRing F] (fmt : Float_format) (x : F) (hx : x ≠ 0) :
    fmt.ulp x ≤ max (|x| * (2 : F) ^ (-((fmt.precision : Int) - 1)))
      ((2 : F) ^ (fmt.emin - ((fmt.precision : Int) - 1))) := by
  unfold Float_format.ulp
  have hb : 1 < (2 : ℕ) := by norm_num
  rcases max_cases (Int.log 2 |x|) fmt.emin with ⟨h, _⟩ | ⟨h, _⟩
  · rw [h]
    apply le_max_of_le_left
    have := Int.zpow_log_le_self hb (abs_pos.mpr hx) (R := F)
    rw [Nat.cast_ofNat] at this
    rw [sub_eq_add_neg, zpow_add₀ (by norm_num : (2 : F) ≠ 0)]
    exact mul_le_mul_of_nonneg_right this (by positivity)
  · rw [h]
    exact le_max_right _ _

theorem Float_format.round_nonneg [FloorRing F] (fmt : Float_format) (x y : F) (hx : 0 ≤ x)
    (h : fmt.round x = Float_value.finite y) : 0 ≤ y := by
  unfold Float_format.round at h
  simp only [] at h
  split_ifs at h
  cases h
  exact mul_nonneg (by exact_mod_cast round_half_even_nonneg _ (div_nonneg hx (fmt.ulp_pos x).le))
    (fmt.ulp_pos x).le

theorem Float_format.round_int [FloorRing F] (fmt : Float_format) (n : Int)
    (hn : |n| < 2 ^ fmt.precision) (hj : fmt.emin - ((fmt.precision : Int) - 1) ≤ 0)
    (hmax : |(n : F)| ≤ fmt.max_value) :
    fmt.round (n : F) = Float_value.finite (n : F) := by
  have := fmt.round_scaled (F := F) n 0 hn hj (by simpa using hmax)
  simpa using this

/-- The distance from `x` to the nearest multiple of the spacing of `float` around `x`. -/
theorem float_round_core [FloorRing F] (x : F) :
    |(round_half_even (x / float_format.ulp x) : F) * float_format.ulp x - x| ≤
      |x| / 2 ^ 24 + 1 / 2 ^ 150 := by
  by_cases h0 : x = 0
  · subst h0
    have h : round_half_even ((0 : F) / float_format.ulp 0) = 0 := by
      rw [zero_div]
      exact_mod_cast round_half_even_int (F := F) 0
    rw [h]
    simp only [Int.cast_zero, zero_mul, sub_zero, abs_zero, zero_div, zero_add]
    positivity
  have hu := float_format.ulp_le x h0
  have hupos := float_format.ulp_pos x
  have he := round_half_even_error (x / float_format.ulp x)
  set u := float_format.ulp x with hudef
  set r : F := (round_half_even (x / u) : F) with hrdef
  clear_value r u
  have hyx : |r * u - x| ≤ u / 2 := by
    have : r * u - x = (r - x / u) * u := by
      field_simp
    rw [this, abs_mul, abs_of_pos hupos]
    have := mul_le_mul_of_nonneg_right he (le_of_lt hupos)
    linarith
  have hax := abs_nonneg x
  refine le_trans hyx ?_
  have e1 : (2 : F) ^ (-(((float_format.precision : Nat) : Int) - 1)) = 2 / 2 ^ 24 := by
    simp only [float_format]
    norm_num [zpow_neg]
  have e2 : (2 : F) ^ (float_format.emin - (((float_format.precision : Nat) : Int) - 1)) =
      2 / 2 ^ 150 := by
    simp only [float_format]
    norm_num [zpow_neg]
  rw [e1, e2] at hu
  have h2 : (0 : F) < 1 / 2 ^ 150 := by positivity
  rcases le_max_iff.mp hu with h | h
  · have : |x| * (2 / 2 ^ 24) / 2 = |x| / 2 ^ 24 := by ring
    linarith
  · have : (2 : F) / 2 ^ 150 / 2 = 1 / 2 ^ 150 := by ring
    have h3 : (0 : F) ≤ |x| / 2 ^ 24 := by positivity
    linarith

/-- A `float` operation whose exact result `x` is at most `2^127` in magnitude returns a
finite number within `|x| * 2^-24 + 2^-150` of `x`, with the sign of `x`. -/
theorem float_round_error [FloorRing F] (x : F) (hx : |x| ≤ 2 ^ 127) :
    ∃ y, float_format.round x = Float_value.finite y ∧
      |y - x| ≤ |x| / 2 ^ 24 + 1 / 2 ^ 150 ∧ (0 ≤ x → 0 ≤ y) := by
  have hc := float_round_core x
  have hupos := float_format.ulp_pos x
  refine ⟨_, ?_, hc, fun h0 => ?_⟩
  · unfold Float_format.round
    simp only []
    rw [if_neg]
    rw [not_lt]
    have h3 := abs_sub_abs_le_abs_sub
      ((round_half_even (x / float_format.ulp x) : F) * float_format.ulp x) x
    have e3 : (float_format.max_value : F) = (2 ^ 24 - 1) * 2 ^ 104 := by
      simp only [Float_format.max_value, float_format]
      norm_num
    rw [e3]
    have e6 : (1 : F) / 2 ^ 150 ≤ 1 := by
      rw [div_le_one (by positivity)]
      exact one_le_pow₀ (by norm_num)
    have h4 : |x| / 2 ^ 24 ≤ 2 ^ 127 / 2 ^ 24 := by
      apply div_le_div_of_nonneg_right hx (by positivity)
    have e7 : (2 : F) ^ 127 + 2 ^ 127 / 2 ^ 24 + 1 ≤ (2 ^ 24 - 1) * 2 ^ 104 := by norm_num
    linarith
  · have hr : (0 : F) ≤ (round_half_even (x / float_format.ulp x) : F) := by
      exact_mod_cast round_half_even_nonneg _ (div_nonneg h0 hupos.le)
    exact mul_nonneg hr hupos.le

/-- A finite result of a `float` operation: it differs from the exact result `x` by at most
`|x| * 2^-24 + 2^-150`, has the sign of `x`, and does not exceed `FLT_MAX`. -/
theorem float_round_of_finite [FloorRing F] (x y : F)
    (h : float_format.round x = Float_value.finite y) :
    |y - x| ≤ |x| / 2 ^ 24 + 1 / 2 ^ 150 ∧ (0 ≤ x → 0 ≤ y) ∧ |y| ≤ (2 ^ 24 - 1) * 2 ^ 104 := by
  have hc := float_round_core x
  unfold Float_format.round at h
  simp only [] at h
  split_ifs at h with hm
  cases h
  refine ⟨hc, fun h0 => ?_, ?_⟩
  · have hr : (0 : F) ≤ (round_half_even (x / float_format.ulp x) : F) := by
      exact_mod_cast round_half_even_nonneg _ (div_nonneg h0 (float_format.ulp_pos x).le)
    exact mul_nonneg hr (float_format.ulp_pos x).le
  · have e3 : (float_format.max_value : F) = (2 ^ 24 - 1) * 2 ^ 104 := by
      simp only [Float_format.max_value, float_format]
      norm_num
    rw [← e3]
    exact not_lt.mp hm

theorem float_round_nonneg [FloorRing F] (x : F) (h0 : 0 ≤ x) (hx : x ≤ 2 ^ 127) :
    ∃ y, float_format.round x = Float_value.finite y ∧ 0 ≤ y ∧
      x - (x / 2 ^ 24 + 1 / 2 ^ 150) ≤ y ∧ y ≤ x + (x / 2 ^ 24 + 1 / 2 ^ 150) := by
  obtain ⟨y, e, b, n⟩ := float_round_error x (by rw [abs_of_nonneg h0]; exact hx)
  rw [abs_of_nonneg h0, abs_le] at b
  exact ⟨y, e, n h0, by linarith only [b.1], by linarith only [b.2]⟩

/-- A finite non-negative result of a `float` operation with non-negative exact result. -/
theorem float_round_of_finite_nonneg [FloorRing F] (x y : F) (h0 : 0 ≤ x)
    (h : float_format.round x = Float_value.finite y) :
    0 ≤ y ∧ x - (x / 2 ^ 24 + 1 / 2 ^ 150) ≤ y ∧ y ≤ x + (x / 2 ^ 24 + 1 / 2 ^ 150) := by
  obtain ⟨b, n, _⟩ := float_round_of_finite x y h
  rw [abs_of_nonneg h0, abs_le] at b
  exact ⟨n h0, by linarith only [b.1], by linarith only [b.2]⟩

/-- Rounding of a value `x` that is within `E` of an exact value `e` of magnitude at most `B`. -/
theorem float_round_step [FloorRing F] (x e B E : F) (hB : B + E ≤ 2 ^ 127) (he : |e| ≤ B)
    (hxe : |x - e| ≤ E) :
    ∃ y, float_format.round x = Float_value.finite y ∧
      |y - e| ≤ E + (B + E) / 2 ^ 24 + 1 / 2 ^ 150 := by
  have hx : |x| ≤ B + E := by
    have h := abs_add (x - e) e
    rw [sub_add_cancel] at h
    linarith only [h, he, hxe]
  obtain ⟨y, ey, b, _⟩ := float_round_error x (le_trans hx hB)
  refine ⟨y, ey, ?_⟩
  have h := abs_add (y - x) (x - e)
  rw [sub_add_sub_cancel] at h
  have h2 : |x| / 2 ^ 24 ≤ (B + E) / 2 ^ 24 := div_le_div_of_nonneg_right hx (by positivity)
  linarith only [h, b, hxe, h2]

/-- One more rounding in a chain of operations whose accumulated error is `k` times
`M * 2^-24 + 2^-150`, `M` bounding the magnitude of the exact values. -/
theorem float_round_stage [FloorRing F] (x e M k : F) (hM0 : 0 ≤ M) (hM : M ≤ 2 ^ 126)
    (hk : k ≤ 8) (he : |e| ≤ M)
    (hxe : |x - e| ≤ k * (M / 2 ^ 24 + 1 / 2 ^ 150)) :
    ∃ y, float_format.round x = Float_value.finite y ∧
      |y - e| ≤ (k + 1001 / 1000) * (M / 2 ^ 24 + 1 / 2 ^ 150) := by
  have hu0 : 0 ≤ M / 2 ^ 24 + 1 / 2 ^ 150 := by positivity
  have hE8 : k * (M / 2 ^ 24 + 1 / 2 ^ 150) ≤ 8 * (M / 2 ^ 24 + 1 / 2 ^ 150) :=
    mul_le_mul_of_nonneg_right hk hu0
  have hmul : (k + 1001 / 1000) * (M / 2 ^ 24 + 1 / 2 ^ 150) =
      k * (M / 2 ^ 24 + 1 / 2 ^ 150) + 1001 / 1000 * (M / 2 ^ 24 + 1 / 2 ^ 150) := by ring
  rw [hmul]
  generalize k * (M / 2 ^ 24 + 1 / 2 ^ 150) = E at hxe hE8 ⊢
  obtain ⟨y, ey, d⟩ := float_round_step x e M E (by
    norm_num at hM hE8 ⊢
    linarith only [hM, hE8, hM0]) he hxe
  refine ⟨y, ey, le_trans d ?_⟩
  norm_num at hE8 ⊢
  linarith only [hE8, hM0]

/-- The distance from `x` to the nearest multiple of the spacing of `double` around `x`. -/
theorem double_round_core [FloorRing F] (x : F) :
    |(round_half_even (x / double_format.ulp x) : F) * double_format.ulp x - x| ≤
      |x| / 2 ^ 53 + 1 / 2 ^ 1075 := by
  by_cases h0 : x = 0
  · subst h0
    have h : round_half_even ((0 : F) / double_format.ulp 0) = 0 := by
      rw [zero_div]
      exact_mod_cast round_half_even_int (F := F) 0
    rw [h]
    simp only [Int.cast_zero, zero_mul, sub_zero, abs_zero, zero_div, zero_add]
    positivity
  have hu := double_format.ulp_le x h0
  have hupos := double_format.ulp_pos x
  have he := round_half_even_error (x / double_format.ulp x)
  set u := double_format.ulp x with hudef
  set r : F := (round_half_even (x / u) : F) with hrdef
  clear_value r u
  have hyx : |r * u - x| ≤ u / 2 := by
    have : r * u - x = (r - x / u) * u := by
      field_simp
    rw [this, abs_mul, abs_of_pos hupos]
    have := mul_le_mul_of_nonneg_right he (le_of_lt hupos)
    linarith
  have hax := abs_nonneg x
  refine le_trans hyx ?_
  have e1 : (2 : F) ^ (-(((double_format.precision : Nat) : Int) - 1)) = 2 / 2 ^ 53 := by
    simp only [double_format]
    norm_num [zpow_neg]
  have e2 : (2 : F) ^ (double_format.emin - (((double_format.precision : Nat) : Int) - 1)) =
      2 / 2 ^ 1075 := by
    simp only [double_format]
    norm_num [zpow_neg]
  rw [e1, e2] at hu
  have h2 : (0 : F) < 1 / 2 ^ 1075 := by positivity
  rcases le_max_iff.mp hu with h | h
  · have : |x| * (2 / 2 ^ 53) / 2 = |x| / 2 ^ 53 := by ring
    linarith
  · have : (2 : F) / 2 ^ 1075 / 2 = 1 / 2 ^ 1075 := by ring
    have h3 : (0 : F) ≤ |x| / 2 ^ 53 := by positivity
    linarith

/-- A `double` operation whose exact result `x` is at most `2^1023` in magnitude returns a
finite number within `|x| * 2^-53 + 2^-1075` of `x`. -/
theorem double_round_error [FloorRing F] (x : F) (hx : |x| ≤ 2 ^ 1023) :
    ∃ y, double_format.round x = Float_value.finite y ∧
      |y - x| ≤ |x| / 2 ^ 53 + 1 / 2 ^ 1075 := by
  have hc := double_round_core x
  refine ⟨_, ?_, hc⟩
  unfold Float_format.round
  simp only []
  rw [if_neg]
  rw [not_lt]
  have h3 := abs_sub_abs_le_abs_sub
    ((round_half_even (x / double_format.ulp x) : F) * double_format.ulp x) x
  have e3 : (double_format.max_value : F) = (2 ^ 53 - 1) * 2 ^ 971 := by
    simp only [Float_format.max_value, double_format]
    norm_num
  rw [e3]
  have e6 : (1 : F) / 2 ^ 1075 ≤ 1 := by
    rw [div_le_one (by positivity)]
    exact one_le_pow₀ (by norm_num)
  have h4 : |x| / 2 ^ 53 ≤ 2 ^ 1023 / 2 ^ 53 := by
    apply div_le_div_of_nonneg_right hx (by positivity)
  have e7 : (2 : F) ^ 1023 + 2 ^ 1023 / 2 ^ 53 + 1 ≤ (2 ^ 53 - 1) * 2 ^ 971 := by norm_num
  linarith

theorem Float_value.add_finite [FloorRing F] (fmt : Float_format) (a b : F) :
    (Float_value.finite a).add fmt (Float_value.finite b) = fmt.round (a + b) := rfl

theorem Float_value.sub_finite [FloorRing F] (fmt : Float_format) (a b : F) :
    (Float_value.finite a).sub fmt (Float_value.finite b) = fmt.round (a - b) := by
  simp only [Float_value.sub, Float_value.neg, Float_value.add, sub_eq_add_neg]

theorem Float_value.mul_finite [FloorRing F] (fmt : Float_format) (a b : F) :
    (Float_value.finite a).mul fmt (Float_value.finite b) = fmt.round (a * b) := rfl

theorem Float_value.zero_mul_finite [FloorRing F] (fmt : Float_format) (x : F) :
    (Float_value.finite 0).mul fmt (Float_value.finite x) = Float_value.finite 0 := by
  rw [Float_value.mul_finite, zero_mul, fmt.round_zero]

theorem Float_value.div_finite [FloorRing F] (fmt : Float_format) (a b : F) (hb : b ≠ 0) :
    (Float_value.finite a).div fmt (Float_value.finite b) = fmt.round (a / b) := by
  simp only [Float_value.div, hb, if_false]

theorem Float_value.sqrt_finite [FloorRing F] (fmt : Float_format) (sqrt : F → F) (a : F) (ha : 0 ≤ a) :
    (Float_value.finite a).sqrt fmt sqrt = fmt.round (sqrt a) := by
  simp only [Float_value.sqrt, not_lt.mpr ha, if_false]

theorem Float_value.add_eq_finite [FloorRing F] (fmt : Float_format) (a b : Float_value F) (z : F)
    (h : a.add fmt b = Float_value.finite z) :
    ∃ x y, a = Float_value.finite x ∧ b = Float_value.finite y ∧
      fmt.round (x + y) = Float_value.finite z := by
  cases a with
  | finite x =>
    cases b with
    | finite y => exact ⟨x, y, rfl, rfl, h⟩
    | infinite t => simp [Float_value.add] at h
    | nan => simp [Float_value.add] at h
  | infinite s =>
    cases b with
    | finite y => simp [Float_value.add] at h
    | infinite t =>
      simp only [Float_value.add] at h
      split_ifs at h
    | nan => simp [Float_value.add] at h
  | nan => cases b <;> simp [Float_value.add] at h

theorem Float_value.mul_self_eq_finite [FloorRing F] (fmt : Float_format) (a : Float_value F) (p : F)
    (h : a.mul fmt a = Float_value.finite p) :
    ∃ x, a = Float_value.finite x ∧ fmt.round (x * x) = Float_value.finite p := by
  cases a with
  | finite x => exact ⟨x, rfl, h⟩
  | infinite s => simp [Float_value.mul] at h
  | nan => simp [Float_value.mul] at h

/-- The rounded product of two approximations `x` of `x0` and `y` of `y0` with relative
errors `dx` and `dy`. -/
theorem float_mul_error [FloorRing F] (x y x0 y0 dx dy : F)
    (hx : |x - x0| ≤ dx * |x0|) (hy : |y - y0| ≤ dy * |y0|)
    (hdx0 : 0 ≤ dx) (hdy0 : 0 ≤ dy) (hdx : dx ≤ 1 / 2 ^ 16) (hdy : dy ≤ 1 / 2 ^ 16)
    (hP : |x0 * y0| ≤ 2 ^ 126) :
    ∃ z, float_format.round (x * y) = Float_value.finite z ∧
      |z - x0 * y0| ≤ (dx + dy + 1 / 2 ^ 24 + 1 / 2 ^ 30) * |x0 * y0| + 1 / 2 ^ 150 := by
  have hX := abs_nonneg x0
  have hY := abs_nonneg y0
  have hab : |x - x0| * |y - y0| ≤ dx * |x0| * (dy * |y0|) :=
    mul_le_mul hx hy (abs_nonneg _) (mul_nonneg hdx0 hX)
  have haY : |x - x0| * |y0| ≤ dx * |x0| * |y0| := mul_le_mul_of_nonneg_right hx hY
  have hXb : |x0| * |y - y0| ≤ |x0| * (dy * |y0|) := mul_le_mul_of_nonneg_left hy hX
  have hdd : dx * dy ≤ 1 / 2 ^ 16 * (1 / 2 ^ 16) := mul_le_mul hdx hdy hdy0 (by positivity)
  have hP0 : 0 ≤ |x0 * y0| := abs_nonneg _
  rw [abs_mul] at hP hP0 ⊢
  have hddP : dx * dy * (|x0| * |y0|) ≤ 1 / 2 ^ 16 * (1 / 2 ^ 16) * (|x0| * |y0|) :=
    mul_le_mul_of_nonneg_right hdd hP0
  have hdxP : dx * (|x0| * |y0|) ≤ 1 / 2 ^ 16 * (|x0| * |y0|) :=
    mul_le_mul_of_nonneg_right hdx hP0
  have hdyP : dy * (|x0| * |y0|) ≤ 1 / 2 ^ 16 * (|x0| * |y0|) :=
    mul_le_mul_of_nonneg_right hdy hP0
  have hE : |x * y - x0 * y0| ≤
      dx * dy * (|x0| * |y0|) + dx * (|x0| * |y0|) + dy * (|x0| * |y0|) := by
    have e : x * y - x0 * y0 = (x - x0) * (y - y0) + (x - x0) * y0 + x0 * (y - y0) := by ring
    rw [e]
    have t1 := abs_add ((x - x0) * (y - y0) + (x - x0) * y0) (x0 * (y - y0))
    have t2 := abs_add ((x - x0) * (y - y0)) ((x - x0) * y0)
    rw [abs_mul] at t1
    rw [abs_mul, abs_mul] at t2
    have e1 : dx * |x0| * (dy * |y0|) = dx * dy * (|x0| * |y0|) := by ring
    have e2 : dx * |x0| * |y0| = dx * (|x0| * |y0|) := by ring
    have e3 : |x0| * (dy * |y0|) = dy * (|x0| * |y0|) := by ring
    rw [e1] at hab
    rw [e2] at haY
    rw [e3] at hXb
    linarith only [t1, t2, hab, haY, hXb]
  have hmul : (dx + dy + 1 / 2 ^ 24 + 1 / 2 ^ 30) * (|x0| * |y0|) =
      dx * (|x0| * |y0|) + dy * (|x0| * |y0|) + (1 / 2 ^ 24 + 1 / 2 ^ 30) * (|x0| * |y0|) := by
    ring
  rw [hmul]
  have hPe : |x0 * y0| ≤ |x0| * |y0| := le_of_eq (abs_mul x0 y0)
  generalize |x0| * |y0| = P at hP hP0 hddP hdxP hdyP hE hPe ⊢
  generalize dx * dy * P = D12 at hddP hE ⊢
  generalize dx * P = D1 at hdxP hE ⊢
  generalize dy * P = D2 at hdyP hE ⊢
  obtain ⟨z, ez, d⟩ := float_round_step (x * y) (x0 * y0) P (D12 + D1 + D2) (by
    norm_num at hP hddP hdxP hdyP ⊢
    linarith only [hP, hddP, hdxP, hdyP]) hPe hE
  refine ⟨z, ez, le_trans d ?_⟩
  norm_num at hddP hdxP hdyP ⊢
  linarith only [hddP, hdxP, hdyP, hP0]

/-- The rounded reciprocal of an approximation `y` of `y0` with relative error `dy`. -/
theorem float_inv_error [FloorRing F] (y y0 dy : F) (hy : |y - y0| ≤ dy * |y0|)
    (hdy0 : 0 ≤ dy) (hdy : dy ≤ 1 / 2 ^ 16) (hlo : 1 / 2 ^ 100 ≤ |y0|) (hhi : |y0| ≤ 2 ^ 100) :
    y ≠ 0 ∧ ∃ z, float_format.round (1 / y) = Float_value.finite z ∧
      |z - 1 / y0| ≤ (dy + 1 / 2 ^ 24 + 1 / 2 ^ 29) * |1 / y0| := by
  have hY : 0 < |y0| := lt_of_lt_of_le (by positivity) hlo
  have hy0 : y0 ≠ 0 := abs_pos.mp hY
  have hdY : dy * |y0| ≤ 1 / 2 ^ 16 * |y0| := mul_le_mul_of_nonneg_right hdy hY.le
  have hyl : |y0| * (1 - 1 / 2 ^ 16) ≤ |y| := by
    have h := abs_sub_abs_le_abs_sub y0 y
    rw [abs_sub_comm] at h
    linarith only [h, hy, hdY]
  have hypos : 0 < |y| := by
    norm_num at hyl ⊢
    by_contra hc
    have : y = 0 := by simpa using hc
    rw [this, abs_zero] at hyl
    linarith only [hyl, hY]
  have hyne : y ≠ 0 := abs_pos.mp hypos
  refine ⟨hyne, ?_⟩
  have hQ : |1 / y0| = 1 / |y0| := by rw [abs_div, abs_one]
  have hQlo : 1 / 2 ^ 100 ≤ 1 / |y0| := by
    rw [div_le_div_iff₀ (by positivity) hY]
    linarith only [hhi]
  have hQhi : 1 / |y0| ≤ 2 ^ 100 := by
    rw [div_le_iff₀ hY]
    have := mul_le_mul_of_nonneg_left hlo (by positivity : (0 : F) ≤ 2 ^ 100)
    norm_num at this ⊢
    linarith only [this]
  have hE : |1 / y - 1 / y0| ≤ (dy + 1 / 2 ^ 30) * (1 / |y0|) := by
    have e : 1 / y - 1 / y0 = (y0 - y) / (y * y0) := by
      field_simp
    rw [e, abs_div, abs_mul, abs_sub_comm, div_le_iff₀ (mul_pos hypos hY)]
    have e2 : (dy + 1 / 2 ^ 30) * (1 / |y0|) * (|y| * |y0|) = (dy + 1 / 2 ^ 30) * |y| := by
      field_simp
      ring
    rw [e2]
    have h1 : dy * (|y0| * (1 - 1 / 2 ^ 16)) ≤ dy * |y| := mul_le_mul_of_nonneg_left hyl hdy0
    have h2 : dy * |y0| * (1 / 2 ^ 16) ≤ 1 / 2 ^ 16 * |y0| * (1 / 2 ^ 16) :=
      mul_le_mul_of_nonneg_right hdY (by positivity)
    have e3 : (dy + 1 / 2 ^ 30) * |y| = dy * |y| + 1 / 2 ^ 30 * |y| := by ring
    have e4 : dy * (|y0| * (1 - 1 / 2 ^ 16)) = dy * |y0| - dy * |y0| * (1 / 2 ^ 16) := by ring
    rw [e3]
    rw [e4] at h1
    norm_num at h1 h2 hyl ⊢
    linarith only [h1, h2, hyl, hy, hypos]
  rw [hQ]
  have hmul : (dy + 1 / 2 ^ 30) * (1 / |y0|) = dy * (1 / |y0|) + 1 / 2 ^ 30 * (1 / |y0|) := by
    ring
  have hmul2 : (dy + 1 / 2 ^ 24 + 1 / 2 ^ 29) * (1 / |y0|) =
      dy * (1 / |y0|) + (1 / 2 ^ 24 + 1 / 2 ^ 29) * (1 / |y0|) := by ring
  rw [hmul] at hE
  rw [hmul2]
  have hdQ : dy * (1 / |y0|) ≤ 1 / 2 ^ 16 * (1 / |y0|) :=
    mul_le_mul_of_nonneg_right hdy (by positivity)
  have hQe : |1 / y0| ≤ 1 / |y0| := le_of_eq hQ
  generalize 1 / |y0| = Q at hQlo hQhi hE hdQ hQe ⊢
  generalize dy * Q = D at hE hdQ ⊢
  obtain ⟨z, ez, d⟩ := float_round_step (1 / y) (1 / y0) Q (D + 1 / 2 ^ 30 * Q) (by
    norm_num at hQhi hdQ ⊢
    linarith only [hQhi, hdQ]) hQe hE
  refine ⟨z, ez, le_trans d ?_⟩
  norm_num at hdQ hQlo ⊢
  linarith only [hdQ, hQlo]

/-- The conversion of an `int` to `float`. -/
theorem float_of_int_error [FloorRing F] (n : Int) (hn : |n| ≤ 2 ^ 31) :
    ∃ y, float_format.of_int n = Float_value.finite y ∧
      |y - (n : F)| ≤ 2 / 2 ^ 24 * |(n : F)| := by
  unfold Float_format.of_int
  by_cases h0 : n = 0
  · subst h0
    refine ⟨0, ?_, ?_⟩
    · simp only [Int.cast_zero]
      exact float_format.round_zero
    · simp
  have h1 : (1 : F) ≤ |(n : F)| := by
    have : (1 : Int) ≤ |n| := Int.one_le_abs h0
    exact_mod_cast this
  have h2 : |(n : F)| ≤ 2 ^ 31 := by exact_mod_cast hn
  obtain ⟨y, ey, b, _⟩ := float_round_error (n : F) (by
    norm_num at h2 ⊢
    linarith only [h2])
  refine ⟨y, ey, le_trans b ?_⟩
  norm_num at h1 ⊢
  linarith only [h1]

/-! ## Rounding of particular numbers -/

theorem float_max_value : (float_format.max_value : ℝ) = (2 ^ 24 - 1) * 2 ^ 104 := by
  simp only [Float_format.max_value, float_format]
  norm_num

theorem double_max_value : (double_format.max_value : ℝ) = (2 ^ 53 - 1) * 2 ^ 971 := by
  simp only [Float_format.max_value, double_format]
  norm_num

theorem float_round_int (n : Int) (hn : |n| < 2 ^ 24) :
    float_format.round (n : ℝ) = Float_value.finite (n : ℝ) := by
  apply float_format.round_int n hn (by norm_num [float_format])
  rw [float_max_value]
  have h : |(n : ℝ)| < 2 ^ 24 := by exact_mod_cast hn
  have h2 : (2 : ℝ) ^ 24 ≤ (2 ^ 24 - 1) * 2 ^ 104 := by norm_num
  linarith

theorem double_round_int (n : Int) (hn : |n| < 2 ^ 53) :
    double_format.round (n : ℝ) = Float_value.finite (n : ℝ) := by
  apply double_format.round_int n hn (by norm_num [double_format])
  rw [double_max_value]
  have h : |(n : ℝ)| < 2 ^ 53 := by exact_mod_cast hn
  have h2 : (2 : ℝ) ^ 53 ≤ (2 ^ 53 - 1) * 2 ^ 971 := by norm_num
  linarith

theorem double_of_int [FloorRing F] (n : Int) (hn : |n| < 2 ^ 53) :
    double_format.of_int n = Float_value.finite (n : F) := by
  apply double_format.round_int n hn (by norm_num [double_format])
  have e3 : (double_format.max_value : F) = (2 ^ 53 - 1) * 2 ^ 971 := by
    simp only [Float_format.max_value, double_format]
    norm_num
  rw [e3]
  have h : |(n : F)| < 2 ^ 53 := by exact_mod_cast hn
  have h2 : (2 : F) ^ 53 ≤ (2 ^ 53 - 1) * 2 ^ 971 := by norm_num
  linarith only [h, h2]

theorem float_round_half : float_format.round (1 / 2 : ℝ) = Float_value.finite (1 / 2) := by
  have := float_format.round_scaled (F := ℝ) 1 (-1) (by norm_num [float_format])
    (by norm_num [float_format]) (by
      rw [float_max_value]
      norm_num [abs_of_pos])
  norm_num at this
  simpa using this

theorem float_round_0 : float_format.round (0 : ℝ) = Float_value.finite 0 := float_format.round_zero

theorem float_round_1 : float_format.round (1 : ℝ) = Float_value.finite 1 := by
  simpa using float_round_int 1 (by norm_num)

theorem float_round_2 : float_format.round (2 : ℝ) = Float_value.finite 2 := by
  simpa using float_round_int 2 (by norm_num)

theorem float_round_neg_one [FloorRing F] :
    float_format.round (-1 : F) = Float_value.finite (-1) := by
  have h := float_format.round_int (F := F) (-1) (by norm_num [float_format])
    (by norm_num [float_format]) (by
      simp only [Float_format.max_value, float_format]
      norm_num)
  simpa using h

theorem double_round_1 : double_format.round (1 : ℝ) = Float_value.finite 1 := by
  simpa using double_round_int 1 (by norm_num)

theorem double_round_2 : double_format.round (2 : ℝ) = Float_value.finite 2 := by
  simpa using double_round_int 2 (by norm_num)

theorem float_round_near (x : ℝ) (e n : Int) (he : -126 ≤ e)
    (h1 : (2 : ℝ) ^ e ≤ |x|) (h2 : |x| < (2 : ℝ) ^ (e + 1))
    (hn : |x / (2 : ℝ) ^ (e - 23) - n| < 1 / 2)
    (hmax : |(n : ℝ) * (2 : ℝ) ^ (e - 23)| ≤ (2 ^ 24 - 1) * 2 ^ 104) :
    float_format.round x = Float_value.finite ((n : ℝ) * (2 : ℝ) ^ (e - 23)) := by
  have hulp : float_format.ulp x = (2 : ℝ) ^ (e - 23) := by
    rw [float_format.ulp_normal x e (by simpa [float_format] using he) h1 h2]
    simp [float_format]
  exact float_format.round_near x (e - 23) n hulp hn (by rw [float_max_value]; exact hmax)

theorem float_round_overflow (x : ℝ) (hx : 2 ^ 128 ≤ x) :
    float_format.round x = Float_value.infinite false :=
  float_format.round_overflow (by norm_num [float_format]) (by norm_num [float_format]) x
    (by
      have : (2 : ℝ) ^ (float_format.emax + 1) = 2 ^ 128 := by
        norm_num [float_format]
      rw [this]
      exact hx)

theorem float_round_big : float_format.round ((2 : ℝ) ^ 25) = Float_value.finite (2 ^ 25) := by
  have := float_round_near ((2 : ℝ) ^ 25) 25 (2 ^ 23) (by norm_num) (by norm_num [abs_of_pos])
    (by norm_num [abs_of_pos]) (by norm_num) (by norm_num [abs_of_pos])
  rw [this]
  norm_num

theorem float_round_absorb :
    float_format.round ((2 : ℝ) ^ 25 + 1) = Float_value.finite (2 ^ 25) := by
  have := float_round_near ((2 : ℝ) ^ 25 + 1) 25 (2 ^ 23) (by norm_num)
    (by norm_num [abs_of_pos]) (by norm_num [abs_of_pos])
    (by norm_num [abs_lt]) (by norm_num [abs_of_pos])
  rw [this]
  norm_num

theorem float_round_sqrt_two :
    float_format.round (Real.sqrt 2) = Float_value.finite (11863283 / 2 ^ 23) := by
  have hlo : (11863283 - 1 / 2) / 2 ^ 23 < Real.sqrt 2 := by
    rw [Real.lt_sqrt (by norm_num)]
    norm_num
  have hhi : Real.sqrt 2 < (11863283 + 1 / 2) / 2 ^ 23 := by
    rw [Real.sqrt_lt' (by norm_num)]
    norm_num
  have hpos : 0 < Real.sqrt 2 := Real.sqrt_pos.mpr (by norm_num)
  have := float_round_near (Real.sqrt 2) 0 11863283 (by norm_num)
    (by
      rw [abs_of_pos hpos, zpow_zero]
      norm_num at hlo
      linarith)
    (by
      rw [abs_of_pos hpos, zero_add, zpow_one]
      norm_num at hhi
      linarith)
    (by
      rw [abs_lt]
      norm_num at hlo hhi ⊢
      constructor <;> linarith)
    (by norm_num [abs_of_pos])
  rw [this]
  norm_num

theorem float_round_inv_sqrt_two :
    float_format.round ((1 : ℝ) / (11863283 / 2 ^ 23)) = Float_value.finite (11863283 / 2 ^ 24) := by
  have := float_round_near ((1 : ℝ) / (11863283 / 2 ^ 23)) (-1) 11863283 (by norm_num)
    (by norm_num [abs_of_pos]) (by norm_num [abs_of_pos])
    (by norm_num [abs_lt]) (by norm_num [abs_of_pos])
  rw [this]
  norm_num

theorem float_round_neg_inv_sqrt_two :
    float_format.round ((-1 : ℝ) / (11863283 / 2 ^ 23)) =
      Float_value.finite (-(11863283 / 2 ^ 24)) := by
  have := float_round_near ((-1 : ℝ) / (11863283 / 2 ^ 23)) (-1) (-11863283) (by norm_num)
    (by norm_num [abs_of_pos]) (by norm_num [abs_of_pos])
    (by norm_num [abs_lt]) (by norm_num [abs_of_pos])
  rw [this]
  norm_num

theorem float_round_big_literal : float_format.round (33554432 : ℝ) = Float_value.finite 33554432 := by
  have := float_round_big
  norm_num at this
  exact this

theorem float_round_absorb_literal : float_format.round (33554433 : ℝ) = Float_value.finite 33554432 := by
  have := float_round_absorb
  norm_num at this
  exact this

theorem float_round_inv_sqrt_two_literal :
    float_format.round (8388608 / 11863283 : ℝ) = Float_value.finite (11863283 / 16777216) := by
  have := float_round_inv_sqrt_two
  norm_num at this
  exact this

theorem float_round_neg_inv_sqrt_two_literal :
    float_format.round (-(8388608 / 11863283) : ℝ) =
      Float_value.finite (-(11863283 / 16777216)) := by
  have := float_round_neg_inv_sqrt_two
  norm_num at this
  exact this

theorem float_round_960 : float_format.round (960 : ℝ) = Float_value.finite 960 := by
  simpa using float_round_int 960 (by norm_num)

theorem float_quotient_main :
    (float_format.of_int 960).div float_format (Float_value.finite (14913081 / 8388608 : ℝ)) =
      Float_value.finite 540 := by
  have hne : (14913081 / 8388608 : ℝ) ≠ 0 := by norm_num
  have h := float_round_near ((960 : ℝ) / (14913081 / 8388608)) 9 8847360 (by norm_num)
    (by norm_num [abs_of_pos]) (by norm_num [abs_of_pos])
    (by norm_num [abs_lt]) (by norm_num [abs_of_pos])
  simp only [Float_format.of_int, Int.cast_ofNat, float_round_960,
    Float_value.div_finite _ _ _ hne, h]
  norm_num

theorem float_round_two_31 :
    float_format.round ((2 : ℝ) / (1 / 2 ^ 30)) = Float_value.finite (2 ^ 31) := by
  have h := float_round_near ((2 : ℝ) / (1 / 2 ^ 30)) 31 (2 ^ 23) (by norm_num)
    (by norm_num [abs_of_pos]) (by norm_num [abs_of_pos])
    (by norm_num) (by norm_num [abs_of_pos])
  rw [h]
  norm_num

/-! ## Vector::normalize in float arithmetic -/

theorem Vector.square_of_length_float_three [FloorRing F] (v : Vector (Float_value F) 3) :
    v.square_of_length_float =
      ((((Float_value.finite 0).add float_format
        ((v.vector 0).mul float_format (v.vector 0))).add float_format
        ((v.vector 1).mul float_format (v.vector 1))).add float_format
        ((v.vector 2).mul float_format (v.vector 2))) := by
  simp [Vector.square_of_length_float, Fin.foldl_succ]

/-- The float sum `((0 + s0) + s1) + s2` of three non-negative numbers. -/
theorem float_sum_three [FloorRing F] (s0 s1 s2 : F) (h0 : 0 ≤ s0) (h1 : 0 ≤ s1) (h2 : 0 ≤ s2)
    (hhi : s0 + s1 + s2 ≤ 2 ^ 126 + 2 ^ 125) :
    ∃ A, ((((Float_value.finite 0).add float_format (Float_value.finite s0)).add float_format
        (Float_value.finite s1)).add float_format (Float_value.finite s2)) =
        Float_value.finite A ∧ 0 ≤ A ∧
      (s0 + s1 + s2) * (1 - 5 / 2 ^ 24) - 5 / 2 ^ 150 ≤ A ∧
      A ≤ (s0 + s1 + s2) * (1 + 5 / 2 ^ 24) + 5 / 2 ^ 150 := by
  obtain ⟨A1, f1, q1, l1, u1⟩ := float_round_nonneg (0 + s0) (by linarith only [h0]) (by
    norm_num at hhi ⊢
    linarith only [hhi, h0, h1, h2])
  rw [zero_add] at l1 u1
  obtain ⟨A2, f2, q2, l2, u2⟩ := float_round_nonneg (A1 + s1) (by linarith only [q1, h1]) (by
    norm_num at hhi u1 ⊢
    linarith only [hhi, u1, h0, h1, h2])
  have u2' : A2 ≤ (s0 + s1) * (1 + 3 / 2 ^ 24) + 3 / 2 ^ 150 := by
    norm_num at u1 u2 ⊢
    linarith only [u1, u2, h0, h1]
  have l2' : (s0 + s1) * (1 - 3 / 2 ^ 24) - 3 / 2 ^ 150 ≤ A2 := by
    norm_num at l1 l2 ⊢
    linarith only [l1, l2, h0, h1]
  obtain ⟨A3, f3, q3, l3, u3⟩ := float_round_nonneg (A2 + s2) (by linarith only [q2, h2]) (by
    norm_num at hhi u2' ⊢
    linarith only [hhi, u2', h0, h1, h2])
  refine ⟨A3, ?_, q3, ?_, ?_⟩
  · rw [Float_value.add_finite, f1, Float_value.add_finite, f2, Float_value.add_finite, f3]
  · norm_num at l2' l3 ⊢
    linarith only [l2', l3, h0, h1, h2]
  · norm_num at u2' u3 ⊢
    linarith only [u2', u3, h0, h1, h2]

/-- The value of `square_of_length()` for finite components: relative error at most
`7 * 2^-24`, up to the underflow of the three products. -/
theorem float_square_of_length [FloorRing F] (x : Fin 3 → F)
    (hhi : x 0 * x 0 + x 1 * x 1 + x 2 * x 2 ≤ 2 ^ 126) :
    ∃ A, (Vector.mk fun i => Float_value.finite (x i)).square_of_length_float =
        Float_value.finite A ∧ 0 ≤ A ∧
      (x 0 * x 0 + x 1 * x 1 + x 2 * x 2) * (1 - 7 / 2 ^ 24) - 9 / 2 ^ 150 ≤ A ∧
      A ≤ (x 0 * x 0 + x 1 * x 1 + x 2 * x 2) * (1 + 7 / 2 ^ 24) + 9 / 2 ^ 150 := by
  have h0 := mul_self_nonneg (x 0)
  have h1 := mul_self_nonneg (x 1)
  have h2 := mul_self_nonneg (x 2)
  rw [Vector.square_of_length_float_three]
  simp only [Float_value.mul_finite]
  generalize x 0 * x 0 = a0 at hhi h0 ⊢
  generalize x 1 * x 1 = a1 at hhi h1 ⊢
  generalize x 2 * x 2 = a2 at hhi h2 ⊢
  have hb : (2 : F) ^ 126 ≤ 2 ^ 127 := by norm_num
  obtain ⟨s0, e0, p0, l0, u0⟩ := float_round_nonneg a0 h0 (by linarith only [hhi, h1, h2, hb])
  obtain ⟨s1, e1, p1, l1, u1⟩ := float_round_nonneg a1 h1 (by linarith only [hhi, h0, h2, hb])
  obtain ⟨s2, e2, p2, l2, u2⟩ := float_round_nonneg a2 h2 (by linarith only [hhi, h0, h1, hb])
  have hsum : s0 + s1 + s2 ≤ 2 ^ 126 + 2 ^ 125 := by
    norm_num at u0 u1 u2 hhi ⊢
    linarith only [u0, u1, u2, hhi, h0, h1, h2]
  obtain ⟨A, eA, pA, lA, uA⟩ := float_sum_three s0 s1 s2 p0 p1 p2 hsum
  refine ⟨A, ?_, pA, ?_, ?_⟩
  · rw [e0, e1, e2, eA]
  · have l : (a0 + a1 + a2) * (1 - 1 / 2 ^ 24) - 3 / 2 ^ 150 ≤ s0 + s1 + s2 := by
      norm_num at l0 l1 l2 ⊢
      linarith only [l0, l1, l2]
    norm_num at l lA ⊢
    linarith only [l, lA, h0, h1, h2]
  · have u : s0 + s1 + s2 ≤ (a0 + a1 + a2) * (1 + 1 / 2 ^ 24) + 3 / 2 ^ 150 := by
      norm_num at u0 u1 u2 ⊢
      linarith only [u0, u1, u2]
    norm_num at u uA ⊢
    linarith only [u, uA, h0, h1, h2]

/-- A finite value `A` of `square_of_length()` of a `Vector3df`: the components are finite,
and `A` is the exact sum of squares up to a relative error of `7 * 2^-24` and the underflow
of the three products. -/
theorem float_square_of_length_of_finite [FloorRing F] (v : Vector (Float_value F) 3) (A : F)
    (hA : v.square_of_length_float = Float_value.finite A) :
    ∃ x : Fin 3 → F, v = (Vector.mk fun i => Float_value.finite (x i)) ∧ 0 ≤ A ∧
      A ≤ (2 ^ 24 - 1) * 2 ^ 104 ∧
      (x 0 * x 0 + x 1 * x 1 + x 2 * x 2) * (1 - 7 / 2 ^ 24) - 9 / 2 ^ 150 ≤ A ∧
      A ≤ (x 0 * x 0 + x 1 * x 1 + x 2 * x 2) * (1 + 7 / 2 ^ 24) + 9 / 2 ^ 150 := by
  rw [Vector.square_of_length_float_three] at hA
  obtain ⟨B2, p2, hB2, hp2, hr3⟩ := Float_value.add_eq_finite _ _ _ _ hA
  obtain ⟨B1, p1, hB1, hp1, hr2⟩ := Float_value.add_eq_finite _ _ _ _ hB2
  obtain ⟨z, p0, hz, hp0, hr1⟩ := Float_value.add_eq_finite _ _ _ _ hB1
  cases hz
  obtain ⟨x0, hx0, hm0⟩ := Float_value.mul_self_eq_finite _ _ _ hp0
  obtain ⟨x1, hx1, hm1⟩ := Float_value.mul_self_eq_finite _ _ _ hp1
  obtain ⟨x2, hx2, hm2⟩ := Float_value.mul_self_eq_finite _ _ _ hp2
  have hv : v = (Vector.mk fun i => Float_value.finite (![x0, x1, x2] i)) := by
    ext i
    fin_cases i
    · exact hx0
    · exact hx1
    · exact hx2
  refine ⟨![x0, x1, x2], hv, ?_⟩
  show 0 ≤ A ∧ A ≤ (2 ^ 24 - 1) * 2 ^ 104 ∧
    (x0 * x0 + x1 * x1 + x2 * x2) * (1 - 7 / 2 ^ 24) - 9 / 2 ^ 150 ≤ A ∧
    A ≤ (x0 * x0 + x1 * x1 + x2 * x2) * (1 + 7 / 2 ^ 24) + 9 / 2 ^ 150
  have h0 := mul_self_nonneg x0
  have h1 := mul_self_nonneg x1
  have h2 := mul_self_nonneg x2
  generalize x0 * x0 = a0 at h0 hm0 ⊢
  generalize x1 * x1 = a1 at h1 hm1 ⊢
  generalize x2 * x2 = a2 at h2 hm2 ⊢
  obtain ⟨q0, l0, u0⟩ := float_round_of_finite_nonneg _ _ h0 hm0
  obtain ⟨q1, l1, u1⟩ := float_round_of_finite_nonneg _ _ h1 hm1
  obtain ⟨q2, l2, u2⟩ := float_round_of_finite_nonneg _ _ h2 hm2
  obtain ⟨r1, m1, v1⟩ := float_round_of_finite_nonneg _ _ (by linarith only [q0]) hr1
  rw [zero_add] at m1 v1
  obtain ⟨r2, m2, v2⟩ := float_round_of_finite_nonneg _ _ (by linarith only [r1, q1]) hr2
  obtain ⟨r3, m3, v3⟩ := float_round_of_finite_nonneg _ _ (by linarith only [r2, q2]) hr3
  have m1' : a0 * (1 - 2 / 2 ^ 24) - 2 / 2 ^ 150 ≤ B1 := by
    norm_num at l0 m1 ⊢
    linarith only [l0, m1, h0]
  have v1' : B1 ≤ a0 * (1 + 3 / 2 ^ 24) + 3 / 2 ^ 150 := by
    norm_num at u0 v1 ⊢
    linarith only [u0, v1, h0]
  have m2' : (a0 + a1) * (1 - 3 / 2 ^ 24) - 4 / 2 ^ 150 ≤ B2 := by
    norm_num at l1 m1' m2 ⊢
    linarith only [l1, m1', m2, h0, h1]
  have v2' : B2 ≤ (a0 + a1) * (1 + 5 / 2 ^ 24) + 6 / 2 ^ 150 := by
    norm_num at u1 v1' v2 ⊢
    linarith only [u1, v1', v2, h0, h1]
  refine ⟨r3, le_trans (le_abs_self A) (float_round_of_finite _ _ hr3).2.2, ?_, ?_⟩
  · norm_num at l2 m2' m3 ⊢
    linarith only [l2, m2', m3, h0, h1, h2]
  · norm_num at u2 v2' v3 ⊢
    linarith only [u2, v2', v3, h0, h1, h2]

theorem le_of_mul_self_le (a b : F) (hb : 0 ≤ b) (h : a * a ≤ b * b) : a ≤ b := by
  by_contra hc
  have hba : b < a := not_le.mp hc
  have := mul_self_lt_mul_self hb hba
  linarith

/-- The value of `length()` when `square_of_length()` is finite and at least `2^-126`: finite,
positive, with square within `2^-19 * S` of the exact sum of squares `S`. -/
theorem float_length_of_finite [FloorRing F] (sqrt : F → F)
    (hs : ∀ x, 0 ≤ x → 0 ≤ sqrt x ∧ sqrt x * sqrt x = x) (v : Vector (Float_value F) 3) (A : F)
    (hA : v.square_of_length_float = Float_value.finite A) (hlo : 1 / 2 ^ 126 ≤ A) :
    ∃ (x : Fin 3 → F) (len : F), v = (Vector.mk fun i => Float_value.finite (x i)) ∧
      v.length_float sqrt = Float_value.finite len ∧ 0 < len ∧
      (x 0 * x 0 + x 1 * x 1 + x 2 * x 2) * (1 - 1 / 2 ^ 19) ≤ len * len ∧
      len * len ≤ (x 0 * x 0 + x 1 * x 1 + x 2 * x 2) * (1 + 1 / 2 ^ 19) := by
  obtain ⟨x, hv, pA, hAmax, lA, uA⟩ := float_square_of_length_of_finite v A hA
  refine ⟨x, ?_⟩
  have hS0 : 0 ≤ x 0 * x 0 + x 1 * x 1 + x 2 * x 2 :=
    add_nonneg (add_nonneg (mul_self_nonneg _) (mul_self_nonneg _)) (mul_self_nonneg _)
  generalize x 0 * x 0 + x 1 * x 1 + x 2 * x 2 = S at lA uA hS0 ⊢
  obtain ⟨hL0, hLL⟩ := hs A pA
  have hlen : v.length_float sqrt = float_format.round (sqrt A) := by
    rw [Vector.length_float, hA, Float_value.sqrt_finite _ _ _ pA]
  rw [hlen]
  generalize sqrt A = L at hL0 hLL ⊢
  have lA' : S * (1 - 7 / 2 ^ 24) ≤ A * (1 + 9 / 2 ^ 24) := by
    norm_num at lA hlo ⊢
    linarith only [lA, hlo]
  have uA' : A * (1 - 9 / 2 ^ 24) ≤ S * (1 + 7 / 2 ^ 24) := by
    norm_num at uA hlo ⊢
    linarith only [uA, hlo]
  have hLlo : 1 / 2 ^ 63 ≤ L := by
    apply le_of_mul_self_le _ _ hL0
    rw [hLL]
    norm_num at hlo ⊢
    linarith only [hlo]
  have hLhi : L ≤ 2 ^ 64 := by
    apply le_of_mul_self_le _ _ (by positivity)
    rw [hLL]
    norm_num at hAmax ⊢
    linarith only [hAmax]
  obtain ⟨len, eL, pL, lL, uL⟩ := float_round_nonneg (L) hL0 (by
    norm_num at hLhi ⊢
    linarith only [hLhi])
  have lL' : L * (1 - 1 / 2 ^ 23) ≤ len := by
    norm_num at lL hLlo ⊢
    linarith only [lL, hLlo]
  have uL' : len ≤ L * (1 + 1 / 2 ^ 23) := by
    norm_num at uL hLlo ⊢
    linarith only [uL, hLlo]
  have hpos : 0 < len := by
    norm_num at lL' hLlo ⊢
    linarith only [lL', hLlo]
  refine ⟨len, hv, eL, hpos, ?_, ?_⟩
  · have h1 : (L * (1 - 1 / 2 ^ 23)) * (L * (1 - 1 / 2 ^ 23)) ≤ len * len :=
      mul_self_le_mul_self (mul_nonneg hL0 (by norm_num)) lL'
    have h2 : (L * (1 - 1 / 2 ^ 23)) * (L * (1 - 1 / 2 ^ 23)) =
        A * ((1 - 1 / 2 ^ 23) * (1 - 1 / 2 ^ 23)) := by
      rw [← hLL]
      ring
    rw [h2] at h1
    norm_num at h1 lA' ⊢
    linarith only [h1, lA', pA, hS0]
  · have h1 : len * len ≤ (L * (1 + 1 / 2 ^ 23)) * (L * (1 + 1 / 2 ^ 23)) :=
      mul_self_le_mul_self (le_of_lt hpos) uL'
    have h2 : (L * (1 + 1 / 2 ^ 23)) * (L * (1 + 1 / 2 ^ 23)) =
        A * ((1 + 1 / 2 ^ 23) * (1 + 1 / 2 ^ 23)) := by
      rw [← hLL]
      ring
    rw [h2] at h1
    norm_num at h1 uA' ⊢
    linarith only [h1, uA', pA, hS0]

theorem mul_self_close (y q d : F) (h : |y - q| ≤ d) (hq : |q| ≤ 2) (hd : d ≤ 1) :
    |y * y - q * q| ≤ 5 * d := by
  have hd0 : 0 ≤ d := le_trans (abs_nonneg _) h
  have e : y * y - q * q = (y - q) * (y + q) := by ring
  rw [e, abs_mul]
  have h2 : |y + q| ≤ 5 := by
    have e2 : y + q = (y - q) + 2 * q := by ring
    rw [e2]
    have h3 := abs_add (y - q) (2 * q)
    have h4 : |2 * q| = 2 * |q| := by rw [abs_mul]; norm_num
    linarith
  calc |y - q| * |y + q| ≤ d * 5 := mul_le_mul h h2 (abs_nonneg _) hd0
    _ = 5 * d := by ring

/-- The components after `normalize()` when `square_of_length()` is finite and at least
`2^-126`: the rounded quotients by `length()`, whose exact sum of squares is within `2^-17`
of 1. -/
theorem float_normalize_components [FloorRing F] (sqrt : F → F)
    (hs : ∀ x, 0 ≤ x → 0 ≤ sqrt x ∧ sqrt x * sqrt x = x) (v : Vector (Float_value F) 3) (A : F)
    (hA : v.square_of_length_float = Float_value.finite A) (hlo : 1 / 2 ^ 126 ≤ A) :
    ∃ (len : F) (y : Fin 3 → F),
      v.length_float sqrt = Float_value.finite len ∧ 0 < len ∧
      v.normalize_float sqrt = (Vector.mk fun i => Float_value.finite (y i)) ∧
      (∀ i, (v.vector i).div float_format (Float_value.finite len) = Float_value.finite (y i)) ∧
      1 - 1 / 2 ^ 19 - 45 / 2 ^ 24 ≤ y 0 * y 0 + y 1 * y 1 + y 2 * y 2 ∧
      y 0 * y 0 + y 1 * y 1 + y 2 * y 2 ≤ 1 + 1 / 2 ^ 18 + 45 / 2 ^ 24 := by
  obtain ⟨x, len, hv, eL, hpos, lD, uD⟩ := float_length_of_finite sqrt hs v A hA hlo
  have hne : len ≠ 0 := ne_of_gt hpos
  have hD : 0 < len * len := mul_pos hpos hpos
  have hS0 : 0 ≤ x 0 * x 0 + x 1 * x 1 + x 2 * x 2 :=
    add_nonneg (add_nonneg (mul_self_nonneg _) (mul_self_nonneg _)) (mul_self_nonneg _)
  have hQ : x 0 / len * (x 0 / len) + x 1 / len * (x 1 / len) + x 2 / len * (x 2 / len) =
      (x 0 * x 0 + x 1 * x 1 + x 2 * x 2) / (len * len) := by
    field_simp
  have hQhi : (x 0 * x 0 + x 1 * x 1 + x 2 * x 2) / (len * len) ≤ 1 + 1 / 2 ^ 18 := by
    rw [div_le_iff₀ hD]
    norm_num at lD ⊢
    linarith only [lD, hS0]
  have hQlo : 1 - 1 / 2 ^ 19 ≤ (x 0 * x 0 + x 1 * x 1 + x 2 * x 2) / (len * len) := by
    rw [le_div_iff₀ hD]
    norm_num at uD ⊢
    linarith only [uD, hS0]
  rw [← hQ] at hQhi hQlo
  have hq : ∀ i, |x i / len| ≤ 2 := by
    intro i
    have hi : x i / len * (x i / len) ≤ 2 * 2 := by
      have h0 := mul_self_nonneg (x 0 / len)
      have h1 := mul_self_nonneg (x 1 / len)
      have h2 := mul_self_nonneg (x 2 / len)
      norm_num at hQhi ⊢
      fin_cases i
      · show x 0 / len * (x 0 / len) ≤ 4
        linarith only [hQhi, h0, h1, h2]
      · show x 1 / len * (x 1 / len) ≤ 4
        linarith only [hQhi, h0, h1, h2]
      · show x 2 / len * (x 2 / len) ≤ 4
        linarith only [hQhi, h0, h1, h2]
    rw [← abs_mul_abs_self] at hi
    exact le_of_mul_self_le _ _ (by norm_num) hi
  have key : ∀ i, ∃ y, float_format.round (x i / len) = Float_value.finite y ∧
      |y - x i / len| ≤ 3 / 2 ^ 24 := by
    intro i
    have h2 := hq i
    obtain ⟨y, e, b, _⟩ := float_round_error (x i / len) (by
      norm_num
      linarith only [h2])
    refine ⟨y, e, le_trans b ?_⟩
    norm_num
    linarith only [h2]
  choose y hy1 hy2 using key
  have hB : ∀ i, |y i * y i - x i / len * (x i / len)| ≤ 5 * (3 / 2 ^ 24) := fun i =>
    mul_self_close _ _ _ (hy2 i) (hq i) (by norm_num)
  have hB0 := abs_le.mp (hB 0)
  have hB1 := abs_le.mp (hB 1)
  have hB2 := abs_le.mp (hB 2)
  refine ⟨len, y, eL, hpos, ?_, ?_, ?_, ?_⟩
  · rw [Vector.normalize_float, eL, hv]
    simp only [Vector.div_assign_float, Float_value.div_finite _ _ _ hne, hy1]
  · intro i
    rw [hv]
    simp only [Float_value.div_finite _ _ _ hne, hy1]
  · norm_num at hB0 hB1 hB2 hQlo ⊢
    linarith only [hB0.1, hB1.1, hB2.1, hQlo]
  · norm_num at hB0 hB1 hB2 hQhi ⊢
    linarith only [hB0.2, hB1.2, hB2.2, hQhi]

/-- The value of `square_of_length()` after `normalize()` when `square_of_length()` was
finite and at least `2^-126` before: within 1e-4 of 1. -/
theorem float_normalize_unit [FloorRing F] (sqrt : F → F)
    (hs : ∀ x, 0 ≤ x → 0 ≤ sqrt x ∧ sqrt x * sqrt x = x) (v : Vector (Float_value F) 3) (A : F)
    (hA : v.square_of_length_float = Float_value.finite A) (hlo : 1 / 2 ^ 126 ≤ A) :
    ∃ t, (v.normalize_float sqrt).square_of_length_float = Float_value.finite t ∧
      |t - 1| ≤ 0.0001 := by
  obtain ⟨len, y, eL, hpos, hn, hy, hBl, hBu⟩ := float_normalize_components sqrt hs v A hA hlo
  have hBhi : y 0 * y 0 + y 1 * y 1 + y 2 * y 2 ≤ 2 ^ 126 := by
    norm_num at hBu ⊢
    linarith only [hBu]
  obtain ⟨t, eT, _, lT, uT⟩ := float_square_of_length y hBhi
  refine ⟨t, ?_, ?_⟩
  · rw [hn, eT]
  · generalize y 0 * y 0 + y 1 * y 1 + y 2 * y 2 = B at lT uT hBl hBu
    rw [abs_le]
    norm_num at lT uT hBl hBu ⊢
    constructor
    · linarith only [lT, hBl]
    · linarith only [uT, hBu]

/-- C13 (amended). In `float` arithmetic, for a `Vector3df` whose `square_of_length()` is
finite (no overflow) and at least 2^-126, the least normal `float` (no underflow):
`length()` is finite and not zero, after `normalize()` every component is finite and is the
(rounded) quotient of the original component by the original `length()`, and
`square_of_length()` of the normalized vector is within 1e-4 of 1. -/
theorem normalize_unit [FloorRing F] (sqrt : F → F)
    (hs : ∀ x, 0 ≤ x → 0 ≤ sqrt x ∧ sqrt x * sqrt x = x) (v : Vector (Float_value F) 3) (A : F)
    (hA : v.square_of_length_float = Float_value.finite A) (hlo : 1 / 2 ^ 126 ≤ A) :
    ∃ (len : F) (y : Fin 3 → F) (t : F),
      v.length_float sqrt = Float_value.finite len ∧ len ≠ 0 ∧
      v.normalize_float sqrt = (Vector.mk fun i => Float_value.finite (y i)) ∧
      (∀ i, (v.vector i).div float_format (Float_value.finite len) = Float_value.finite (y i)) ∧
      (v.normalize_float sqrt).square_of_length_float = Float_value.finite t ∧
      |t - 1| ≤ 0.0001 := by
  obtain ⟨len, y, eL, hpos, hn, hy, _, _⟩ := float_normalize_components sqrt hs v A hA hlo
  obtain ⟨t, eT, bT⟩ := float_normalize_unit sqrt hs v A hA hlo
  exact ⟨len, y, t, eL, ne_of_gt hpos, hn, hy, eT, bT⟩

/-- C13, as stated, fails: for (3 * 2^64, 4 * 2^64, 0) the squares overflow,
`square_of_length()` and `length()` are infinite, and `normalize()` leaves (0, 0, 0), whose
`square_of_length()` is 0. -/
theorem normalize_unit_counterexample :
    (Vector.mk ![Float_value.finite (3 * 2 ^ 64 : ℝ), Float_value.finite (4 * 2 ^ 64),
        Float_value.finite 0]).square_of_length_float = Float_value.infinite false ∧
    (Vector.mk ![Float_value.finite (3 * 2 ^ 64 : ℝ), Float_value.finite (4 * 2 ^ 64),
        Float_value.finite 0]).length_float Real.sqrt = Float_value.infinite false ∧
    ((Vector.mk ![Float_value.finite (3 * 2 ^ 64 : ℝ), Float_value.finite (4 * 2 ^ 64),
        Float_value.finite 0]).normalize_float Real.sqrt).square_of_length_float =
      Float_value.finite 0 := by
  have h9 : float_format.round ((3 * 2 ^ 64 : ℝ) * (3 * 2 ^ 64)) = Float_value.infinite false :=
    float_round_overflow _ (by norm_num)
  have h16 : float_format.round ((4 * 2 ^ 64 : ℝ) * (4 * 2 ^ 64)) = Float_value.infinite false :=
    float_round_overflow _ (by norm_num)
  have hsq : (Vector.mk ![Float_value.finite (3 * 2 ^ 64 : ℝ), Float_value.finite (4 * 2 ^ 64),
      Float_value.finite 0]).square_of_length_float = Float_value.infinite false := by
    rw [Vector.square_of_length_float_three]
    simp [Float_value.mul, Float_value.add, h9, h16, Float_format.round_zero]
  have hlen : (Vector.mk ![Float_value.finite (3 * 2 ^ 64 : ℝ), Float_value.finite (4 * 2 ^ 64),
      Float_value.finite 0]).length_float Real.sqrt = Float_value.infinite false := by
    rw [Vector.length_float, hsq]
    simp [Float_value.sqrt]
  refine ⟨hsq, hlen, ?_⟩
  rw [Vector.normalize_float, hlen, Vector.square_of_length_float_three]
  simp [Vector.div_assign_float, Float_value.div, Float_value.mul, Float_value.add,
    Float_format.round_zero]

/-- C13 (amended) applied to the vector (3, 4, 0), whose `square_of_length()` is 25. -/
theorem normalize_unit_witness :
    ((Vector.mk ![Float_value.finite (3 : ℝ), Float_value.finite 4,
        Float_value.finite 0]).square_of_length_float = Float_value.finite 25 ∧
      (1 : ℝ) / 2 ^ 126 ≤ 25) ∧
    ∃ (len : ℝ) (y : Fin 3 → ℝ) (t : ℝ),
      (Vector.mk ![Float_value.finite (3 : ℝ), Float_value.finite 4,
        Float_value.finite 0]).length_float Real.sqrt = Float_value.finite len ∧
      len ≠ 0 ∧
      (Vector.mk ![Float_value.finite (3 : ℝ), Float_value.finite 4,
        Float_value.finite 0]).normalize_float Real.sqrt =
        (Vector.mk fun i => Float_value.finite (y i)) ∧
      (∀ i, ((Vector.mk ![Float_value.finite (3 : ℝ), Float_value.finite 4,
        Float_value.finite 0]).vector i).div float_format (Float_value.finite len) =
          Float_value.finite (y i)) ∧
      ((Vector.mk ![Float_value.finite (3 : ℝ), Float_value.finite 4,
        Float_value.finite 0]).normalize_float Real.sqrt).square_of_length_float =
        Float_value.finite t ∧
      |t - 1| ≤ 0.0001 := by
  have h9 : float_format.round (9 : ℝ) = Float_value.finite 9 := by
    simpa using float_round_int 9 (by norm_num)
  have h16 : float_format.round (16 : ℝ) = Float_value.finite 16 := by
    simpa using float_round_int 16 (by norm_num)
  have h25 : float_format.round (25 : ℝ) = Float_value.finite 25 := by
    simpa using float_round_int 25 (by norm_num)
  have hA : (Vector.mk ![Float_value.finite (3 : ℝ), Float_value.finite 4,
      Float_value.finite 0]).square_of_length_float = Float_value.finite 25 := by
    rw [Vector.square_of_length_float_three]
    norm_num [Float_value.mul_finite, Float_value.add_finite, h9, h16, h25, float_round_0]
  exact ⟨⟨hA, by norm_num⟩, normalize_unit Real.sqrt real_sqrt_spec _ 25 hA (by norm_num)⟩

/-! ## get_ray_direction in float arithmetic -/

theorem Vector.smul_float_three [FloorRing F] (s a b c : Float_value F) :
    Vector.smul_float s ⟨![a, b, c]⟩ =
      ⟨![a.mul float_format s, b.mul float_format s, c.mul float_format s]⟩ := by
  ext i
  fin_cases i <;> rfl

theorem Vector.sub_float_three [FloorRing F] (a b c a' b' c' : Float_value F) :
    (Vector.mk ![a, b, c]).sub_float ⟨![a', b', c']⟩ =
      ⟨![a.sub float_format a', b.sub float_format b', c.sub float_format c']⟩ := by
  ext i
  fin_cases i <;> rfl

theorem Vector.add_float_three [FloorRing F] (a b c a' b' c' : Float_value F) :
    (Vector.mk ![a, b, c]).add_float ⟨![a', b', c']⟩ =
      ⟨![a.add float_format a', b.add float_format b', c.add float_format c']⟩ := by
  ext i
  fin_cases i <;> rfl

theorem Vector.div_assign_float_three [FloorRing F] (a b c s : Float_value F) :
    (Vector.mk ![a, b, c]).div_assign_float s =
      ⟨![a.div float_format s, b.div float_format s, c.div float_format s]⟩ := by
  ext i
  fin_cases i <;> rfl

theorem float_quotient_nonneg [FloorRing F] (image_width : Int) (aspect_ratio q : F) (hw : 1 ≤ image_width)
    (ha : 0 < aspect_ratio)
    (hq : (float_format.of_int image_width).div float_format (Float_value.finite aspect_ratio) =
      Float_value.finite q) : 0 ≤ q := by
  have hwF : (0 : F) ≤ (image_width : F) := by exact_mod_cast (by omega : (0 : Int) ≤ image_width)
  unfold Float_format.of_int at hq
  cases hr : float_format.round (image_width : F) with
  | finite w =>
    rw [hr, Float_value.div_finite _ _ _ ha.ne'] at hq
    exact float_format.round_nonneg _ _ (div_nonneg (float_format.round_nonneg _ _ hwF hr) ha.le) hq
  | infinite s =>
    rw [hr] at hq
    simp [Float_value.div] at hq
  | nan =>
    rw [hr] at hq
    simp [Float_value.div] at hq

theorem to_int_nonneg [FloorRing F] (q : F) (h0 : 0 ≤ q) (h31 : q < 2 ^ 31) :
    (Float_value.finite q).to_int = some ⌊q⌋ := by
  have h1 : (0 : Int) ≤ ⌊q⌋ := Int.floor_nonneg.mpr h0
  have h2 : ⌊q⌋ < 2 ^ 31 := by
    rw [Int.floor_lt]
    exact_mod_cast h31
  simp only [Float_value.to_int, h0, if_true]
  rw [if_pos ⟨by omega, h2⟩]

/-- The value of `1.0f / n` for an `int` n from 1 to 2^31 - 1. -/
theorem float_int_reciprocal [FloorRing F] (n : Int) (h1 : 1 ≤ n) (h31 : n < 2 ^ 31) :
    ∃ z, (Float_value.finite 1.0).div float_format (float_format.of_int n) =
        Float_value.finite z ∧
      |z - 1 / (n : F)| ≤ 4 / 2 ^ 24 * |1 / (n : F)| := by
  have hn1 : (1 : F) ≤ (n : F) := by exact_mod_cast h1
  have hn31 : (n : F) ≤ 2 ^ 31 := by exact_mod_cast h31.le
  have habs : |(n : F)| = (n : F) := abs_of_pos (by linarith only [hn1])
  obtain ⟨y, ey, b⟩ := float_of_int_error (F := F) n (by
    rw [abs_of_pos (by omega)]
    omega)
  obtain ⟨hy0, z, ez, d⟩ := float_inv_error y (n : F) (2 / 2 ^ 24) b (by norm_num) (by norm_num)
    (by
      rw [habs]
      norm_num at hn1 ⊢
      linarith only [hn1])
    (by
      rw [habs]
      norm_num at hn31 ⊢
      linarith only [hn31])
  refine ⟨z, ?_, le_trans d ?_⟩
  · have e1 : (1.0 : F) = 1 := by norm_num
    rw [ey, Float_value.div_finite _ _ _ hy0, e1, ez]
  · apply mul_le_mul_of_nonneg_right _ (abs_nonneg _)
    norm_num

/-- A component of `static_cast<float>(u) * (1.0f / n * viewport)`: `a` approximates the
component `a0` of the viewport vector. -/
theorem float_pixel_step [FloorRing F] (a a0 : F) (n u : Int) (h1 : 1 ≤ n) (h31 : n < 2 ^ 31)
    (hu : |u| ≤ 2 ^ 31) (ha : |a - a0| ≤ 2 / 2 ^ 24 * |a0|) (hlo : 1 / 2 ^ 31 ≤ |a0|)
    (hhi : |a0| ≤ 2 ^ 32) :
    ∃ s, ((Float_value.finite a).mul float_format
        ((Float_value.finite 1.0).div float_format (float_format.of_int n))).mul float_format
        (float_format.of_int u) = Float_value.finite s ∧
      |s - a0 * (1 / (n : F)) * (u : F)| ≤
        14 / 2 ^ 24 * |a0 * (1 / (n : F)) * (u : F)| + 1 / 2 ^ 150 := by
  have hn1 : (1 : F) ≤ (n : F) := by exact_mod_cast h1
  have hn31 : (n : F) ≤ 2 ^ 31 := by exact_mod_cast h31.le
  have hnpos : (0 : F) < (n : F) := by linarith only [hn1]
  have hu31 : |(u : F)| ≤ 2 ^ 31 := by exact_mod_cast hu
  obtain ⟨z, ez, bz⟩ := float_int_reciprocal (F := F) n h1 h31
  obtain ⟨y, ey, by_⟩ := float_of_int_error (F := F) u hu
  have hI : |1 / (n : F)| = 1 / (n : F) := abs_of_pos (by positivity)
  have hIhi : 1 / (n : F) ≤ 1 := by
    rw [div_le_one hnpos]
    exact hn1
  have hIlo : 1 / 2 ^ 31 ≤ 1 / (n : F) := by
    rw [div_le_div_iff₀ (by positivity) hnpos]
    linarith only [hn31]
  have hPabs : |a0 * (1 / (n : F))| = |a0| * (1 / (n : F)) := by rw [abs_mul, hI]
  have hPhi : |a0 * (1 / (n : F))| ≤ 2 ^ 32 := by
    rw [hPabs]
    calc |a0| * (1 / (n : F)) ≤ 2 ^ 32 * 1 := mul_le_mul hhi hIhi (by positivity) (by positivity)
      _ = 2 ^ 32 := by ring
  have hPlo : 1 / 2 ^ 62 ≤ |a0 * (1 / (n : F))| := by
    rw [hPabs]
    calc (1 : F) / 2 ^ 62 = 1 / 2 ^ 31 * (1 / 2 ^ 31) := by norm_num
      _ ≤ |a0| * (1 / (n : F)) := mul_le_mul hlo hIlo (by positivity) (abs_nonneg _)
  obtain ⟨d, ed, bd⟩ := float_mul_error a z a0 (1 / (n : F)) (2 / 2 ^ 24) (4 / 2 ^ 24) ha bz
    (by norm_num) (by norm_num) (by norm_num) (by norm_num) (by
      norm_num at hPhi ⊢
      linarith only [hPhi])
  have bd' : |d - a0 * (1 / (n : F))| ≤ 8 / 2 ^ 24 * |a0 * (1 / (n : F))| := by
    refine le_trans bd ?_
    norm_num at hPlo ⊢
    linarith only [hPlo]
  have hQ : |a0 * (1 / (n : F)) * (u : F)| ≤ 2 ^ 126 := by
    rw [abs_mul]
    calc |a0 * (1 / (n : F))| * |(u : F)| ≤ 2 ^ 32 * 2 ^ 31 :=
          mul_le_mul hPhi hu31 (abs_nonneg _) (by positivity)
      _ ≤ 2 ^ 126 := by norm_num
  obtain ⟨s, es, bs⟩ := float_mul_error d y (a0 * (1 / (n : F))) (u : F) (8 / 2 ^ 24) (2 / 2 ^ 24)
    bd' by_ (by norm_num) (by norm_num) (by norm_num) (by norm_num) hQ
  refine ⟨s, ?_, le_trans bs ?_⟩
  · rw [ez, Float_value.mul_finite, ed, ey, Float_value.mul_finite, es]
  · have := abs_nonneg (a0 * (1 / (n : F)) * (u : F))
    generalize |a0 * (1 / (n : F)) * (u : F)| = Q at this ⊢
    norm_num
    linarith only [this]

/-- The value of `viewport_width`: `2.0 * (W / H)` computed in `double` and converted to
`float`. -/
theorem float_viewport_width [FloorRing F] (W H : Int) (hW : 1 ≤ W) (hW31 : W < 2 ^ 31)
    (hH : 1 ≤ H) (hH31 : H < 2 ^ 31) :
    ∃ vw, ((Float_value.finite 2.0).mul double_format
        ((double_format.of_int W).div double_format (double_format.of_int H))).convert
        float_format = Float_value.finite vw ∧
      |vw - 2 * ((W : F) / (H : F))| ≤ 2 / 2 ^ 24 * |2 * ((W : F) / (H : F))| := by
  have hW1 : (1 : F) ≤ (W : F) := by exact_mod_cast hW
  have hW2 : (W : F) ≤ 2 ^ 31 := by exact_mod_cast hW31.le
  have hH1 : (1 : F) ≤ (H : F) := by exact_mod_cast hH
  have hH2 : (H : F) ≤ 2 ^ 31 := by exact_mod_cast hH31.le
  have hHpos : (0 : F) < (H : F) := by linarith only [hH1]
  have hHne : (H : F) ≠ 0 := ne_of_gt hHpos
  have hρlo : 1 / 2 ^ 31 ≤ (W : F) / (H : F) := by
    rw [div_le_div_iff₀ (by positivity) hHpos]
    linarith only [hW1, hH2]
  have hρhi : (W : F) / (H : F) ≤ 2 ^ 31 := by
    rw [div_le_iff₀ hHpos]
    have := mul_le_mul_of_nonneg_left hH1 (by positivity : (0 : F) ≤ 2 ^ 31)
    linarith only [this, hW2]
  generalize hρ : (W : F) / (H : F) = ρ at hρlo hρhi ⊢
  have hρ0 : 0 ≤ ρ := le_trans (by positivity) hρlo
  obtain ⟨d1, e1, b1⟩ := double_round_error ρ (by
    rw [abs_of_nonneg hρ0]
    norm_num at hρhi ⊢
    linarith only [hρhi])
  rw [abs_of_nonneg hρ0, abs_le] at b1
  obtain ⟨d2, e2, b2⟩ := double_round_error (2 * d1) (by
    rw [abs_le]
    norm_num at b1 hρhi ⊢
    constructor
    · linarith only [b1.1, hρhi, hρ0]
    · linarith only [b1.2, hρhi, hρ0])
  have hd1 : 0 ≤ d1 := by
    norm_num at b1 hρlo ⊢
    linarith only [b1.1, hρlo]
  rw [abs_of_nonneg (by linarith only [hd1] : 0 ≤ 2 * d1), abs_le] at b2
  have hd2 : 0 ≤ d2 := by
    norm_num at b1 b2 hρlo ⊢
    linarith only [b1.1, b2.1, hρlo]
  obtain ⟨vw, e3, b3, _⟩ := float_round_error d2 (by
    rw [abs_of_nonneg hd2]
    norm_num at b1 b2 hρhi ⊢
    linarith only [b1.2, b2.2, hρhi])
  rw [abs_of_nonneg hd2, abs_le] at b3
  refine ⟨vw, ?_, ?_⟩
  · have e0 : (2.0 : F) = 2 := by norm_num
    rw [double_of_int W (by rw [abs_of_pos (by omega)]; omega),
      double_of_int H (by rw [abs_of_pos (by omega)]; omega),
      Float_value.div_finite _ _ _ hHne, hρ, e1, Float_value.mul_finite, e0, e2]
    exact e3
  · rw [abs_of_nonneg (by linarith only [hρ0] : 0 ≤ 2 * ρ), abs_le]
    norm_num at b1 b2 b3 hρlo ⊢
    constructor
    · linarith only [b1.1, b2.1, b3.1, hρlo]
    · linarith only [b1.2, b2.2, b3.2, hρlo]

/-- The operands that `get_ray_direction` combines with `cam_center`, for an image width
from 1 to 2^31 - 1 and an aspect ratio whose `float` quotient `q` is below 2^31. -/
theorem viewport_float_values [FloorRing F] (pos_v pos_u image_width image_height : Int)
    (aspect_ratio focal_length q : F)
    (hw : 1 ≤ image_width) (hw31 : image_width < 2 ^ 31)
    (hu : |pos_u| ≤ 2 ^ 31) (hv : |pos_v| ≤ 2 ^ 31) (ha : 0 < aspect_ratio)
    (hq : (float_format.of_int image_width).div float_format (Float_value.finite aspect_ratio) =
      Float_value.finite q)
    (hq31 : q < 2 ^ 31) :
    ∃ half step_u step_v : F,
      viewport_float pos_v pos_u image_width image_height (Float_value.finite aspect_ratio)
          (Float_value.finite focal_length) =
        some { focal := ⟨![Float_value.finite 0, Float_value.finite 0,
                 Float_value.finite focal_length]⟩
               half_u := ⟨![Float_value.finite half, Float_value.finite 0, Float_value.finite 0]⟩
               half_v := ⟨![Float_value.finite 0, Float_value.finite (-1), Float_value.finite 0]⟩
               step_u := ⟨![Float_value.finite step_u, Float_value.finite 0,
                 Float_value.finite 0]⟩
               step_v := ⟨![Float_value.finite 0, Float_value.finite step_v,
                 Float_value.finite 0]⟩ } ∧
      |half - (image_width : F) / ((max 1 ⌊q⌋ : Int) : F)| ≤
        4 / 2 ^ 24 * ((image_width : F) / ((max 1 ⌊q⌋ : Int) : F)) ∧
      |step_u - 2 * (pos_u : F) / ((max 1 ⌊q⌋ : Int) : F)| ≤
        14 / 2 ^ 24 * |2 * (pos_u : F) / ((max 1 ⌊q⌋ : Int) : F)| + 1 / 2 ^ 150 ∧
      |step_v - -(2 * (pos_v : F) / ((max 1 ⌊q⌋ : Int) : F))| ≤
        14 / 2 ^ 24 * |2 * (pos_v : F) / ((max 1 ⌊q⌋ : Int) : F)| + 1 / 2 ^ 150 := by
  have hq0 := float_quotient_nonneg image_width aspect_ratio q hw ha hq
  have hint := to_int_nonneg q hq0 hq31
  have hH : (if ⌊q⌋ < 1 then 1 else ⌊q⌋) = max 1 ⌊q⌋ := by
    split_ifs with h
    · rw [max_eq_left (by omega)]
    · rw [max_eq_right (by omega)]
  have hfl : ⌊q⌋ < 2 ^ 31 := by
    rw [Int.floor_lt]
    exact_mod_cast hq31
  have hH1 : (1 : Int) ≤ max 1 ⌊q⌋ := le_max_left _ _
  have hH31 : max 1 ⌊q⌋ < 2 ^ 31 := max_lt (by norm_num) hfl
  generalize max 1 ⌊q⌋ = H at hH hH1 hH31 ⊢
  unfold viewport_float
  rw [hq, hint]
  simp only [Option.map_some', hH, Vector.smul_float_three]
  obtain ⟨vw, evw, bvw⟩ := float_viewport_width (F := F) image_width H hw hw31 hH1 hH31
  rw [evw]
  have hW1 : (1 : F) ≤ (image_width : F) := by exact_mod_cast hw
  have hW2 : (image_width : F) ≤ 2 ^ 31 := by exact_mod_cast hw31.le
  have hHF1 : (1 : F) ≤ (H : F) := by exact_mod_cast hH1
  have hHF2 : (H : F) ≤ 2 ^ 31 := by exact_mod_cast hH31.le
  have hWpos : (0 : F) < (image_width : F) := by linarith only [hW1]
  have hHpos : (0 : F) < (H : F) := by linarith only [hHF1]
  have hρlo : 1 / 2 ^ 31 ≤ (image_width : F) / (H : F) := by
    rw [div_le_div_iff₀ (by positivity) hHpos]
    linarith only [hW1, hHF2]
  have hρhi : (image_width : F) / (H : F) ≤ 2 ^ 31 := by
    rw [div_le_iff₀ hHpos]
    have := mul_le_mul_of_nonneg_left hHF1 (by positivity : (0 : F) ≤ 2 ^ 31)
    linarith only [this, hW2]
  have hρ0 : 0 ≤ (image_width : F) / (H : F) := le_trans (by positivity) hρlo
  have habs2 : |2 * ((image_width : F) / (H : F))| = 2 * ((image_width : F) / (H : F)) :=
    abs_of_nonneg (by linarith only [hρ0])
  -- the x components
  obtain ⟨su, esu, bsu⟩ := float_pixel_step vw (2 * ((image_width : F) / (H : F))) image_width
    pos_u hw hw31 hu bvw (by
      rw [habs2]
      linarith only [hρlo]) (by
      rw [habs2]
      norm_num at hρhi ⊢
      linarith only [hρhi])
  obtain ⟨half, ehalf, bhalf⟩ := float_mul_error vw 0.5 (2 * ((image_width : F) / (H : F))) 0.5
    (2 / 2 ^ 24) 0 bvw (by simp) (by norm_num) le_rfl (by norm_num) (by norm_num) (by
      have e : 2 * ((image_width : F) / (H : F)) * 0.5 = (image_width : F) / (H : F) := by
        norm_num
        ring
      rw [e, abs_of_nonneg hρ0]
      norm_num at hρhi ⊢
      linarith only [hρhi])
  -- the y components
  have eneg : (Float_value.finite (2.0 : F)).neg = Float_value.finite (-2) := by
    simp only [Float_value.neg]
    norm_num
  have ehv : (Float_value.finite (-2 : F)).mul float_format (Float_value.finite 0.5) =
      Float_value.finite (-1) := by
    rw [Float_value.mul_finite]
    have : (-2 : F) * 0.5 = -1 := by norm_num
    rw [this, float_round_neg_one]
  obtain ⟨sv, esv, bsv⟩ := float_pixel_step (-2 : F) (-2) H pos_v hH1 hH31 hv (by simp)
    (by norm_num) (by norm_num)
  -- the components that are zero
  obtain ⟨iW, eiW, _⟩ := float_int_reciprocal (F := F) image_width hw hw31
  obtain ⟨iH, eiH, _⟩ := float_int_reciprocal (F := F) H hH1 hH31
  obtain ⟨fu, efu, _⟩ := float_of_int_error (F := F) pos_u hu
  obtain ⟨fv, efv, _⟩ := float_of_int_error (F := F) pos_v hv
  refine ⟨half, su, sv, ?_, ?_, ?_, ?_⟩
  · rw [esu, eneg, ehv, esv, eiW, eiH, efu, efv]
    simp only [Float_value.mul_finite, zero_mul, Float_format.round_zero, ehalf]
  · have e : 2 * ((image_width : F) / (H : F)) * 0.5 = (image_width : F) / (H : F) := by
      norm_num
      ring
    rw [e, abs_of_nonneg hρ0] at bhalf
    refine le_trans bhalf ?_
    norm_num at hρlo ⊢
    linarith only [hρlo]
  · have e : 2 * ((image_width : F) / (H : F)) * (1 / (image_width : F)) * (pos_u : F) =
        2 * (pos_u : F) / (H : F) := by
      field_simp
      ring
    rw [e] at bsu
    exact bsu
  · have e : -2 * (1 / (H : F)) * (pos_v : F) = -(2 * (pos_v : F) / (H : F)) := by
      field_simp
    rw [e, abs_neg] at bsv
    exact bsv

/-- The six roundings that lead from a component `c` of `cam_center` to the component of
`ray_direction`: `c - a1 - a2 - a3 + a4 + a5 - c`. -/
theorem float_camera_chain [FloorRing F] (c a1 a2 a3 a4 a5 : F)
    (hM : |c| + |a1| + |a2| + |a3| + |a4| + |a5| ≤ 2 ^ 126) :
    ∃ r, ((((((Float_value.finite c).sub float_format (Float_value.finite a1)).sub float_format
        (Float_value.finite a2)).sub float_format (Float_value.finite a3)).add float_format
        (Float_value.finite a4)).add float_format (Float_value.finite a5)).sub float_format
        (Float_value.finite c) = Float_value.finite r ∧
      |r - (a4 + a5 - a1 - a2 - a3)| ≤
        7 / 2 ^ 24 * (|c| + |a1| + |a2| + |a3| + |a4| + |a5|) + 7 / 2 ^ 150 := by
  have c1 := neg_abs_le c
  have c2 := le_abs_self c
  have b11 := neg_abs_le a1
  have b12 := le_abs_self a1
  have b21 := neg_abs_le a2
  have b22 := le_abs_self a2
  have b31 := neg_abs_le a3
  have b32 := le_abs_self a3
  have b41 := neg_abs_le a4
  have b42 := le_abs_self a4
  have b51 := neg_abs_le a5
  have b52 := le_abs_self a5
  have n0 := abs_nonneg c
  have n1 := abs_nonneg a1
  have n2 := abs_nonneg a2
  have n3 := abs_nonneg a3
  have n4 := abs_nonneg a4
  have n5 := abs_nonneg a5
  generalize hMdef : |c| + |a1| + |a2| + |a3| + |a4| + |a5| = M at hM ⊢
  have hM0 : 0 ≤ M := by
    rw [← hMdef]
    linarith only [n0, n1, n2, n3, n4, n5]
  have hu0 : 0 ≤ M / 2 ^ 24 + 1 / 2 ^ 150 := by positivity
  obtain ⟨s1, e1, d1⟩ := float_round_stage (c - a1) (c - a1) M 0 hM0 hM (by norm_num)
    (abs_le.mpr ⟨by linarith only [hMdef, c1, b12, n2, n3, n4, n5],
      by linarith only [hMdef, c2, b11, n2, n3, n4, n5]⟩)
    (by simp)
  obtain ⟨s2, e2, d2⟩ := float_round_stage (s1 - a2) (c - a1 - a2)
    M (0 + 1001 / 1000)
    hM0 hM (by norm_num)
    (abs_le.mpr ⟨by linarith only [hMdef, c1, b12, b22, n3, n4, n5],
      by linarith only [hMdef, c2, b11, b21, n3, n4, n5]⟩)
    (by
      have : s1 - a2 - (c - a1 - a2) = s1 - (c - a1) := by ring
      rw [this]
      exact d1)
  obtain ⟨s3, e3, d3⟩ := float_round_stage (s2 - a3) (c - a1 - a2 - a3)
    M ((0 + 1001 / 1000) + 1001 / 1000)
    hM0 hM (by norm_num)
    (abs_le.mpr ⟨by linarith only [hMdef, c1, b12, b22, b32, n4, n5],
      by linarith only [hMdef, c2, b11, b21, b31, n4, n5]⟩)
    (by
      have : s2 - a3 - (c - a1 - a2 - a3) = s2 - (c - a1 - a2) := by ring
      rw [this]
      exact d2)
  obtain ⟨s4, e4, d4⟩ := float_round_stage (s3 + a4) (c - a1 - a2 - a3 + a4)
    M (((0 + 1001 / 1000) + 1001 / 1000) + 1001 / 1000)
    hM0 hM
    (by norm_num)
    (abs_le.mpr ⟨by linarith only [hMdef, c1, b12, b22, b32, b41, n5],
      by linarith only [hMdef, c2, b11, b21, b31, b42, n5]⟩)
    (by
      have : s3 + a4 - (c - a1 - a2 - a3 + a4) = s3 - (c - a1 - a2 - a3) := by ring
      rw [this]
      exact d3)
  obtain ⟨s5, e5, d5⟩ := float_round_stage (s4 + a5) (c - a1 - a2 - a3 + a4 + a5)
    M ((((0 + 1001 / 1000) + 1001 / 1000) + 1001 / 1000) + 1001 / 1000)
    hM0 hM
    (by norm_num)
    (abs_le.mpr ⟨by linarith only [hMdef, c1, b12, b22, b32, b41, b51],
      by linarith only [hMdef, c2, b11, b21, b31, b42, b52]⟩)
    (by
      have : s4 + a5 - (c - a1 - a2 - a3 + a4 + a5) = s4 - (c - a1 - a2 - a3 + a4) := by ring
      rw [this]
      exact d4)
  obtain ⟨r, e6, d6⟩ := float_round_stage (s5 - c) (a4 + a5 - a1 - a2 - a3)
    M (((((0 + 1001 / 1000) + 1001 / 1000) + 1001 / 1000) + 1001 / 1000) + 1001 / 1000)
    hM0 hM
    (by norm_num)
    (abs_le.mpr ⟨by linarith only [hMdef, n0, b12, b22, b32, b41, b51],
      by linarith only [hMdef, n0, b11, b21, b31, b42, b52]⟩)
    (by
      have : s5 - c - (a4 + a5 - a1 - a2 - a3) = s5 - (c - a1 - a2 - a3 + a4 + a5) := by ring
      rw [this]
      exact d5)
  refine ⟨r, ?_, le_trans d6 ?_⟩
  · rw [Float_value.sub_finite, e1, Float_value.sub_finite, e2, Float_value.sub_finite, e3,
      Float_value.add_finite, e4, Float_value.add_finite, e5, Float_value.sub_finite, e6]
  · norm_num
    linarith only [hM0]

/-- The value of `ray_direction = pixel_position - cam_center` for finite operands: in
every component six roundings, whose errors are proportional to the magnitudes of the
operands, `cam_center` included. -/
theorem float_ray_direction [FloorRing F] (c : Fin 3 → F) (f half su sv : F)
    (hx : |c 0| + |half| + |su| ≤ 2 ^ 126) (hy : |c 1| + 1 + |sv| ≤ 2 ^ 126)
    (hz : |c 2| + |f| ≤ 2 ^ 126) :
    ∃ r : Fin 3 → F,
      (pixel_position_float
        { focal := ⟨![Float_value.finite 0, Float_value.finite 0, Float_value.finite f]⟩
          half_u := ⟨![Float_value.finite half, Float_value.finite 0, Float_value.finite 0]⟩
          half_v := ⟨![Float_value.finite 0, Float_value.finite (-1), Float_value.finite 0]⟩
          step_u := ⟨![Float_value.finite su, Float_value.finite 0, Float_value.finite 0]⟩
          step_v := ⟨![Float_value.finite 0, Float_value.finite sv, Float_value.finite 0]⟩ }
        ⟨fun i => Float_value.finite (c i)⟩).sub_float ⟨fun i => Float_value.finite (c i)⟩ =
        ⟨fun i => Float_value.finite (r i)⟩ ∧
      |r 0 - (su - half)| ≤ 7 / 2 ^ 24 * (|c 0| + |half| + |su|) + 7 / 2 ^ 150 ∧
      |r 1 - (sv + 1)| ≤ 7 / 2 ^ 24 * (|c 1| + 1 + |sv|) + 7 / 2 ^ 150 ∧
      |r 2 - -f| ≤ 7 / 2 ^ 24 * (|c 2| + |f|) + 7 / 2 ^ 150 := by
  obtain ⟨r0, e0, b0⟩ := float_camera_chain (c 0) 0 half 0 su 0 (by
    simp only [abs_zero, add_zero]
    exact hx)
  obtain ⟨r1, e1, b1⟩ := float_camera_chain (c 1) 0 0 (-1) 0 sv (by
    simp only [abs_zero, add_zero, abs_neg, abs_one, zero_add]
    exact hy)
  obtain ⟨r2, e2, b2⟩ := float_camera_chain (c 2) f 0 0 0 0 (by
    simp only [abs_zero, add_zero]
    exact hz)
  refine ⟨![r0, r1, r2], ?_, ?_, ?_, ?_⟩
  · ext i
    fin_cases i
    · exact e0
    · exact e1
    · exact e2
  · have e : su + 0 - 0 - half - 0 = su - half := by ring
    rw [e] at b0
    simp only [abs_zero, add_zero] at b0
    exact b0
  · have e : 0 + sv - 0 - 0 - -1 = sv + 1 := by ring
    rw [e] at b1
    simp only [abs_zero, add_zero, abs_neg, abs_one, zero_add] at b1
    exact b1
  · have e : (0 : F) + 0 - f - 0 - 0 = -f := by ring
    rw [e] at b2
    simp only [abs_zero, add_zero] at b2
    exact b2

/-- The value of `ray_direction` in `get_ray_direction`, before it is normalized: finite,
and within rounding of `((2 pos_u - W) / H, (H - 2 pos_v) / H, -f)`, `H = max(1, floor(q))`,
the rounding errors being proportional to the magnitudes of the terms, `cam_center`
included. -/
theorem float_ray_direction_spec [FloorRing F] (pos_v pos_u image_width image_height : Int)
    (aspect_ratio focal_length q : F) (c : Fin 3 → F)
    (hw : 1 ≤ image_width) (hw31 : image_width < 2 ^ 31)
    (hu : |pos_u| ≤ 2 ^ 31) (hv : |pos_v| ≤ 2 ^ 31) (ha : 0 < aspect_ratio)
    (hq : (float_format.of_int image_width).div float_format (Float_value.finite aspect_ratio) =
      Float_value.finite q)
    (hq31 : q < 2 ^ 31) (hf : |focal_length| ≤ 2 ^ 125) (hc : ∀ i, |c i| ≤ 2 ^ 125) :
    ∃ (vp : Viewport F) (r : Fin 3 → F),
      viewport_float pos_v pos_u image_width image_height (Float_value.finite aspect_ratio)
          (Float_value.finite focal_length) = some vp ∧
      (pixel_position_float vp ⟨fun i => Float_value.finite (c i)⟩).sub_float
          ⟨fun i => Float_value.finite (c i)⟩ = ⟨fun i => Float_value.finite (r i)⟩ ∧
      |r 0 - (2 * (pos_u : F) - (image_width : F)) / ((max 1 ⌊q⌋ : Int) : F)| ≤
        (|c 0| + ((image_width : F) + 2 * |(pos_u : F)|) / ((max 1 ⌊q⌋ : Int) : F)) / 2 ^ 19 +
          1 / 2 ^ 146 ∧
      |r 1 - (((max 1 ⌊q⌋ : Int) : F) - 2 * (pos_v : F)) / ((max 1 ⌊q⌋ : Int) : F)| ≤
        (|c 1| + (((max 1 ⌊q⌋ : Int) : F) + 2 * |(pos_v : F)|) / ((max 1 ⌊q⌋ : Int) : F)) /
          2 ^ 19 + 1 / 2 ^ 146 ∧
      |r 2 - -focal_length| ≤ (|c 2| + |focal_length|) / 2 ^ 19 + 1 / 2 ^ 146 := by
  obtain ⟨half, su, sv, evp, bh, bu, bv⟩ := viewport_float_values pos_v pos_u image_width
    image_height aspect_ratio focal_length q hw hw31 hu hv ha hq hq31
  have hH1 : (1 : Int) ≤ max 1 ⌊q⌋ := le_max_left _ _
  generalize max 1 ⌊q⌋ = H at hH1 bh bu bv ⊢
  have hHF1 : (1 : F) ≤ (H : F) := by exact_mod_cast hH1
  have hHpos : (0 : F) < (H : F) := by linarith only [hHF1]
  have hHne : (H : F) ≠ 0 := ne_of_gt hHpos
  have hW0 : (0 : F) ≤ (image_width : F) := by exact_mod_cast (by omega : (0 : Int) ≤ image_width)
  have hW2 : (image_width : F) ≤ 2 ^ 31 := by exact_mod_cast hw31.le
  have hu31 : |(pos_u : F)| ≤ 2 ^ 31 := by exact_mod_cast hu
  have hv31 : |(pos_v : F)| ≤ 2 ^ 31 := by exact_mod_cast hv
  have hρ0 : 0 ≤ (image_width : F) / (H : F) := div_nonneg hW0 hHpos.le
  have hρhi : (image_width : F) / (H : F) ≤ 2 ^ 31 := by
    rw [div_le_iff₀ hHpos]
    have := mul_le_mul_of_nonneg_left hHF1 (by positivity : (0 : F) ≤ 2 ^ 31)
    linarith only [this, hW2]
  have hBu : |2 * (pos_u : F) / (H : F)| = 2 * |(pos_u : F)| / (H : F) := by
    rw [abs_div, abs_mul, abs_of_pos hHpos, abs_of_pos (by norm_num : (0 : F) < 2)]
  have hBv : |2 * (pos_v : F) / (H : F)| = 2 * |(pos_v : F)| / (H : F) := by
    rw [abs_div, abs_mul, abs_of_pos hHpos, abs_of_pos (by norm_num : (0 : F) < 2)]
  have hBu0 : 0 ≤ 2 * |(pos_u : F)| / (H : F) := by positivity
  have hBv0 : 0 ≤ 2 * |(pos_v : F)| / (H : F) := by positivity
  have hBuhi : 2 * |(pos_u : F)| / (H : F) ≤ 2 ^ 32 := by
    rw [div_le_iff₀ hHpos]
    have := mul_le_mul_of_nonneg_left hHF1 (by positivity : (0 : F) ≤ 2 ^ 32)
    norm_num at this hu31 ⊢
    linarith only [this, hu31]
  have hBvhi : 2 * |(pos_v : F)| / (H : F) ≤ 2 ^ 32 := by
    rw [div_le_iff₀ hHpos]
    have := mul_le_mul_of_nonneg_left hHF1 (by positivity : (0 : F) ≤ 2 ^ 32)
    norm_num at this hv31 ⊢
    linarith only [this, hv31]
  have bu2 := bu
  have bv2 := bv
  rw [hBu] at bu2
  rw [hBv] at bv2
  clear bu bv
  have etx : (2 * (pos_u : F) - (image_width : F)) / (H : F) =
      2 * (pos_u : F) / (H : F) - (image_width : F) / (H : F) := by ring
  have emx : ((image_width : F) + 2 * |(pos_u : F)|) / (H : F) =
      (image_width : F) / (H : F) + 2 * |(pos_u : F)| / (H : F) := by ring
  have ety : ((H : F) - 2 * (pos_v : F)) / (H : F) = 1 - 2 * (pos_v : F) / (H : F) := by
    field_simp
  have emy : ((H : F) + 2 * |(pos_v : F)|) / (H : F) = 1 + 2 * |(pos_v : F)| / (H : F) := by
    field_simp
  rw [etx, emx, ety, emy]
  generalize (image_width : F) / (H : F) = ρ at bh hρ0 hρhi ⊢
  generalize 2 * (pos_u : F) / (H : F) = tu at bu2 hBu ⊢
  generalize 2 * |(pos_u : F)| / (H : F) = Bu at bu2 hBu hBu0 hBuhi ⊢
  generalize 2 * (pos_v : F) / (H : F) = tv at bv2 hBv ⊢
  generalize 2 * |(pos_v : F)| / (H : F) = Bv at bv2 hBv hBv0 hBvhi ⊢
  have hc0 := hc 0
  have hc1 := hc 1
  have hc2 := hc 2
  have n0 := abs_nonneg (c 0)
  have n1 := abs_nonneg (c 1)
  have n2 := abs_nonneg (c 2)
  have nf := abs_nonneg focal_length
  have bh' := abs_le.mp bh
  have hhalf : |half| ≤ ρ * (1 + 4 / 2 ^ 24) := by
    rw [abs_le]
    constructor
    · linarith only [bh'.1, hρ0]
    · linarith only [bh'.2]
  have hsu : |su| ≤ Bu + (14 / 2 ^ 24 * Bu + 1 / 2 ^ 150) := by
    have h := abs_add (su - tu) tu
    rw [sub_add_cancel, hBu] at h
    linarith only [h, bu2]
  have hsv : |sv| ≤ Bv + (14 / 2 ^ 24 * Bv + 1 / 2 ^ 150) := by
    have h := abs_add (sv - -tv) (-tv)
    rw [sub_add_cancel, abs_neg, hBv] at h
    linarith only [h, bv2]
  obtain ⟨r, er, b0, b1, b2⟩ := float_ray_direction c focal_length half su sv
    (by
      norm_num at hc0 hhalf hsu hρhi hBuhi ⊢
      linarith only [hc0, hhalf, hsu, hρhi, hBuhi])
    (by
      norm_num at hc1 hsv hBvhi ⊢
      linarith only [hc1, hsv, hBvhi])
    (by
      norm_num at hc2 hf ⊢
      linarith only [hc2, hf])
  refine ⟨_, r, evp, er, ?_, ?_, ?_⟩
  · have h1 := abs_add (r 0 - (su - half)) ((su - tu) - (half - ρ))
    have h2 := abs_sub (su - tu) (half - ρ)
    have e : r 0 - (su - half) + ((su - tu) - (half - ρ)) = r 0 - (tu - ρ) := by ring
    rw [e] at h1
    norm_num at h1 h2 b0 bh bu2 hhalf hsu ⊢
    linarith only [h1, h2, b0, bh, bu2, hhalf, hsu, n0, hρ0, hBu0]
  · have h1 := abs_add (r 1 - (sv + 1)) (sv - -tv)
    have e : r 1 - (sv + 1) + (sv - -tv) = r 1 - (1 - tv) := by ring
    rw [e] at h1
    norm_num at h1 b1 bv2 hsv ⊢
    linarith only [h1, b1, bv2, hsv, n1, hBv0]
  · refine le_trans b2 ?_
    norm_num
    linarith only [n2, nf]

/-- C15 (amended). In `float` arithmetic, for an `int` image_width W >= 1, pixel indices
that are values of `int`, an aspect_ratio > 0 whose `float` quotient `q = W / aspect_ratio`
is finite and below 2^31, and a focal length f and camera centre c of magnitude at most
2^125: `get_ray_direction` returns `normalize()` of a finite vector r that agrees with
`((2 pos_u - W) / H, (H - 2 pos_v) / H, -f)`, `H = max(1, floor(q))`, up to the rounding of
the operations, component by component within `(|c_i| + m_i) / 2^19 + 2^-146`, where `m` is
`((W + 2 |pos_u|) / H, (H + 2 |pos_v|) / H, |f|)`; whenever `square_of_length()` of r is
finite and at least 2^-126 the returned vector has `square_of_length()` within 1e-4 of 1;
and the argument `image_height` has no influence on the result. -/
theorem get_ray_direction_spec [FloorRing F] (sqrt : F → F)
    (hs : ∀ x, 0 ≤ x → 0 ≤ sqrt x ∧ sqrt x * sqrt x = x)
    (pos_v pos_u image_width image_height : Int) (aspect_ratio focal_length q : F)
    (c : Fin 3 → F)
    (hw : 1 ≤ image_width) (hw31 : image_width < 2 ^ 31)
    (hu : |pos_u| ≤ 2 ^ 31) (hv : |pos_v| ≤ 2 ^ 31) (ha : 0 < aspect_ratio)
    (hq : (float_format.of_int image_width).div float_format (Float_value.finite aspect_ratio) =
      Float_value.finite q)
    (hq31 : q < 2 ^ 31) (hf : |focal_length| ≤ 2 ^ 125) (hc : ∀ i, |c i| ≤ 2 ^ 125) :
    ∃ r : Fin 3 → F,
      get_ray_direction_float sqrt pos_v pos_u image_width image_height
          (Float_value.finite aspect_ratio) (Float_value.finite focal_length)
          ⟨fun i => Float_value.finite (c i)⟩ =
        some ((Vector.mk fun i => Float_value.finite (r i)).normalize_float sqrt) ∧
      |r 0 - (2 * (pos_u : F) - (image_width : F)) / ((max 1 ⌊q⌋ : Int) : F)| ≤
        (|c 0| + ((image_width : F) + 2 * |(pos_u : F)|) / ((max 1 ⌊q⌋ : Int) : F)) / 2 ^ 19 +
          1 / 2 ^ 146 ∧
      |r 1 - (((max 1 ⌊q⌋ : Int) : F) - 2 * (pos_v : F)) / ((max 1 ⌊q⌋ : Int) : F)| ≤
        (|c 1| + (((max 1 ⌊q⌋ : Int) : F) + 2 * |(pos_v : F)|) / ((max 1 ⌊q⌋ : Int) : F)) /
          2 ^ 19 + 1 / 2 ^ 146 ∧
      |r 2 - -focal_length| ≤ (|c 2| + |focal_length|) / 2 ^ 19 + 1 / 2 ^ 146 ∧
      (∀ A, (Vector.mk fun i => Float_value.finite (r i)).square_of_length_float =
          Float_value.finite A → 1 / 2 ^ 126 ≤ A →
        ∃ t, ((Vector.mk fun i => Float_value.finite (r i)).normalize_float
            sqrt).square_of_length_float = Float_value.finite t ∧ |t - 1| ≤ 0.0001) ∧
      ∀ other_height : Int,
        get_ray_direction_float sqrt pos_v pos_u image_width other_height
            (Float_value.finite aspect_ratio) (Float_value.finite focal_length)
            ⟨fun i => Float_value.finite (c i)⟩ =
          get_ray_direction_float sqrt pos_v pos_u image_width image_height
            (Float_value.finite aspect_ratio) (Float_value.finite focal_length)
            ⟨fun i => Float_value.finite (c i)⟩ := by
  obtain ⟨vp, r, evp, er, b0, b1, b2⟩ := float_ray_direction_spec pos_v pos_u image_width
    image_height aspect_ratio focal_length q c hw hw31 hu hv ha hq hq31 hf hc
  have heq : ∀ h : Int, get_ray_direction_float sqrt pos_v pos_u image_width h
      (Float_value.finite aspect_ratio) (Float_value.finite focal_length)
      ⟨fun i => Float_value.finite (c i)⟩ =
      some ((Vector.mk fun i => Float_value.finite (r i)).normalize_float sqrt) := by
    intro h
    have evp' : viewport_float pos_v pos_u image_width h (Float_value.finite aspect_ratio)
        (Float_value.finite focal_length) = some vp := evp
    unfold get_ray_direction_float
    rw [evp', Option.map_some', er]
  exact ⟨r, heq image_height, b0, b1, b2,
    fun A hA hlo => float_normalize_unit sqrt hs _ A hA hlo,
    fun h => (heq h).trans (heq image_height).symm⟩

/-- C15, as stated, fails: for image_width 2 and aspect_ratio 2^-30 the quotient is 2^31,
which is not a value of `int`; the conversion is undefined and no direction is determined
(the claim announces H = 2^31). -/
theorem get_ray_direction_spec_counterexample :
    get_ray_direction_float Real.sqrt 0 0 2 0 (Float_value.finite (1 / 2 ^ 30))
      (Float_value.finite 2) ⟨fun _ => Float_value.finite 0⟩ = none := by
  have hne : (1 / 2 ^ 30 : ℝ) ≠ 0 := by norm_num
  unfold get_ray_direction_float viewport_float
  simp only [Float_format.of_int, Int.cast_ofNat, float_round_2, Float_value.div_finite _ _ _ hne,
    float_round_two_31, Float_value.to_int]
  norm_num

/-- C15 (amended) applied to the first pixel of the 960 pixel wide image of `main`, with
its aspect ratio `16.0f / 9.0f = 14913081 / 8388608`, focal length 2 and the camera at the
origin: the `float` quotient is 540.0, so the height is 540 (the exact quotient is below
540), the direction is `normalize()` of a vector within 2^-17 of (-16/9, 1, -2), and its
`square_of_length()` is within 1e-4 of 1. -/
theorem get_ray_direction_spec_witness :
    ∃ (r : Fin 3 → ℝ) (t : ℝ),
      get_ray_direction_float Real.sqrt 0 0 960 0 (Float_value.finite (14913081 / 8388608))
          (Float_value.finite 2) ⟨fun _ => Float_value.finite 0⟩ =
        some ((Vector.mk fun i => Float_value.finite (r i)).normalize_float Real.sqrt) ∧
      |r 0 - -(16 / 9)| ≤ 1 / 2 ^ 17 ∧ |r 1 - 1| ≤ 1 / 2 ^ 17 ∧ |r 2 - -2| ≤ 1 / 2 ^ 17 ∧
      ((Vector.mk fun i => Float_value.finite (r i)).normalize_float
        Real.sqrt).square_of_length_float = Float_value.finite t ∧
      |t - 1| ≤ 0.0001 := by
  obtain ⟨r, hr, b0, b1, b2, hunit, _⟩ := get_ray_direction_spec Real.sqrt real_sqrt_spec 0 0 960 0
    (14913081 / 8388608) 2 540 (fun _ => 0) (by norm_num) (by norm_num) (by norm_num)
    (by norm_num) (by norm_num) float_quotient_main (by norm_num) (by norm_num [abs_of_pos])
    (fun _ => by norm_num)
  have hfl : (max 1 ⌊(540 : ℝ)⌋ : Int) = 540 := by
    have : ⌊(540 : ℝ)⌋ = 540 := by
      rw [Int.floor_eq_iff]
      norm_num
    rw [this]
    rfl
  rw [hfl] at b0 b1
  norm_num at b0 b1 b2
  have a0 := abs_le.mp b0
  have a1 := abs_le.mp b1
  have a2 := abs_le.mp b2
  have s0 : r 0 * r 0 ≤ 4 := by nlinarith [a0.1, a0.2]
  have s1 : r 1 * r 1 ≤ 4 := by nlinarith [a1.1, a1.2]
  have s2 : r 2 * r 2 ≤ 9 := by nlinarith [a2.1, a2.2]
  have s3 : 1 ≤ r 2 * r 2 := by nlinarith [a2.1, a2.2]
  have p0 := mul_self_nonneg (r 0)
  have p1 := mul_self_nonneg (r 1)
  obtain ⟨A, eA, _, lA, _⟩ := float_square_of_length r (by
    norm_num
    linarith only [s0, s1, s2])
  obtain ⟨t, et, bt⟩ := hunit A eA (by
    norm_num at lA ⊢
    linarith only [lA, s3, p0, p1])
  refine ⟨r, t, hr, ?_, ?_, ?_, et, bt⟩
  · rw [sub_neg_eq_add]
    exact le_trans b0 (by norm_num)
  · exact le_trans b1 (by norm_num)
  · rw [sub_neg_eq_add]
    exact le_trans b2 (by norm_num)

theorem pixel_offset_exact [FloorRing F] (vp : Viewport F) (c1 c2 : Vector (Float_value F) 3)
    (h1 : camera_sums_exact vp c1) (h2 : camera_sums_exact vp c2) :
    (pixel_position_float vp c1).sub_float c1 = (pixel_position_float vp c2).sub_float c2 := by
  ext i
  obtain ⟨c, a1, a2, a3, a4, a5, hc, e1, e2, e3, e4, e5, r1, r2, r3, r4, r5⟩ := h1 i
  obtain ⟨d, b1, b2, b3, b4, b5, hd, f1, f2, f3, f4, f5, s1, s2, s3, s4, s5⟩ := h2 i
  rw [e1] at f1
  rw [e2] at f2
  rw [e3] at f3
  rw [e4] at f4
  rw [e5] at f5
  cases f1
  cases f2
  cases f3
  cases f4
  cases f5
  simp only [pixel_position_float, Vector.sub_float, Vector.add_float, hc, hd, e1, e2, e3, e4, e5,
    Float_value.sub_finite, Float_value.add_finite, r1, r2, r3, r4, r5, s1, s2, s3, s4, s5]
  congr 1
  ring

/-- C22 (amended). In `float` arithmetic, for two camera centres c1 and c2 (and the other
arguments as in C15: an `int` image_width W >= 1, pixel indices that are values of `int`, an
aspect_ratio > 0 whose `float` quotient `q = W / aspect_ratio` is finite and below 2^31, all
magnitudes at most 2^125), `get_ray_direction` returns `normalize()` of two finite vectors
r1 and r2 that agree up to the rounding of the additions that involve `cam_center`:
component by component within `(|c1_i| + |c2_i| + 2 m_i) / 2^19 + 2^-145`, where `m` is
`((W + 2 |pos_u|) / H, (H + 2 |pos_v|) / H, |f|)` and `H = max(1, floor(q))`. The two
directions are the same when none of the five additions and subtractions that combine
`cam_center` with the viewport offsets rounds, for either centre. -/
theorem get_ray_direction_translation [FloorRing F] (sqrt : F → F)
    (pos_v pos_u image_width image_height : Int) (aspect_ratio focal_length q : F)
    (c1 c2 : Fin 3 → F)
    (hw : 1 ≤ image_width) (hw31 : image_width < 2 ^ 31)
    (hu : |pos_u| ≤ 2 ^ 31) (hv : |pos_v| ≤ 2 ^ 31) (ha : 0 < aspect_ratio)
    (hq : (float_format.of_int image_width).div float_format (Float_value.finite aspect_ratio) =
      Float_value.finite q)
    (hq31 : q < 2 ^ 31) (hf : |focal_length| ≤ 2 ^ 125)
    (hc1 : ∀ i, |c1 i| ≤ 2 ^ 125) (hc2 : ∀ i, |c2 i| ≤ 2 ^ 125) :
    ∃ r1 r2 : Fin 3 → F,
      get_ray_direction_float sqrt pos_v pos_u image_width image_height
          (Float_value.finite aspect_ratio) (Float_value.finite focal_length)
          ⟨fun i => Float_value.finite (c1 i)⟩ =
        some ((Vector.mk fun i => Float_value.finite (r1 i)).normalize_float sqrt) ∧
      get_ray_direction_float sqrt pos_v pos_u image_width image_height
          (Float_value.finite aspect_ratio) (Float_value.finite focal_length)
          ⟨fun i => Float_value.finite (c2 i)⟩ =
        some ((Vector.mk fun i => Float_value.finite (r2 i)).normalize_float sqrt) ∧
      |r1 0 - r2 0| ≤ (|c1 0| + |c2 0| +
        2 * (((image_width : F) + 2 * |(pos_u : F)|) / ((max 1 ⌊q⌋ : Int) : F))) / 2 ^ 19 +
          1 / 2 ^ 145 ∧
      |r1 1 - r2 1| ≤ (|c1 1| + |c2 1| +
        2 * ((((max 1 ⌊q⌋ : Int) : F) + 2 * |(pos_v : F)|) / ((max 1 ⌊q⌋ : Int) : F))) / 2 ^ 19 +
          1 / 2 ^ 145 ∧
      |r1 2 - r2 2| ≤ (|c1 2| + |c2 2| + 2 * |focal_length|) / 2 ^ 19 + 1 / 2 ^ 145 ∧
      ((∀ vp, viewport_float pos_v pos_u image_width image_height
          (Float_value.finite aspect_ratio) (Float_value.finite focal_length) = some vp →
          camera_sums_exact vp ⟨fun i => Float_value.finite (c1 i)⟩ ∧
          camera_sums_exact vp ⟨fun i => Float_value.finite (c2 i)⟩) →
        get_ray_direction_float sqrt pos_v pos_u image_width image_height
            (Float_value.finite aspect_ratio) (Float_value.finite focal_length)
            ⟨fun i => Float_value.finite (c1 i)⟩ =
          get_ray_direction_float sqrt pos_v pos_u image_width image_height
            (Float_value.finite aspect_ratio) (Float_value.finite focal_length)
            ⟨fun i => Float_value.finite (c2 i)⟩) := by
  obtain ⟨vp, r1, evp, er1, x1, y1, z1⟩ := float_ray_direction_spec pos_v pos_u image_width
    image_height aspect_ratio focal_length q c1 hw hw31 hu hv ha hq hq31 hf hc1
  obtain ⟨vp', r2, evp', er2, x2, y2, z2⟩ := float_ray_direction_spec pos_v pos_u image_width
    image_height aspect_ratio focal_length q c2 hw hw31 hu hv ha hq hq31 hf hc2
  rw [evp] at evp'
  cases evp'
  have g1 : get_ray_direction_float sqrt pos_v pos_u image_width image_height
      (Float_value.finite aspect_ratio) (Float_value.finite focal_length)
      ⟨fun i => Float_value.finite (c1 i)⟩ =
      some ((Vector.mk fun i => Float_value.finite (r1 i)).normalize_float sqrt) := by
    unfold get_ray_direction_float
    rw [evp, Option.map_some', er1]
  have g2 : get_ray_direction_float sqrt pos_v pos_u image_width image_height
      (Float_value.finite aspect_ratio) (Float_value.finite focal_length)
      ⟨fun i => Float_value.finite (c2 i)⟩ =
      some ((Vector.mk fun i => Float_value.finite (r2 i)).normalize_float sqrt) := by
    unfold get_ray_direction_float
    rw [evp, Option.map_some', er2]
  refine ⟨r1, r2, g1, g2, ?_, ?_, ?_, ?_⟩
  · have h := abs_sub_le (r1 0) ((2 * (pos_u : F) - (image_width : F)) /
      ((max 1 ⌊q⌋ : Int) : F)) (r2 0)
    have e := abs_sub_comm ((2 * (pos_u : F) - (image_width : F)) /
      ((max 1 ⌊q⌋ : Int) : F)) (r2 0)
    rw [e] at h
    linarith only [h, x1, x2]
  · have h := abs_sub_le (r1 1) ((((max 1 ⌊q⌋ : Int) : F) - 2 * (pos_v : F)) /
      ((max 1 ⌊q⌋ : Int) : F)) (r2 1)
    have e := abs_sub_comm ((((max 1 ⌊q⌋ : Int) : F) - 2 * (pos_v : F)) /
      ((max 1 ⌊q⌋ : Int) : F)) (r2 1)
    rw [e] at h
    linarith only [h, y1, y2]
  · have h := abs_sub_le (r1 2) (-focal_length) (r2 2)
    have e := abs_sub_comm (-focal_length) (r2 2)
    rw [e] at h
    linarith only [h, z1, z2]
  · intro hex
    obtain ⟨h1, h2⟩ := hex vp evp
    unfold get_ray_direction_float
    rw [evp, Option.map_some', Option.map_some', pixel_offset_exact vp _ _ h1 h2]

theorem viewport_float_small :
    viewport_float 0 1 2 0 (Float_value.finite (1 : ℝ)) (Float_value.finite 1) =
      some { focal := ⟨![Float_value.finite 0, Float_value.finite 0, Float_value.finite 1]⟩
             half_u := ⟨![Float_value.finite 1, Float_value.finite 0, Float_value.finite 0]⟩
             half_v := ⟨![Float_value.finite 0, Float_value.finite (-1), Float_value.finite 0]⟩
             step_u := ⟨![Float_value.finite 1, Float_value.finite 0, Float_value.finite 0]⟩
             step_v := ⟨![Float_value.finite 0, Float_value.finite 0, Float_value.finite 0]⟩ } := by
  have hH : ((float_format.of_int 2).div float_format (Float_value.finite (1 : ℝ))).to_int =
      some 2 := by
    simp only [Float_format.of_int]
    norm_num [float_round_2, Float_value.div, Float_value.to_int]
  have h1 : (1 : ℝ) ≠ 0 := one_ne_zero
  have h2 : (2 : ℝ) ≠ 0 := two_ne_zero
  unfold viewport_float
  rw [hH]
  simp only [Option.map_some']
  norm_num [Float_format.of_int, Float_value.mul_finite, Float_value.div_finite,
    Float_value.convert, Float_value.neg, Vector.smul_float_three, float_round_0, float_round_1,
    float_round_2, float_round_neg_one, float_round_half, double_round_1, double_round_2]

/-- C22, as stated, fails: for a 2 pixel wide image with aspect ratio 1 and focal length 1,
the pixel (0, 1) is seen in the direction (0, 0.70710677, -0.70710677) from the camera
centre (0, 0, 0) and in the direction (0, 0, -1) from the centre (0, 2^25, 0), where the
offset 1 is absorbed by the rounding of 2^25 + 1. -/
theorem get_ray_direction_translation_counterexample :
    get_ray_direction_float Real.sqrt 0 1 2 0 (Float_value.finite 1) (Float_value.finite 1)
        ⟨![Float_value.finite 0, Float_value.finite 0, Float_value.finite 0]⟩ =
      some ⟨![Float_value.finite 0, Float_value.finite (11863283 / 2 ^ 24),
        Float_value.finite (-(11863283 / 2 ^ 24))]⟩ ∧
    get_ray_direction_float Real.sqrt 0 1 2 0 (Float_value.finite 1) (Float_value.finite 1)
        ⟨![Float_value.finite 0, Float_value.finite (2 ^ 25), Float_value.finite 0]⟩ =
      some ⟨![Float_value.finite 0, Float_value.finite 0, Float_value.finite (-1)]⟩ := by
  have h1 : (1 : ℝ) ≠ 0 := one_ne_zero
  have hL : (11863283 / 8388608 : ℝ) ≠ 0 := by norm_num
  constructor
  · unfold get_ray_direction_float
    rw [viewport_float_small]
    norm_num [pixel_position_float, Vector.sub_float_three,
      Vector.add_float_three, Float_value.sub_finite, Float_value.add_finite,
      float_round_0, float_round_1, float_round_neg_one, float_round_2,
      Vector.normalize_float, Vector.length_float, Vector.square_of_length_float_three,
      Vector.div_assign_float_three, Float_value.mul_finite,
      Float_value.sqrt_finite, float_round_sqrt_two, Float_value.div_finite,
      float_round_inv_sqrt_two_literal, float_round_neg_inv_sqrt_two_literal]
  · unfold get_ray_direction_float
    rw [viewport_float_small]
    norm_num [pixel_position_float, Vector.sub_float_three,
      Vector.add_float_three, Float_value.sub_finite, Float_value.add_finite,
      float_round_0, float_round_1, float_round_neg_one, float_round_2,
      Vector.normalize_float, Vector.length_float, Vector.square_of_length_float_three,
      Vector.div_assign_float_three, Float_value.mul_finite,
      Float_value.sqrt_finite, Float_value.div_finite, float_round_big_literal, float_round_absorb_literal]

/-- C22 (amended) applied to the camera centres (0, 0, 0) and (1, 1, 1), for a 2 pixel
wide image with aspect ratio 1 and focal length 1: no addition rounds and the pixel (0, 1)
is seen in the same direction from both. -/
theorem get_ray_direction_translation_witness :
    get_ray_direction_float Real.sqrt 0 1 2 0 (Float_value.finite 1) (Float_value.finite 1)
        ⟨fun _ => Float_value.finite 0⟩ =
      get_ray_direction_float Real.sqrt 0 1 2 0 (Float_value.finite 1) (Float_value.finite 1)
        ⟨fun _ => Float_value.finite 1⟩ := by
  have hq : (float_format.of_int 2).div float_format (Float_value.finite (1 : ℝ)) =
      Float_value.finite 2 := by
    simp only [Float_format.of_int]
    norm_num [float_round_2, Float_value.div]
  obtain ⟨r1, r2, _, _, _, _, _, hex⟩ := get_ray_direction_translation Real.sqrt 0 1 2 0 1 1 2
    (fun _ => 0) (fun _ => 1) (by norm_num) (by norm_num) (by norm_num) (by norm_num)
    (by norm_num) hq (by norm_num) (by norm_num) (fun _ => by norm_num) (fun _ => by norm_num)
  refine hex fun vp hvp => ?_
  rw [viewport_float_small] at hvp
  cases hvp
  constructor
  · intro i
    fin_cases i <;>
      refine ⟨_, _, _, _, _, _, rfl, rfl, rfl, rfl, rfl, rfl, ?_, ?_, ?_, ?_, ?_⟩ <;>
      norm_num [float_round_0, float_round_1, float_round_neg_one, float_round_2]
  · intro i
    fin_cases i <;>
      refine ⟨_, _, _, _, _, _, rfl, rfl, rfl, rfl, rfl, rfl, ?_, ?_, ?_, ?_, ?_⟩ <;>
      norm_num [float_round_0, float_round_1, float_round_neg_one, float_round_2]

end Raytracer
